import Mathlib

/-!
# Relationship service of omnibasement

A shallow embedding of `src/services/relationship_service.go`.

The service talks to a document store through `clients.ArangoDBClient`, which is
not part of this repository: the client is a record of functions over an
explicit store state, and every theorem about the service quantifies over all
such clients.  Every store call the service issues is also recorded in a trace,
so that the arguments handed to the store can be stated.

Go strings that reach the service come out of protobuf decoding and are valid
UTF-8; they are Lean strings here (sequences of Unicode code points).
-/

namespace Omnibasement

/-! ## Go standard library: `strings` and `unicode` -/

/-- Go `unicode.ToLower`: ASCII is handled inline, `'A'..'Z'` move up by
`'a' - 'A'`; every other rune goes through the case tables of the Go runtime,
`unicode.To(unicode.LowerCase, r)`, which are taken as the parameter
`caseTable`. -/
def unicodeToLower (caseTable : Char → Char) (r : Char) : Char :=
  if r.toNat ≤ 0x7F then
    if 'A'.toNat ≤ r.toNat ∧ r.toNat ≤ 'Z'.toNat then Char.ofNat (r.toNat + ('a'.toNat - 'A'.toNat))
    else r
  else caseTable r

/-- Go `strings.Map` on valid UTF-8 with a mapping that drops no rune. -/
def stringsMap (mapping : Char → Char) (s : String) : String :=
  ⟨s.data.map mapping⟩

/-- Go `strings.ToLower`: an ASCII-only string is returned as it is when it has
no upper case letter and is mapped byte by byte otherwise; any other string goes
through `strings.Map(unicode.ToLower, s)`. -/
def stringsToLower (caseTable : Char → Char) (s : String) : String :=
  if s.data.all (fun c => decide (c.toNat < 0x80)) then
    if s.data.any (fun c => decide ('A'.toNat ≤ c.toNat ∧ c.toNat ≤ 'Z'.toNat)) then
      ⟨s.data.map (fun c =>
        if 'A'.toNat ≤ c.toNat ∧ c.toNat ≤ 'Z'.toNat then Char.ofNat (c.toNat + ('a'.toNat - 'A'.toNat))
        else c)⟩
    else s
  else stringsMap (unicodeToLower caseTable) s

/-- Go `strings.ReplaceAll(s, old, new)` for one-character `old` and `new`, the
only way the service calls it: every occurrence of `old` becomes `new`. -/
def stringsReplaceAll (s : String) (old new : Char) : String :=
  ⟨s.data.map (fun c => if c = old then new else c)⟩

/-- The case table that leaves every rune beyond ASCII alone.  It stands in for
the runtime's table in concrete runs on ASCII text, where the table is never
consulted. -/
def asciiCaseTable : Char → Char := fun c => c

/-! ## Status codes and messages -/

/-- The gRPC codes the service returns. -/
inductive Code
  | OK
  | InvalidArgument
  | NotFound
  | Internal
  deriving DecidableEq, Repr

/-- A gRPC status as built by `status.Errorf(code, message)`. -/
structure Status where
  code : Code
  message : String
  deriving DecidableEq, Repr

/-! ## Data model -/

/-- Modelled from the spec: the edge record `model.Relation` of the
omniscent-library, `{id, key, revision, from, to, name}` (spec section 3); the
field names are those the service reads and writes. -/
structure Relation where
  Id : String
  Key : String
  Rev : String
  From : String
  To : String
  Name : String
  deriving DecidableEq, Repr

/-- The endpoint constraints `driver.VertexConstraints` of an edge collection. -/
structure VertexConstraints where
  From : List String
  To : List String
  deriving DecidableEq, Repr

/-- The metadata `driver.DocumentMeta` the store returns for a document. -/
structure DocumentMeta where
  Key : String
  ID : String
  Rev : String
  deriving DecidableEq, Repr

/-- A collection handle `driver.Collection`; `Name` is what `collection.Name()`
reports. -/
structure Collection where
  Name : String
  deriving DecidableEq, Repr

/-- An error value returned by the driver or the client. -/
inductive DriverError
  | noMoreDocuments
  | arango (code : Nat) (message : String)
  | other (message : String)
  deriving DecidableEq, Repr

/-- Go `driver.IsNoMoreDocuments`. -/
def IsNoMoreDocuments : DriverError → Bool
  | .noMoreDocuments => true
  | _ => false

/-- The bind variables of a query: `key`, `@collection` and, for the update
query only, `patch` (which may hold a nil relationship). -/
structure BindVars where
  key : String
  patch : Option (Option Relation)
  collection : String
  deriving DecidableEq, Repr

/-- A query cursor, as far as the service uses it: the outcome of the first
`ReadDocument`. -/
structure Cursor where
  ReadDocument : Except DriverError (DocumentMeta × Relation)

/-- The store client `clients.ArangoDBClient` over a store state `σ`: the id
parser, the edge-collection resolver, the graph handle `OsintGraph`, document
insertion on a collection handle (with `driver.WithReturnNew`, so the stored
document comes back next to its metadata) and the query primitive `DB.Query`. -/
structure ArangoDBClient (σ : Type) where
  ParseDocID : String → Except DriverError (String × String)
  GetCreateEdgeCollection : σ → String → VertexConstraints → σ × Except DriverError Collection
  CreateVertexCollectionWithOptions : σ → String → σ × Except DriverError Collection
  CreateDocument : σ → Collection → Relation → σ × Except DriverError (DocumentMeta × Relation)
  Query : σ → String → BindVars → σ × Except DriverError Cursor

/-- One call issued to the store, with its arguments. -/
inductive StoreCall
  | GetCreateEdgeCollection (name : String) (constraints : VertexConstraints)
  | CreateVertexCollectionWithOptions (name : String)
  | CreateDocument (collection : String) (document : Relation)
  | Query (query : String) (bindVars : BindVars)
  deriving DecidableEq, Repr

/-- The request `base.CreateRelationshipRequest`; `Relationship` may be nil. -/
structure CreateRelationshipRequest where
  Relationship : Option Relation
  deriving DecidableEq, Repr

/-- The request `base.UpdateRelationshipRequest`. -/
structure UpdateRelationshipRequest where
  Id : String
  Relationship : Option Relation
  deriving DecidableEq, Repr

/-- The request `base.DeleteRelationshipRequest`. -/
structure DeleteRelationshipRequest where
  Id : String
  deriving DecidableEq, Repr

/-- What a service call leaves behind: the response or the status it failed
with, the relationship object of the caller's request as it is afterwards (the
service writes through the pointer), the store state, and the store calls
issued, in order. -/
structure Outcome (σ : Type) (α : Type) where
  result : Except Status α
  request : Option Relation
  store : σ
  calls : List StoreCall

/-! ## The service -/

/-- The status of every rejected id or payload in `CreateRelationship`. -/
def badParameter : Status := ⟨Code.InvalidArgument, "Bad parameter"⟩

/-- The status of every rejected id in `UpdateRelationship` and
`DeleteRelationship`. -/
def invalidParameter : Status := ⟨Code.InvalidArgument, "Invalid parameter"⟩

/-- The status of every backend failure. -/
def internalError : Status := ⟨Code.Internal, "Internal service error. Please try again later."⟩

/-- The status of an update or delete whose cursor is empty. -/
def relationNotFound : Status := ⟨Code.NotFound, "Relation not found"⟩

/-- The name processing of `CreateRelationship` (lines 60-65):
`strings.ToLower(strings.ReplaceAll(name, " ", "_"))`, rejected when the result
has length zero. -/
def processRelationName (caseTable : Char → Char) (name : String) : Except Status String :=
  let relationName := stringsToLower caseTable (stringsReplaceAll name ' ' '_')
  if relationName.length = 0 then
    .error ⟨Code.InvalidArgument, "invalid relation name"⟩
  else
    .ok relationName

/-- The collection name of `CreateRelationship` (line 67):
`fmt.Sprintf("%s_%s_%s", fromColl, relationName, toColl)`. -/
def collectionName (fromColl relationName toColl : String) : String :=
  fromColl ++ "_" ++ relationName ++ "_" ++ toColl

/-- The method `RelationshipService.CreateRelationship`. -/
def CreateRelationship {σ : Type} (caseTable : Char → Char) (db : ArangoDBClient σ) (s : σ)
    (req : CreateRelationshipRequest) : Outcome σ Relation :=
  match req.Relationship with
  | none => ⟨.error badParameter, none, s, []⟩
  | some relationship =>
    match db.ParseDocID relationship.From with
    | .error _ => ⟨.error badParameter, some relationship, s, []⟩
    | .ok (fromColl, _) =>
      match db.ParseDocID relationship.To with
      | .error _ => ⟨.error badParameter, some relationship, s, []⟩
      | .ok (toColl, _) =>
        match processRelationName caseTable relationship.Name with
        | .error st => ⟨.error st, some relationship, s, []⟩
        | .ok relationName =>
          let name := collectionName fromColl relationName toColl
          let constraints : VertexConstraints := ⟨[fromColl], [toColl]⟩
          let call₁ := StoreCall.GetCreateEdgeCollection name constraints
          match db.GetCreateEdgeCollection s name constraints with
          | (s₁, .error _) => ⟨.error internalError, some relationship, s₁, [call₁]⟩
          | (s₁, .ok collection) =>
            let call₂ := StoreCall.CreateVertexCollectionWithOptions collection.Name
            let s₂ := (db.CreateVertexCollectionWithOptions s₁ collection.Name).1
            let cleared : Relation := { relationship with Id := "", Key := "", Rev := "" }
            let call₃ := StoreCall.CreateDocument collection.Name cleared
            match db.CreateDocument s₂ collection cleared with
            | (s₃, .error _) => ⟨.error internalError, some cleared, s₃, [call₁, call₂, call₃]⟩
            | (s₃, .ok (meta, createdRelationship)) =>
              ⟨.ok { createdRelationship with Id := meta.ID, Key := meta.Key, Rev := meta.Rev },
                some cleared, s₃, [call₁, call₂, call₃]⟩

/-- The query text of `UpdateRelationship`. -/
def updateQuery : String :=
  "\n\t\tLET cleanPatch = UNSET(@patch, \"_id\", \"_key\", \"_rev\")\n\t\tUPDATE @key WITH cleanPatch IN @@collection\n\t\tRETURN NEW\n\t"

/-- The query text of `DeleteRelationship`. -/
def deleteQuery : String :=
  "\n\t\tFOR doc IN @@collection\n\t\t\tFILTER doc._key == @key\n\t\t\tREMOVE doc IN @@collection\n\t\t\tRETURN OLD\n\t"

/-- The method `RelationshipService.UpdateRelationship`. -/
def UpdateRelationship {σ : Type} (db : ArangoDBClient σ) (s : σ)
    (req : UpdateRelationshipRequest) : Outcome σ Relation :=
  match db.ParseDocID req.Id with
  | .error _ => ⟨.error invalidParameter, req.Relationship, s, []⟩
  | .ok (coll, key) =>
    let bindVars : BindVars := ⟨key, some req.Relationship, coll⟩
    let call := StoreCall.Query updateQuery bindVars
    match db.Query s updateQuery bindVars with
    | (s₁, .error _) => ⟨.error internalError, req.Relationship, s₁, [call]⟩
    | (s₁, .ok cursor) =>
      match cursor.ReadDocument with
      | .error err =>
        if IsNoMoreDocuments err then ⟨.error relationNotFound, req.Relationship, s₁, [call]⟩
        else ⟨.error internalError, req.Relationship, s₁, [call]⟩
      | .ok (meta, relationship) =>
        ⟨.ok { relationship with Id := meta.ID, Key := meta.Key, Rev := meta.Rev },
          req.Relationship, s₁, [call]⟩

/-- The method `RelationshipService.DeleteRelationship`. -/
def DeleteRelationship {σ : Type} (db : ArangoDBClient σ) (s : σ)
    (req : DeleteRelationshipRequest) : Outcome σ Unit :=
  match db.ParseDocID req.Id with
  | .error _ => ⟨.error invalidParameter, none, s, []⟩
  | .ok (coll, key) =>
    let bindVars : BindVars := ⟨key, none, coll⟩
    let call := StoreCall.Query deleteQuery bindVars
    match db.Query s deleteQuery bindVars with
    | (s₁, .error _) => ⟨.error internalError, none, s₁, [call]⟩
    | (s₁, .ok cursor) =>
      match cursor.ReadDocument with
      | .error err =>
        if IsNoMoreDocuments err then ⟨.error relationNotFound, none, s₁, [call]⟩
        else ⟨.error internalError, none, s₁, [call]⟩
      | .ok _ => ⟨.ok (), none, s₁, [call]⟩

/-! ## A reference store -/

/-- Splits a character list at its first `'/'`. -/
def splitAtSeparator : List Char → Option (List Char × List Char)
  | [] => none
  | c :: cs =>
    if c = '/' then some ([], cs)
    else
      match splitAtSeparator cs with
      | none => none
      | some (coll, key) => some (c :: coll, key)

/-- Modelled from the spec: the id parser `ParseDocID` of the omniscent-library
client, which is not in this repository.  Spec section 4.1: `parse(id)` splits
on the first separator and fails if `id` lacks the separator or either
resulting part is empty. -/
def parseDocID (id : String) : Except DriverError (String × String) :=
  match splitAtSeparator id.data with
  | none => .error (.other "invalid document id")
  | some (coll, key) =>
    if coll = [] ∨ key = [] then .error (.other "invalid document id")
    else .ok (⟨coll⟩, ⟨key⟩)

/-- Modelled from the spec: the state of the Document Store of spec section 6,
which is not in this repository: the collections that exist, the endpoint
constraints of the edge collections, the vertex collections registered in the
graph, the stored documents with the collection each lives in, and a counter
from which keys and revisions are drawn. -/
structure MemStore where
  collections : List String
  constraints : List (String × VertexConstraints)
  graphVertices : List String
  documents : List (String × Relation)
  clock : Nat
  deriving DecidableEq, Repr

/-- The empty store. -/
def MemStore.empty : MemStore := ⟨[], [], [], [], 0⟩

/-- Modelled from the spec: a character of the restricted partition-name
alphabet of spec section 3, which is the collection-name alphabet of the
database: the ASCII letters and digits, the underscore and the dash. -/
def partitionNameChar (c : Char) : Bool :=
  (97 ≤ c.toNat && c.toNat ≤ 122) || (65 ≤ c.toNat && c.toNat ≤ 90) ||
    (48 ≤ c.toNat && c.toNat ≤ 57) || c = '_' || c = '-'

/-- Modelled from the spec: a partition name the store accepts: not empty, and
every character in the restricted partition-name alphabet of spec section 3. -/
def validPartitionName (name : String) : Bool :=
  !name.data.isEmpty && name.data.all partitionNameChar

/-- Modelled from the spec: `getOrCreateEdgePartition` of spec section 6,
idempotent: an existing collection is returned as it is.  A name outside the
restricted partition-name alphabet of spec section 3 is refused with the
database's "illegal name" error and nothing is created. -/
def MemStore.getCreateEdgeCollection (s : MemStore) (name : String) (c : VertexConstraints) :
    MemStore × Except DriverError Collection :=
  if validPartitionName name then
    if name ∈ s.collections then (s, .ok ⟨name⟩)
    else ({ s with collections := name :: s.collections, constraints := (name, c) :: s.constraints },
      .ok ⟨name⟩)
  else (s, .error (.arango 400 "illegal name"))

/-- Modelled from the spec: registration of a vertex collection in the graph;
a name already registered is reported as a conflict. -/
def MemStore.createVertexCollection (s : MemStore) (name : String) :
    MemStore × Except DriverError Collection :=
  if name ∈ s.graphVertices then (s, .error (.arango 409 "duplicate name"))
  else ({ s with graphVertices := name :: s.graphVertices }, .ok ⟨name⟩)

/-- Modelled from the spec: `partition.create(document)` of spec section 6:
the store assigns key and revision, forms the id as `"<collection>/<key>"`,
and returns the stored document with its metadata. -/
def MemStore.createDocument (s : MemStore) (c : Collection) (doc : Relation) :
    MemStore × Except DriverError (DocumentMeta × Relation) :=
  if c.Name ∈ s.collections then
    let key := toString (s.clock + 1)
    let rev := "_r" ++ toString (s.clock + 1)
    let stored : Relation := { doc with Id := c.Name ++ "/" ++ key, Key := key, Rev := rev }
    ({ s with documents := (c.Name, stored) :: s.documents, clock := s.clock + 1 },
      .ok (⟨key, c.Name ++ "/" ++ key, rev⟩, stored))
  else (s, .error (.arango 404 "collection or view not found"))

/-- The stored document at `(collection, key)`, if any. -/
def MemStore.lookup (s : MemStore) (coll key : String) : Option Relation :=
  (s.documents.find? (fun d => d.1 = coll ∧ d.2.Key = key)).map (fun d => d.2)

/-- Modelled from the spec: the merge-patch of spec section 4.3: a field of the
patch that is set overwrites the stored value, and `id`, `key`, `revision` of the
patch are stripped. -/
def mergePatch (stored : Relation) (patch : Option Relation) : Relation :=
  match patch with
  | none => stored
  | some p =>
    { stored with
      From := if p.From = "" then stored.From else p.From
      To := if p.To = "" then stored.To else p.To
      Name := if p.Name = "" then stored.Name else p.Name }

/-- Modelled from the spec: the query primitive of spec section 6, for the two
statements the service sends: "merge-patch document at key in partition, return
new value" and "remove document at key in partition, return old value". -/
def MemStore.query (s : MemStore) (query : String) (b : BindVars) :
    MemStore × Except DriverError Cursor :=
  if b.collection ∈ s.collections then
    if query = updateQuery then
      match s.lookup b.collection b.key with
      | none => (s, .error (.arango 404 "document not found"))
      | some old =>
        let rev := "_r" ++ toString (s.clock + 1)
        let new : Relation := { mergePatch old (b.patch.bind id) with Rev := rev }
        ({ s with
            documents := s.documents.map (fun d =>
              if d.1 = b.collection ∧ d.2.Key = b.key then (d.1, new) else d)
            clock := s.clock + 1 },
          .ok ⟨.ok (⟨new.Key, new.Id, rev⟩, new)⟩)
    else if query = deleteQuery then
      match s.lookup b.collection b.key with
      | none => (s, .ok ⟨.error .noMoreDocuments⟩)
      | some old =>
        ({ s with documents := s.documents.filter (fun d => ¬ (d.1 = b.collection ∧ d.2.Key = b.key)) },
          .ok ⟨.ok (⟨old.Key, old.Id, old.Rev⟩, old)⟩)
    else (s, .error (.arango 400 "syntax error"))
  else (s, .error (.arango 404 "collection or view not found"))

/-- The reference client: the spec's id parser over the reference store. -/
def memClient : ArangoDBClient MemStore where
  ParseDocID := parseDocID
  GetCreateEdgeCollection := MemStore.getCreateEdgeCollection
  CreateVertexCollectionWithOptions := MemStore.createVertexCollection
  CreateDocument := MemStore.createDocument
  Query := MemStore.query

/-- The request of the spec's end-to-end example. -/
def hostedByRequest : CreateRelationshipRequest :=
  ⟨some ⟨"", "", "", "events/e1", "organizations/o1", "hosted by"⟩⟩

/-- The gRPC code of a result: `OK` for a response. -/
def resultCode {α : Type} : Except Status α → Code
  | .ok _ => Code.OK
  | .error st => st.code

/-- The names passed to the graph's vertex-collection registration, in call
order. -/
def registeredVertexCollections : List StoreCall → List String
  | [] => []
  | .CreateVertexCollectionWithOptions name :: rest => name :: registeredVertexCollections rest
  | _ :: rest => registeredVertexCollections rest

/-- The documents handed to the store for insertion, in call order. -/
def insertedDocuments : List StoreCall → List Relation
  | [] => []
  | .CreateDocument _ document :: rest => document :: insertedDocuments rest
  | _ :: rest => insertedDocuments rest

/-- The caller's relationship with `Id`, `Key` and `Rev` cleared (lines 85-87). -/
def cleared (rel : Relation) : Relation :=
  { rel with Id := "", Key := "", Rev := "" }

/-- The three store calls of a run that reaches the insert. -/
def fullTrace (F n T : String) (collection : Collection) (rel : Relation) : List StoreCall :=
  [.GetCreateEdgeCollection (collectionName F n T) ⟨[F], [T]⟩,
   .CreateVertexCollectionWithOptions collection.Name,
   .CreateDocument collection.Name (cleared rel)]

/-! ## Normalisation of the relation name -/

/-- The spec's wording of name normalisation, one character at a time: a space
becomes an underscore and every other character is lowercased. -/
def normalizeRune (caseTable : Char → Char) (c : Char) : Char :=
  if c = ' ' then '_' else unicodeToLower caseTable c

/-- The spec's `normalizeName` without its emptiness check. -/
def normalizedName (caseTable : Char → Char) (name : String) : String :=
  ⟨name.data.map (normalizeRune caseTable)⟩

/-- Two characters that differ at most in letter case (same lowercase form,
neither one a space) or as space versus underscore. -/
def sameRuneUpToCaseAndSpace (caseTable : Char → Char) (a b : Char) : Bool :=
  decide (a = b) ||
  (decide (a ≠ ' ') && decide (b ≠ ' ') &&
    decide (unicodeToLower caseTable a = unicodeToLower caseTable b)) ||
  ((decide (a = ' ') || decide (a = '_')) && (decide (b = ' ') || decide (b = '_')))

/-- Two names that differ only in letter case and in space versus underscore,
position by position. -/
def sameUpToCaseAndSpace (caseTable : Char → Char) : List Char → List Char → Bool
  | [], [] => true
  | a :: as, b :: bs => sameRuneUpToCaseAndSpace caseTable a b && sameUpToCaseAndSpace caseTable as bs
  | _, _ => false

/-- A request like the spec's example, with other document keys and the name
typed as `"Hosted By"`. -/
def hostedByRequestTyped : CreateRelationshipRequest :=
  ⟨some ⟨"", "", "", "events/e2", "organizations/o7", "Hosted By"⟩⟩

/-- The request of the spec's example with caller-supplied id, key and
revision. -/
def hostedByRequestWithIdentity : CreateRelationshipRequest :=
  ⟨some ⟨"persons/p9", "p9", "_r77", "events/e1", "organizations/o1", "hosted by"⟩⟩

/-- A request whose relation name holds the id separator. -/
def slashNameRequest : CreateRelationshipRequest :=
  ⟨some ⟨"", "", "", "events/e1", "organizations/o1", "a/b"⟩⟩

/-- The reference store after the request of the spec's example. -/
def storeAfterHostedBy : MemStore :=
  (CreateRelationship asciiCaseTable memClient MemStore.empty hostedByRequest).store

/-- The reference client with an insert that always fails. -/
def failingInsertClient : ArangoDBClient MemStore :=
  { memClient with CreateDocument := fun s _ _ => (s, .error (.other "write failed")) }

/-! ## The update statement, attribute by attribute -/

/-- A document as the query language sees it: the value of each attribute it
holds. -/
def Document : Type := String → Option String

/-- The JSON form of a string field: an empty field is left out. -/
def encodeField (value : String) : Option String :=
  if value = "" then none else some value

/-- Modelled from the spec: the JSON form in which the driver sends a
`model.Relation` (declared in the omniscent-library, not in this repository).
The identity attributes are the store's `_id`, `_key`, `_rev`, the names the
update statement itself strips; the endpoints of an edge document are `_from`
and `_to`; empty fields are left out. -/
def encodeRelation (r : Relation) : Document := fun attr =>
  if attr = "_id" then encodeField r.Id
  else if attr = "_key" then encodeField r.Key
  else if attr = "_rev" then encodeField r.Rev
  else if attr = "_from" then encodeField r.From
  else if attr = "_to" then encodeField r.To
  else if attr = "name" then encodeField r.Name
  else none

/-- Reading a document back into a `model.Relation`: an attribute that is
missing leaves the field empty. -/
def decodeRelation (d : Document) : Relation :=
  ⟨(d "_id").getD "", (d "_key").getD "", (d "_rev").getD "", (d "_from").getD "",
    (d "_to").getD "", (d "name").getD ""⟩

/-- The query function `UNSET(document, names...)`: the document without the
named attrs. -/
def aqlUnset (d : Document) (names : List String) : Document := fun attr =>
  if attr ∈ names then none else d attr

/-- The query operation `UPDATE key WITH patch IN collection` on the stored
document: what the patch holds overwrites the stored value, and every other
stored value is kept. -/
def aqlUpdateWith (stored patch : Document) : Document := fun attr =>
  match patch attr with
  | some value => some value
  | none => stored attr

/-- The first line of `updateQuery`:
`LET cleanPatch = UNSET(@patch, "_id", "_key", "_rev")`. -/
def cleanPatch (patch : Relation) : Document :=
  aqlUnset (encodeRelation patch) ["_id", "_key", "_rev"]

/-- The statement of `updateQuery` on one stored document: the clean patch is
merged into it.  A nil relationship patches nothing. -/
def updateStatement (stored : Relation) (patch : Option Relation) : Relation :=
  match patch with
  | none => stored
  | some p => decodeRelation (aqlUpdateWith (encodeRelation stored) (cleanPatch p))

/-! ## Store states -/

/-- Modelled from the spec: the shape of the store states of spec sections 3
and 6: every document lives in an existing collection, its id is
`"<collection>/<key>"`, and a key occurs once in a collection. -/
def MemStore.WellFormed (s : MemStore) : Prop :=
  (∀ d ∈ s.documents, d.1 ∈ s.collections ∧ d.2.Id = d.1 ++ "/" ++ d.2.Key) ∧
  (s.documents.map (fun d => (d.1, d.2.Key))).Nodup

instance (s : MemStore) : Decidable s.WellFormed := by
  unfold MemStore.WellFormed
  infer_instance

/-- The stored documents with the revision left out. -/
def MemStore.fields (s : MemStore) : List (String × Relation) :=
  s.documents.map (fun d => (d.1, { d.2 with Rev := "" }))

/-- The id the reference store gives the record of the spec's example. -/
def hostedById : String := "events_hosted_by_organizations/1"

/-- The reference store after the record of the spec's example is deleted. -/
def storeAfterDelete : MemStore :=
  (DeleteRelationship memClient storeAfterHostedBy ⟨hostedById⟩).store

/-- The partial of the spec's update example: only the name is set. -/
def relatedPatch : Relation := ⟨"", "", "", "", "", "related"⟩

/-- The partial of the spec's update example with an id, key and revision
added by the caller. -/
def relatedPatchWithIdentity : Relation := ⟨"persons/p9", "p9", "_r77", "", "", "related"⟩

/-- The reference client with a vertex-collection registration that always
fails with the given error. -/
def registrationFailsWith (e : DriverError) : ArangoDBClient MemStore :=
  { memClient with CreateVertexCollectionWithOptions := fun s _ => (s, .error e) }

/-- The reference client with a query primitive that always fails with the
given error. -/
def queryFailsWith (e : DriverError) : ArangoDBClient MemStore :=
  { memClient with Query := fun s _ _ => (s, .error e) }

/-- The client that behaves as `db` except that the vertex-collection
registration reports `r`; the store ends in the state `db` leaves it in. -/
def withRegistrationResult {σ : Type} (db : ArangoDBClient σ)
    (r : Except DriverError Collection) : ArangoDBClient σ :=
  { db with
    CreateVertexCollectionWithOptions := fun s name =>
      ((db.CreateVertexCollectionWithOptions s name).1, r) }

/-- The reference store after the documents at `(coll, key)` are replaced by
`new` (what the update statement does to the store). -/
def MemStore.replaced (s : MemStore) (coll key : String) (new : Relation) : MemStore :=
  { s with
    documents := s.documents.map (fun d => if d.1 = coll ∧ d.2.Key = key then (d.1, new) else d)
    clock := s.clock + 1 }

/-- The reference store after the documents at `(coll, key)` are removed (what
the delete statement does to the store). -/
def MemStore.removed (s : MemStore) (coll key : String) : MemStore :=
  { s with documents := s.documents.filter (fun d => ¬ (d.1 = coll ∧ d.2.Key = key)) }

/-! ## Definitions for the partition name and the request object -/

/-- The spec's order of normalisation (section 4.2): lowercase first, then
replace each space by an underscore. -/
def specNormalizedName (caseTable : Char → Char) (name : String) : String :=
  stringsReplaceAll (stringsToLower caseTable name) ' ' '_'

/-- A request whose from collection holds an underscore: from
`"events_hosted/e1"`, name `"by"`. -/
def underscoreFromRequest : CreateRelationshipRequest :=
  ⟨some ⟨"", "", "", "events_hosted/e1", "organizations/o1", "by"⟩⟩

/-- A request that carries an id, a key and a revision and has no from id. -/
def missingFromRequest : CreateRelationshipRequest :=
  ⟨some ⟨"persons/p9", "p9", "_r77", "", "organizations/o1", "employment"⟩⟩

/-- A store that holds one document of the entity collection `persons`, seen
through the fields of a relationship record. -/
def personsStore : MemStore :=
  ⟨["persons"], [], [], [("persons", ⟨"persons/p1", "p1", "_r1", "", "", "John Doe"⟩)], 1⟩

/-- A partial that sets only the name, typed as `"Hosted By"`. -/
def hostedByPatch : Relation := ⟨"", "", "", "", "", "Hosted By"⟩

/-- A partial that sets only the from id, to a person. -/
def personEndpointPatch : Relation := ⟨"", "", "", "persons/p1", "", ""⟩

/-! ## Reachable store states -/

/-- The store states reachable from the empty reference store through
`CreateRelationship`, `UpdateRelationship` and `DeleteRelationship`, with the
partials of the updates taken from `allowed`. -/
inductive ReachableWith (caseTable : Char → Char) (allowed : Option Relation → Prop) :
    MemStore → Prop
  | empty : ReachableWith caseTable allowed MemStore.empty
  | create (s : MemStore) (req : CreateRelationshipRequest) :
      ReachableWith caseTable allowed s →
      ReachableWith caseTable allowed (CreateRelationship caseTable memClient s req).store
  | update (s : MemStore) (req : UpdateRelationshipRequest) :
      allowed req.Relationship →
      ReachableWith caseTable allowed s →
      ReachableWith caseTable allowed (UpdateRelationship memClient s req).store
  | delete (s : MemStore) (req : DeleteRelationshipRequest) :
      ReachableWith caseTable allowed s →
      ReachableWith caseTable allowed (DeleteRelationship memClient s req).store

/-- The store states reachable with any partial. -/
def Reachable (caseTable : Char → Char) (s : MemStore) : Prop :=
  ReachableWith caseTable (fun _ => True) s

/-- A partial that sets neither the from id nor the to id. -/
def setsNoEndpoint (patch : Option Relation) : Prop :=
  ∀ p, patch = some p → p.From = "" ∧ p.To = ""

/-- Every stored record has a non-empty name. -/
def MemStore.NamesNonEmpty (s : MemStore) : Prop :=
  ∀ d ∈ s.documents, d.2.Name ≠ ""

/-- Every stored record lies in a partition derived from the collections of
its own from and to ids and some relation name. -/
def MemStore.EndpointsMatch (s : MemStore) : Prop :=
  ∀ d ∈ s.documents, ∃ F k₁ T k₂ n,
    parseDocID d.2.From = .ok (F, k₁) ∧ parseDocID d.2.To = .ok (T, k₂) ∧
    d.1 = collectionName F n T

/-! ## Entity services -/

/-- The five entity services, `person_service.go`, `organization_service.go`,
`source_service.go`, `website_service.go` and `event_service.go`; their four
methods differ in the entity type and in the not-found message only. -/
inductive EntityKind
  | persons
  | organizations
  | sources
  | websites
  | events
  deriving DecidableEq, Repr

/-- The message of the `NotFound` status of each entity service. -/
def EntityKind.notFound : EntityKind → String
  | .persons => "Person not found"
  | .organizations => "Organization not found"
  | .sources => "Source not found"
  | .websites => "Website not found"
  | .events => "Event not found"

/-- Modelled from the spec: an entity record (`model.Person`, `model.Website`,
and so on, declared in the omniscent-library): id, key and revision, and the
fields of its kind, which the services never look at. -/
structure Entity (φ : Type) where
  Id : String
  Key : String
  Rev : String
  fields : φ

/-- The collection handle `driver.Collection` of an entity service over a
store state `σ`: the four document operations the services call, the read,
create and update with the document they return. -/
structure EntityCollection (σ φ : Type) where
  ReadDocument : σ → String → σ × Except DriverError (DocumentMeta × Entity φ)
  CreateDocument : σ → Option (Entity φ) → σ × Except DriverError (DocumentMeta × Entity φ)
  UpdateDocument : σ → String → Option (Entity φ) →
    σ × Except DriverError (DocumentMeta × Entity φ)
  RemoveDocument : σ → String → σ × Except DriverError DocumentMeta

/-- Go `driver.IsNotFoundGeneral`: an error of the database with code 404. -/
def IsNotFoundGeneral : DriverError → Bool
  | .arango code _ => code == 404
  | _ => false

/-- The not-found and no-more-results conditions of a backend error: the
errors that `driver.IsNotFoundGeneral` or `driver.IsNoMoreDocuments`
recognises. -/
def isNotFoundCondition (e : DriverError) : Bool :=
  IsNotFoundGeneral e || IsNoMoreDocuments e

/-- What a call of an entity service leaves behind: the response or the
status it failed with, and the store state. -/
structure EntityOutcome (σ : Type) (α : Type) where
  result : Except Status α
  store : σ

/-- The status an entity service returns for a store error. -/
def entityError (kind : EntityKind) (err : DriverError) : Status :=
  if IsNotFoundGeneral err then ⟨Code.NotFound, kind.notFound⟩ else internalError

/-- The methods `GetPerson`, `GetOrganization`, `GetSource`, `GetWebsite` and
`GetEvent`. -/
def GetEntity {σ φ : Type} (kind : EntityKind) (c : EntityCollection σ φ) (s : σ)
    (key : String) : EntityOutcome σ (Entity φ) :=
  match c.ReadDocument s key with
  | (s₁, .error err) =>
    if IsNotFoundGeneral err then ⟨.error ⟨Code.NotFound, kind.notFound⟩, s₁⟩
    else ⟨.error internalError, s₁⟩
  | (s₁, .ok (meta, entity)) =>
    ⟨.ok { entity with Id := meta.ID, Key := meta.Key, Rev := meta.Rev }, s₁⟩

/-- The methods `CreatePerson`, `CreateOrganization`, `CreateSource`,
`CreateWebsite` and `CreateEvent`. -/
def CreateEntity {σ φ : Type} (_kind : EntityKind) (c : EntityCollection σ φ) (s : σ)
    (entity : Option (Entity φ)) : EntityOutcome σ (Entity φ) :=
  match c.CreateDocument s entity with
  | (s₁, .error _) => ⟨.error internalError, s₁⟩
  | (s₁, .ok (meta, created)) =>
    ⟨.ok { created with Id := meta.ID, Key := meta.Key, Rev := meta.Rev }, s₁⟩

/-- The key an update request carries, `req.GetPerson().GetKey()`: empty for a
nil entity. -/
def requestKey {φ : Type} : Option (Entity φ) → String
  | none => ""
  | some entity => entity.Key

/-- The methods `UpdatePerson`, `UpdateOrganization`, `UpdateSource`,
`UpdateWebsite` and `UpdateEvent`. -/
def UpdateEntity {σ φ : Type} (kind : EntityKind) (c : EntityCollection σ φ) (s : σ)
    (entity : Option (Entity φ)) : EntityOutcome σ (Entity φ) :=
  match c.UpdateDocument s (requestKey entity) entity with
  | (s₁, .error err) =>
    if IsNotFoundGeneral err then ⟨.error ⟨Code.NotFound, kind.notFound⟩, s₁⟩
    else ⟨.error internalError, s₁⟩
  | (s₁, .ok (meta, updated)) =>
    ⟨.ok { updated with Id := meta.ID, Key := meta.Key, Rev := meta.Rev }, s₁⟩

/-- The methods `DeletePerson`, `DeleteOrganization`, `DeleteSource`,
`DeleteWebsite` and `DeleteEvent`. -/
def DeleteEntity {σ φ : Type} (kind : EntityKind) (c : EntityCollection σ φ) (s : σ)
    (key : String) : EntityOutcome σ Unit :=
  match c.RemoveDocument s key with
  | (s₁, .error err) =>
    if IsNotFoundGeneral err then ⟨.error ⟨Code.NotFound, kind.notFound⟩, s₁⟩
    else ⟨.error internalError, s₁⟩
  | (s₁, .ok _) => ⟨.ok (), s₁⟩

/-- Modelled from the spec: the state of one entity collection of the Document
Store of spec section 6: its name, its documents, and a counter from which
keys and revisions are drawn. -/
structure EntityStore (φ : Type) where
  name : String
  documents : List (Entity φ)
  clock : Nat

/-- Modelled from the spec: `partition.readByKey(key)` of spec section 6: the
document and its metadata, or not found. -/
def EntityStore.readDocument {φ : Type} (s : EntityStore φ) (key : String) :
    EntityStore φ × Except DriverError (DocumentMeta × Entity φ) :=
  match s.documents.find? (fun e => e.Key = key) with
  | none => (s, .error (.arango 404 "document not found"))
  | some e => (s, .ok (⟨e.Key, e.Id, e.Rev⟩, e))

/-- Modelled from the spec: `partition.create(document)` of spec section 6: the
store assigns key and revision and forms the id as `"<collection>/<key>"`. -/
def EntityStore.createDocument {φ : Type} (s : EntityStore φ) (doc : Option (Entity φ)) :
    EntityStore φ × Except DriverError (DocumentMeta × Entity φ) :=
  match doc with
  | none => (s, .error (.arango 400 "invalid document"))
  | some d =>
    let key := toString (s.clock + 1)
    let rev := "_r" ++ toString (s.clock + 1)
    let stored : Entity φ := { d with Id := s.name ++ "/" ++ key, Key := key, Rev := rev }
    ({ s with documents := stored :: s.documents, clock := s.clock + 1 },
      .ok (⟨key, s.name ++ "/" ++ key, rev⟩, stored))

/-- Modelled from the spec: the update by key of spec section 1: the fields of
the patch are merged into the stored ones by `merge`, and the revision is
renewed; not found when the key is missing. -/
def EntityStore.updateDocument {φ : Type} (merge : φ → φ → φ) (s : EntityStore φ)
    (key : String) (patch : Option (Entity φ)) :
    EntityStore φ × Except DriverError (DocumentMeta × Entity φ) :=
  match patch with
  | none => (s, .error (.arango 400 "invalid document"))
  | some p =>
    match s.documents.find? (fun e => e.Key = key) with
    | none => (s, .error (.arango 404 "document not found"))
    | some e =>
      let rev := "_r" ++ toString (s.clock + 1)
      let new : Entity φ := { e with Rev := rev, fields := merge e.fields p.fields }
      ({ s with
          documents := s.documents.map (fun d => if d.Key = key then new else d)
          clock := s.clock + 1 },
        .ok (⟨new.Key, new.Id, rev⟩, new))

/-- Modelled from the spec: `partition.removeByKey(key)` of spec section 6:
done, or not found. -/
def EntityStore.removeDocument {φ : Type} (s : EntityStore φ) (key : String) :
    EntityStore φ × Except DriverError DocumentMeta :=
  match s.documents.find? (fun e => e.Key = key) with
  | none => (s, .error (.arango 404 "document not found"))
  | some e =>
    ({ s with documents := s.documents.filter (fun d => ¬ d.Key = key) },
      .ok ⟨e.Key, e.Id, e.Rev⟩)

/-- The reference collection handle over the reference entity store. -/
def entityClient {φ : Type} (merge : φ → φ → φ) : EntityCollection (EntityStore φ) φ where
  ReadDocument := EntityStore.readDocument
  CreateDocument := EntityStore.createDocument
  UpdateDocument := EntityStore.updateDocument merge
  RemoveDocument := EntityStore.removeDocument

/-- The empty `persons` collection; the only field of a person here is the
name. -/
def emptyPersons : EntityStore String := ⟨"persons", [], 0⟩

/-- The person of the test of the person service. -/
def johnDoe : Entity String := ⟨"", "", "", "John Doe"⟩

/-- The empty `websites` collection; the only field of a website here is the
URL. -/
def emptyWebsites : EntityStore String := ⟨"websites", [], 0⟩

/-- The website of the test of the website service. -/
def exampleWebsite : Entity String := ⟨"", "", "", "https://example.com"⟩

/-- A collection handle whose read fails with the given error. -/
def readFailsWith (e : DriverError) : EntityCollection (EntityStore String) String :=
  { entityClient (fun _ new => new) with ReadDocument := fun s _ => (s, .error e) }

theorem stringsToLower_eq_map (caseTable : Char → Char) (s : String) :
    stringsToLower caseTable s = ⟨s.data.map (unicodeToLower caseTable)⟩ := by
  unfold stringsToLower
  split_ifs with hascii hupper
  · congr 1
    apply List.map_congr_left
    intro c hc
    have hlt : c.toNat < 0x80 := by simpa using (List.all_eq_true.mp hascii) c hc
    have hle : c.toNat ≤ 0x7F := by omega
    simp only [unicodeToLower, hle, if_true]
  · have hid : s.data.map (unicodeToLower caseTable) = s.data := by
      conv_rhs => rw [← List.map_id s.data]
      apply List.map_congr_left
      intro c hc
      have hlt : c.toNat < 0x80 := by simpa using (List.all_eq_true.mp hascii) c hc
      have hle : c.toNat ≤ 0x7F := by omega
      have hno : ¬ ('A'.toNat ≤ c.toNat ∧ c.toNat ≤ 'Z'.toNat) := by
        intro hup
        apply hupper
        exact List.any_eq_true.mpr ⟨c, hc, by simpa using hup⟩
      simp only [unicodeToLower, hle, if_true, hno, if_false, id]
    rw [hid]
  · rfl

theorem relationName_eq_normalizedName (caseTable : Char → Char) (name : String) :
    stringsToLower caseTable (stringsReplaceAll name ' ' '_') = normalizedName caseTable name := by
  rw [stringsToLower_eq_map]
  simp only [stringsReplaceAll, normalizedName, List.map_map]
  congr 1
  apply List.map_congr_left
  intro c _
  simp only [Function.comp, normalizeRune]
  split_ifs
  · show unicodeToLower caseTable '_' = '_'
    unfold unicodeToLower
    rw [if_pos (by decide), if_neg (by decide)]
  · rfl

theorem normalizedName_eq_empty_iff (caseTable : Char → Char) (name : String) :
    normalizedName caseTable name = "" ↔ name = "" := by
  constructor
  · intro h
    have hd : (normalizedName caseTable name).data = [] := by rw [h]
    simp only [normalizedName, List.map_eq_nil_iff] at hd
    exact String.ext hd
  · intro h
    subst h
    rfl

theorem processRelationName_eq (caseTable : Char → Char) (name : String) :
    processRelationName caseTable name =
      if name = "" then .error ⟨Code.InvalidArgument, "invalid relation name"⟩
      else .ok (normalizedName caseTable name) := by
  unfold processRelationName
  simp only [relationName_eq_normalizedName]
  have hlen : (normalizedName caseTable name).length = 0 ↔ name = "" := by
    rw [← normalizedName_eq_empty_iff caseTable name]
    constructor
    · intro h
      apply String.ext
      exact List.length_eq_zero.mp h
    · intro h
      rw [h]
      rfl
  by_cases hn : name = ""
  · rw [if_pos (hlen.mpr hn), if_pos hn]
  · rw [if_neg (fun h => hn (hlen.mp h)), if_neg hn]

/-! ## Runs of `CreateRelationship` -/

/-- The run of a validated request whose edge collection cannot be resolved. -/
theorem CreateRelationship_edge_fails {σ : Type} (caseTable : Char → Char)
    (db : ArangoDBClient σ) (s : σ) (req : CreateRelationshipRequest) (rel : Relation)
    (F k₁ T k₂ : String) (s₁ : σ) (e : DriverError)
    (hreq : req.Relationship = some rel)
    (hfrom : db.ParseDocID rel.From = .ok (F, k₁))
    (hto : db.ParseDocID rel.To = .ok (T, k₂))
    (hname : rel.Name ≠ "")
    (h₁ : db.GetCreateEdgeCollection s
      (collectionName F (normalizedName caseTable rel.Name) T) ⟨[F], [T]⟩ = (s₁, .error e)) :
    CreateRelationship caseTable db s req =
      ⟨.error internalError, some rel, s₁,
        [.GetCreateEdgeCollection (collectionName F (normalizedName caseTable rel.Name) T)
          ⟨[F], [T]⟩]⟩ := by
  simp only [CreateRelationship, hreq, hfrom, hto, processRelationName_eq, hname, if_false, h₁]

/-- The run of a validated request whose insert fails. -/
theorem CreateRelationship_insert_fails {σ : Type} (caseTable : Char → Char)
    (db : ArangoDBClient σ) (s : σ) (req : CreateRelationshipRequest) (rel : Relation)
    (F k₁ T k₂ : String) (s₁ s₃ : σ) (collection : Collection) (e : DriverError)
    (hreq : req.Relationship = some rel)
    (hfrom : db.ParseDocID rel.From = .ok (F, k₁))
    (hto : db.ParseDocID rel.To = .ok (T, k₂))
    (hname : rel.Name ≠ "")
    (h₁ : db.GetCreateEdgeCollection s
      (collectionName F (normalizedName caseTable rel.Name) T) ⟨[F], [T]⟩ = (s₁, .ok collection))
    (h₃ : db.CreateDocument (db.CreateVertexCollectionWithOptions s₁ collection.Name).1
      collection (cleared rel) = (s₃, .error e)) :
    CreateRelationship caseTable db s req =
      ⟨.error internalError, some (cleared rel), s₃,
        fullTrace F (normalizedName caseTable rel.Name) T collection rel⟩ := by
  unfold cleared at h₃
  simp only [CreateRelationship, hreq, hfrom, hto, processRelationName_eq, hname, if_false, h₁,
    h₃, fullTrace, cleared]

/-- The run of a validated request whose store calls succeed. -/
theorem CreateRelationship_succeeds {σ : Type} (caseTable : Char → Char)
    (db : ArangoDBClient σ) (s : σ) (req : CreateRelationshipRequest) (rel : Relation)
    (F k₁ T k₂ : String) (s₁ s₃ : σ) (collection : Collection) (meta : DocumentMeta)
    (created : Relation)
    (hreq : req.Relationship = some rel)
    (hfrom : db.ParseDocID rel.From = .ok (F, k₁))
    (hto : db.ParseDocID rel.To = .ok (T, k₂))
    (hname : rel.Name ≠ "")
    (h₁ : db.GetCreateEdgeCollection s
      (collectionName F (normalizedName caseTable rel.Name) T) ⟨[F], [T]⟩ = (s₁, .ok collection))
    (h₃ : db.CreateDocument (db.CreateVertexCollectionWithOptions s₁ collection.Name).1
      collection (cleared rel) = (s₃, .ok (meta, created))) :
    CreateRelationship caseTable db s req =
      ⟨.ok { created with Id := meta.ID, Key := meta.Key, Rev := meta.Rev },
        some (cleared rel), s₃,
        fullTrace F (normalizedName caseTable rel.Name) T collection rel⟩ := by
  unfold cleared at h₃
  simp only [CreateRelationship, hreq, hfrom, hto, processRelationName_eq, hname, if_false, h₁,
    h₃, fullTrace, cleared]

/-- The three ways a validated request can run. -/
theorem CreateRelationship_cases {σ : Type} (caseTable : Char → Char)
    (db : ArangoDBClient σ) (s : σ) (req : CreateRelationshipRequest) (rel : Relation)
    (F k₁ T k₂ : String)
    (hreq : req.Relationship = some rel)
    (hfrom : db.ParseDocID rel.From = .ok (F, k₁))
    (hto : db.ParseDocID rel.To = .ok (T, k₂))
    (hname : rel.Name ≠ "") :
    (∃ s₁ e,
      db.GetCreateEdgeCollection s
        (collectionName F (normalizedName caseTable rel.Name) T) ⟨[F], [T]⟩ = (s₁, .error e) ∧
      CreateRelationship caseTable db s req =
        ⟨.error internalError, some rel, s₁,
          [.GetCreateEdgeCollection (collectionName F (normalizedName caseTable rel.Name) T)
            ⟨[F], [T]⟩]⟩) ∨
    (∃ s₁ collection s₃ e,
      db.GetCreateEdgeCollection s
        (collectionName F (normalizedName caseTable rel.Name) T) ⟨[F], [T]⟩ = (s₁, .ok collection) ∧
      db.CreateDocument (db.CreateVertexCollectionWithOptions s₁ collection.Name).1
        collection (cleared rel) = (s₃, .error e) ∧
      CreateRelationship caseTable db s req =
        ⟨.error internalError, some (cleared rel), s₃,
          fullTrace F (normalizedName caseTable rel.Name) T collection rel⟩) ∨
    (∃ s₁ collection s₃ meta created,
      db.GetCreateEdgeCollection s
        (collectionName F (normalizedName caseTable rel.Name) T) ⟨[F], [T]⟩ = (s₁, .ok collection) ∧
      db.CreateDocument (db.CreateVertexCollectionWithOptions s₁ collection.Name).1
        collection (cleared rel) = (s₃, .ok (meta, created)) ∧
      CreateRelationship caseTable db s req =
        ⟨.ok { created with Id := meta.ID, Key := meta.Key, Rev := meta.Rev },
          some (cleared rel), s₃,
          fullTrace F (normalizedName caseTable rel.Name) T collection rel⟩) := by
  rcases h₁ : db.GetCreateEdgeCollection s
      (collectionName F (normalizedName caseTable rel.Name) T) ⟨[F], [T]⟩ with ⟨s₁, e | coll⟩
  · exact Or.inl ⟨s₁, e, rfl,
      CreateRelationship_edge_fails caseTable db s req rel F k₁ T k₂ s₁ e hreq hfrom hto hname h₁⟩
  · rcases h₃ : db.CreateDocument (db.CreateVertexCollectionWithOptions s₁ coll.Name).1
        coll (cleared rel) with ⟨s₃, e | ⟨meta, created⟩⟩
    · exact Or.inr (Or.inl ⟨s₁, coll, s₃, e, rfl, h₃,
        CreateRelationship_insert_fails caseTable db s req rel F k₁ T k₂ s₁ s₃ coll e
          hreq hfrom hto hname h₁ h₃⟩)
    · exact Or.inr (Or.inr ⟨s₁, coll, s₃, meta, created, rfl, h₃,
        CreateRelationship_succeeds caseTable db s req rel F k₁ T k₂ s₁ s₃ coll meta created
          hreq hfrom hto hname h₁ h₃⟩)

/-- A request without relationship is rejected before any store call. -/
theorem CreateRelationship_nil {σ : Type} (caseTable : Char → Char)
    (db : ArangoDBClient σ) (s : σ) (req : CreateRelationshipRequest)
    (hreq : req.Relationship = none) :
    CreateRelationship caseTable db s req = ⟨.error badParameter, none, s, []⟩ := by
  simp only [CreateRelationship, hreq]

/-- A request whose from id does not parse is rejected before any store call. -/
theorem CreateRelationship_bad_from {σ : Type} (caseTable : Char → Char)
    (db : ArangoDBClient σ) (s : σ) (req : CreateRelationshipRequest) (rel : Relation)
    (e : DriverError)
    (hreq : req.Relationship = some rel)
    (hfrom : db.ParseDocID rel.From = .error e) :
    CreateRelationship caseTable db s req = ⟨.error badParameter, some rel, s, []⟩ := by
  simp only [CreateRelationship, hreq, hfrom]

/-- A request whose to id does not parse is rejected before any store call. -/
theorem CreateRelationship_bad_to {σ : Type} (caseTable : Char → Char)
    (db : ArangoDBClient σ) (s : σ) (req : CreateRelationshipRequest) (rel : Relation)
    (F k₁ : String) (e : DriverError)
    (hreq : req.Relationship = some rel)
    (hfrom : db.ParseDocID rel.From = .ok (F, k₁))
    (hto : db.ParseDocID rel.To = .error e) :
    CreateRelationship caseTable db s req = ⟨.error badParameter, some rel, s, []⟩ := by
  simp only [CreateRelationship, hreq, hfrom, hto]

/-- A request whose ids parse and whose name is empty is rejected before any
store call. -/
theorem CreateRelationship_bad_name {σ : Type} (caseTable : Char → Char)
    (db : ArangoDBClient σ) (s : σ) (req : CreateRelationshipRequest) (rel : Relation)
    (F k₁ T k₂ : String)
    (hreq : req.Relationship = some rel)
    (hfrom : db.ParseDocID rel.From = .ok (F, k₁))
    (hto : db.ParseDocID rel.To = .ok (T, k₂))
    (hname : rel.Name = "") :
    CreateRelationship caseTable db s req =
      ⟨.error ⟨Code.InvalidArgument, "invalid relation name"⟩, some rel, s, []⟩ := by
  simp only [CreateRelationship, hreq, hfrom, hto, processRelationName_eq, hname, if_true]

/-- A successful run is the run of a validated request whose edge collection
resolved and whose insert went through. -/
theorem CreateRelationship_ok_inv {σ : Type} (caseTable : Char → Char)
    (db : ArangoDBClient σ) (s : σ) (req : CreateRelationshipRequest) (r : Relation)
    (hok : (CreateRelationship caseTable db s req).result = .ok r) :
    ∃ rel F k₁ T k₂ s₁ collection s₃ meta created,
      req.Relationship = some rel ∧
      db.ParseDocID rel.From = .ok (F, k₁) ∧
      db.ParseDocID rel.To = .ok (T, k₂) ∧
      rel.Name ≠ "" ∧
      db.GetCreateEdgeCollection s
        (collectionName F (normalizedName caseTable rel.Name) T) ⟨[F], [T]⟩ = (s₁, .ok collection) ∧
      db.CreateDocument (db.CreateVertexCollectionWithOptions s₁ collection.Name).1
        collection (cleared rel) = (s₃, .ok (meta, created)) ∧
      r = { created with Id := meta.ID, Key := meta.Key, Rev := meta.Rev } ∧
      CreateRelationship caseTable db s req =
        ⟨.ok r, some (cleared rel), s₃,
          fullTrace F (normalizedName caseTable rel.Name) T collection rel⟩ := by
  rcases hreq : req.Relationship with _ | rel
  · rw [CreateRelationship_nil caseTable db s req hreq] at hok
    cases hok
  rcases hfrom : db.ParseDocID rel.From with e | ⟨F, k₁⟩
  · rw [CreateRelationship_bad_from caseTable db s req rel e hreq hfrom] at hok
    cases hok
  rcases hto : db.ParseDocID rel.To with e | ⟨T, k₂⟩
  · rw [CreateRelationship_bad_to caseTable db s req rel F k₁ e hreq hfrom hto] at hok
    cases hok
  by_cases hname : rel.Name = ""
  · rw [CreateRelationship_bad_name caseTable db s req rel F k₁ T k₂ hreq hfrom hto hname] at hok
    cases hok
  rcases CreateRelationship_cases caseTable db s req rel F k₁ T k₂ hreq hfrom hto hname with
    ⟨s₁, e, _, hrun⟩ | ⟨s₁, coll, s₃, e, _, _, hrun⟩ | ⟨s₁, coll, s₃, meta, created, h₁, h₃, hrun⟩
  · rw [hrun] at hok
    cases hok
  · rw [hrun] at hok
    cases hok
  · have hr : r = { created with Id := meta.ID, Key := meta.Key, Rev := meta.Rev } := by
      rw [hrun] at hok
      cases hok
      rfl
    refine ⟨rel, F, k₁, T, k₂, s₁, coll, s₃, meta, created, rfl, hfrom, hto, hname, h₁, h₃, hr, ?_⟩
    rw [hrun, hr]

/-- C2: for a request that passes validation, with the from id parsing to
collection `F`, the to id to collection `T` and relation name `n`, the first
store call is the get-or-create of the edge partition, and the partition name
of every such call is `F + "_" + normalize(n) + "_" + T`, where `normalize`
replaces spaces by underscores and lowercases the rest (the value the code
computes with `ReplaceAll` and `ToLower`). -/
theorem C2_partition_name_passed_to_store {σ : Type} (caseTable : Char → Char)
    (db : ArangoDBClient σ) (s : σ) (req : CreateRelationshipRequest) (rel : Relation)
    (F k₁ T k₂ : String)
    (hreq : req.Relationship = some rel)
    (hfrom : db.ParseDocID rel.From = .ok (F, k₁))
    (hto : db.ParseDocID rel.To = .ok (T, k₂))
    (hname : rel.Name ≠ "") :
    (∃ c, (CreateRelationship caseTable db s req).calls.head? =
        some (.GetCreateEdgeCollection (F ++ "_" ++ normalizedName caseTable rel.Name ++ "_" ++ T) c)) ∧
    (∀ name c, StoreCall.GetCreateEdgeCollection name c ∈ (CreateRelationship caseTable db s req).calls →
        name = F ++ "_" ++ normalizedName caseTable rel.Name ++ "_" ++ T) ∧
    stringsToLower caseTable (stringsReplaceAll rel.Name ' ' '_') = normalizedName caseTable rel.Name := by
  refine ⟨?_, ?_, relationName_eq_normalizedName caseTable rel.Name⟩
  · rcases CreateRelationship_cases caseTable db s req rel F k₁ T k₂ hreq hfrom hto hname with
      ⟨s₁, e, _, hrun⟩ | ⟨s₁, coll, s₃, e, _, _, hrun⟩ | ⟨s₁, coll, s₃, meta, created, _, _, hrun⟩ <;>
    · rw [hrun]
      exact ⟨_, rfl⟩
  · intro name c hmem
    rcases CreateRelationship_cases caseTable db s req rel F k₁ T k₂ hreq hfrom hto hname with
      ⟨s₁, e, _, hrun⟩ | ⟨s₁, coll, s₃, e, _, _, hrun⟩ | ⟨s₁, coll, s₃, meta, created, _, _, hrun⟩ <;>
    · rw [hrun] at hmem
      simp only [fullTrace, List.mem_cons, StoreCall.GetCreateEdgeCollection.injEq,
        List.mem_singleton, reduceCtorEq, or_false, List.not_mem_nil] at hmem
      exact hmem.1

/-- The iff behind C4, for any client. -/
theorem CreateRelationship_invalid_iff {σ : Type} (caseTable : Char → Char)
    (db : ArangoDBClient σ) (s : σ) (req : CreateRelationshipRequest) :
    resultCode (CreateRelationship caseTable db s req).result = Code.InvalidArgument ↔
      (req.Relationship = none ∨
        ∃ rel, req.Relationship = some rel ∧
          ((∃ e, db.ParseDocID rel.From = .error e) ∨
           (∃ e, db.ParseDocID rel.To = .error e) ∨
           normalizedName caseTable rel.Name = "")) := by
  rcases hreq : req.Relationship with _ | rel
  · rw [CreateRelationship_nil caseTable db s req hreq]
    exact ⟨fun _ => Or.inl rfl, fun _ => rfl⟩
  rcases hfrom : db.ParseDocID rel.From with e | ⟨F, k₁⟩
  · rw [CreateRelationship_bad_from caseTable db s req rel e hreq hfrom]
    refine ⟨fun _ => Or.inr ⟨rel, rfl, Or.inl ⟨e, hfrom⟩⟩, fun _ => rfl⟩
  rcases hto : db.ParseDocID rel.To with e | ⟨T, k₂⟩
  · rw [CreateRelationship_bad_to caseTable db s req rel F k₁ e hreq hfrom hto]
    refine ⟨fun _ => Or.inr ⟨rel, rfl, Or.inr (Or.inl ⟨e, hto⟩)⟩, fun _ => rfl⟩
  by_cases hname : rel.Name = ""
  · rw [CreateRelationship_bad_name caseTable db s req rel F k₁ T k₂ hreq hfrom hto hname]
    refine ⟨fun _ => Or.inr ⟨rel, rfl, Or.inr (Or.inr ?_)⟩, fun _ => rfl⟩
    exact (normalizedName_eq_empty_iff caseTable rel.Name).mpr hname
  · have hcode : resultCode (CreateRelationship caseTable db s req).result ≠ Code.InvalidArgument := by
      rcases CreateRelationship_cases caseTable db s req rel F k₁ T k₂ hreq hfrom hto hname with
        ⟨s₁, e, _, hrun⟩ | ⟨s₁, coll, s₃, e, _, _, hrun⟩ |
        ⟨s₁, coll, s₃, meta, created, _, _, hrun⟩ <;>
      · rw [hrun]
        simp [resultCode, internalError]
    constructor
    · intro h
      exact absurd h hcode
    · rintro (h | ⟨rel', hrel', h | h | h⟩)
      · cases h
      · cases hrel'
        rcases h with ⟨e, he⟩
        rw [hfrom] at he
        cases he
      · cases hrel'
        rcases h with ⟨e, he⟩
        rw [hto] at he
        cases he
      · cases hrel'
        exact absurd ((normalizedName_eq_empty_iff caseTable rel.Name).mp h) hname

/-- C1 (as stated, refuted): the request of the spec's example, name
`"hosted by"`, succeeds on the reference store; the document handed to the
store and the record returned both carry `"hosted by"`, not the normalized
`"hosted_by"`, which only enters the partition name. -/
theorem C1_counterexample_name_not_normalized :
    (CreateRelationship asciiCaseTable memClient MemStore.empty hostedByRequest).result =
      .ok ⟨"events_hosted_by_organizations/1", "1", "_r1", "events/e1", "organizations/o1",
        "hosted by"⟩ ∧
    insertedDocuments (CreateRelationship asciiCaseTable memClient MemStore.empty hostedByRequest).calls =
      [⟨"", "", "", "events/e1", "organizations/o1", "hosted by"⟩] ∧
    processRelationName asciiCaseTable "hosted by" = .ok "hosted_by" :=
  ⟨rfl, rfl, rfl⟩

/-- C1 (amended): for every request that succeeds, exactly one document is
handed to the store for insertion: the caller's relationship with `Id`, `Key`,
`Rev` cleared, whose name, from and to are the values as typed.  The returned
record carries the name of the document the store returned for that insert,
which is the name as typed whenever the store returns the name it was given. -/
theorem C1_inserted_document_keeps_typed_name {σ : Type} (caseTable : Char → Char)
    (db : ArangoDBClient σ) (s : σ) (req : CreateRelationshipRequest) (rel r : Relation)
    (hreq : req.Relationship = some rel)
    (hok : (CreateRelationship caseTable db s req).result = .ok r) :
    insertedDocuments (CreateRelationship caseTable db s req).calls = [cleared rel] ∧
    (cleared rel).Name = rel.Name ∧ (cleared rel).From = rel.From ∧ (cleared rel).To = rel.To ∧
    (∃ s₂ collection s₃ meta created,
      db.CreateDocument s₂ collection (cleared rel) = (s₃, .ok (meta, created)) ∧
      r.Name = created.Name) ∧
    ((∀ s₂ collection d s₃ meta created,
        db.CreateDocument s₂ collection d = (s₃, .ok (meta, created)) → created.Name = d.Name) →
      r.Name = rel.Name) := by
  obtain ⟨rel', F, k₁, T, k₂, s₁, coll, s₃, meta, created, hreq', _, _, _, _, h₃, hr, hrun⟩ :=
    CreateRelationship_ok_inv caseTable db s req r hok
  rw [hreq] at hreq'
  cases hreq'
  refine ⟨?_, rfl, rfl, rfl, ⟨_, coll, s₃, meta, created, h₃, ?_⟩, ?_⟩
  · rw [hrun]
    rfl
  · rw [hr]
  · intro hecho
    have hname : created.Name = (cleared rel).Name := hecho _ _ _ _ _ _ h₃
    rw [hr]
    exact hname

/-- C1 (amended), at the request of the spec's example on the reference store. -/
theorem C1_inserted_document_keeps_typed_name_witness :
    hostedByRequest.Relationship = some ⟨"", "", "", "events/e1", "organizations/o1", "hosted by"⟩ ∧
    (CreateRelationship asciiCaseTable memClient MemStore.empty hostedByRequest).result =
      .ok ⟨"events_hosted_by_organizations/1", "1", "_r1", "events/e1", "organizations/o1",
        "hosted by"⟩ ∧
    insertedDocuments (CreateRelationship asciiCaseTable memClient MemStore.empty hostedByRequest).calls =
      [cleared ⟨"", "", "", "events/e1", "organizations/o1", "hosted by"⟩] :=
  ⟨rfl, rfl,
    (C1_inserted_document_keeps_typed_name asciiCaseTable memClient MemStore.empty hostedByRequest
      ⟨"", "", "", "events/e1", "organizations/o1", "hosted by"⟩
      ⟨"events_hosted_by_organizations/1", "1", "_r1", "events/e1", "organizations/o1", "hosted by"⟩
      rfl rfl).1⟩

/-- C2, at the request of the spec's example: from `"events/e1"`, to
`"organizations/o1"`, name `"hosted by"` give `"events_hosted_by_organizations"`. -/
theorem C2_partition_name_passed_to_store_witness :
    memClient.ParseDocID "events/e1" = .ok ("events", "e1") ∧
    memClient.ParseDocID "organizations/o1" = .ok ("organizations", "o1") ∧
    "events" ++ "_" ++ normalizedName asciiCaseTable "hosted by" ++ "_" ++ "organizations" =
      "events_hosted_by_organizations" ∧
    ∀ name c, StoreCall.GetCreateEdgeCollection name c ∈
        (CreateRelationship asciiCaseTable memClient MemStore.empty hostedByRequest).calls →
      name = "events" ++ "_" ++ normalizedName asciiCaseTable "hosted by" ++ "_" ++ "organizations" :=
  ⟨rfl, rfl, by decide,
    (C2_partition_name_passed_to_store asciiCaseTable memClient MemStore.empty hostedByRequest
      ⟨"", "", "", "events/e1", "organizations/o1", "hosted by"⟩
      "events" "e1" "organizations" "o1" rfl rfl rfl (by decide)).2.1⟩

/-- C4: `CreateRelationship` fails with `InvalidArgument` exactly when the
relationship is absent, or the from id fails parsing, or the to id fails
parsing, or the normalized relation name is empty.  In particular, with the
spec's id parser, a nil relationship, an empty from, an empty to and an empty
name are each rejected with `InvalidArgument`, whatever the other fields. -/
theorem C4_invalid_argument_iff {σ : Type} (caseTable : Char → Char)
    (db : ArangoDBClient σ) (s : σ) (req : CreateRelationshipRequest) (rel : Relation) :
    (resultCode (CreateRelationship caseTable db s req).result = Code.InvalidArgument ↔
      (req.Relationship = none ∨
        ∃ rel, req.Relationship = some rel ∧
          ((∃ e, db.ParseDocID rel.From = .error e) ∨
           (∃ e, db.ParseDocID rel.To = .error e) ∨
           normalizedName caseTable rel.Name = ""))) ∧
    resultCode (CreateRelationship caseTable { db with ParseDocID := parseDocID } s
      ⟨none⟩).result = Code.InvalidArgument ∧
    resultCode (CreateRelationship caseTable { db with ParseDocID := parseDocID } s
      ⟨some { rel with From := "" }⟩).result = Code.InvalidArgument ∧
    resultCode (CreateRelationship caseTable { db with ParseDocID := parseDocID } s
      ⟨some { rel with To := "" }⟩).result = Code.InvalidArgument ∧
    resultCode (CreateRelationship caseTable { db with ParseDocID := parseDocID } s
      ⟨some { rel with Name := "" }⟩).result = Code.InvalidArgument := by
  refine ⟨CreateRelationship_invalid_iff caseTable db s req, ?_, ?_, ?_, ?_⟩
  · exact (CreateRelationship_invalid_iff caseTable _ s _).mpr (Or.inl rfl)
  · exact (CreateRelationship_invalid_iff caseTable _ s _).mpr
      (Or.inr ⟨_, rfl, Or.inl ⟨_, rfl⟩⟩)
  · exact (CreateRelationship_invalid_iff caseTable _ s _).mpr
      (Or.inr ⟨_, rfl, Or.inr (Or.inl ⟨_, rfl⟩)⟩)
  · exact (CreateRelationship_invalid_iff caseTable _ s _).mpr
      (Or.inr ⟨_, rfl, Or.inr (Or.inr rfl)⟩)

/-- C5: name normalization either fails with `InvalidArgument` or returns a
non-empty string, and it fails exactly when the name is the empty string; so
`" "` is accepted and normalizes to `"_"`, and `"Hosted By"` normalizes to
`"hosted_by"`. -/
theorem C5_normalized_name_never_empty (caseTable : Char → Char) (name : String) :
    (processRelationName caseTable name = .error ⟨Code.InvalidArgument, "invalid relation name"⟩ ∨
      ∃ n, processRelationName caseTable name = .ok n ∧ n ≠ "") ∧
    ((∃ st, processRelationName caseTable name = .error st) ↔ name = "") ∧
    processRelationName caseTable " " = .ok "_" ∧
    processRelationName caseTable "Hosted By" = .ok "hosted_by" := by
  refine ⟨?_, ?_, rfl, rfl⟩
  · rw [processRelationName_eq]
    by_cases hn : name = ""
    · exact Or.inl (if_pos hn)
    · refine Or.inr ⟨normalizedName caseTable name, if_neg hn, ?_⟩
      exact fun h => hn ((normalizedName_eq_empty_iff caseTable name).mp h)
  · rw [processRelationName_eq]
    by_cases hn : name = ""
    · rw [if_pos hn]
      exact ⟨fun _ => hn, fun _ => ⟨_, rfl⟩⟩
    · rw [if_neg hn]
      constructor
      · rintro ⟨st, hst⟩
        cases hst
      · intro h
        exact absurd h hn

/-- C8: for a request that passes validation, the edge partition is requested
with the endpoint constraints `From = [F]` and `To = [T]`, one-element lists
holding the collection of the from id and the collection of the to id. -/
theorem C8_endpoint_constraints {σ : Type} (caseTable : Char → Char)
    (db : ArangoDBClient σ) (s : σ) (req : CreateRelationshipRequest) (rel : Relation)
    (F k₁ T k₂ : String)
    (hreq : req.Relationship = some rel)
    (hfrom : db.ParseDocID rel.From = .ok (F, k₁))
    (hto : db.ParseDocID rel.To = .ok (T, k₂))
    (hname : rel.Name ≠ "") :
    (∃ name, (CreateRelationship caseTable db s req).calls.head? =
        some (.GetCreateEdgeCollection name ⟨[F], [T]⟩)) ∧
    (∀ name c, StoreCall.GetCreateEdgeCollection name c ∈ (CreateRelationship caseTable db s req).calls →
        c.From = [F] ∧ c.To = [T]) := by
  constructor
  · rcases CreateRelationship_cases caseTable db s req rel F k₁ T k₂ hreq hfrom hto hname with
      ⟨s₁, e, _, hrun⟩ | ⟨s₁, coll, s₃, e, _, _, hrun⟩ | ⟨s₁, coll, s₃, meta, created, _, _, hrun⟩ <;>
    · rw [hrun]
      exact ⟨_, rfl⟩
  · intro name c hmem
    rcases CreateRelationship_cases caseTable db s req rel F k₁ T k₂ hreq hfrom hto hname with
      ⟨s₁, e, _, hrun⟩ | ⟨s₁, coll, s₃, e, _, _, hrun⟩ | ⟨s₁, coll, s₃, meta, created, _, _, hrun⟩ <;>
    · rw [hrun] at hmem
      simp only [fullTrace, List.mem_cons, StoreCall.GetCreateEdgeCollection.injEq,
        List.mem_singleton, reduceCtorEq, or_false, List.not_mem_nil] at hmem
      rw [hmem.2]
      exact ⟨rfl, rfl⟩

/-- C8, at the request of the spec's example: the constraints are
`From = ["events"]`, `To = ["organizations"]`. -/
theorem C8_endpoint_constraints_witness :
    memClient.ParseDocID "events/e1" = .ok ("events", "e1") ∧
    memClient.ParseDocID "organizations/o1" = .ok ("organizations", "o1") ∧
    ∃ name, (CreateRelationship asciiCaseTable memClient MemStore.empty hostedByRequest).calls.head? =
        some (.GetCreateEdgeCollection name ⟨["events"], ["organizations"]⟩) :=
  ⟨rfl, rfl,
    (C8_endpoint_constraints asciiCaseTable memClient MemStore.empty hostedByRequest
      ⟨"", "", "", "events/e1", "organizations/o1", "hosted by"⟩
      "events" "e1" "organizations" "o1" rfl rfl rfl (by decide)).1⟩

/-- The first store call of a validated request. -/
theorem CreateRelationship_first_call {σ : Type} (caseTable : Char → Char)
    (db : ArangoDBClient σ) (s : σ) (req : CreateRelationshipRequest) (rel : Relation)
    (F k₁ T k₂ : String)
    (hreq : req.Relationship = some rel)
    (hfrom : db.ParseDocID rel.From = .ok (F, k₁))
    (hto : db.ParseDocID rel.To = .ok (T, k₂))
    (hname : rel.Name ≠ "") :
    (CreateRelationship caseTable db s req).calls.head? =
      some (.GetCreateEdgeCollection (collectionName F (normalizedName caseTable rel.Name) T)
        ⟨[F], [T]⟩) := by
  rcases CreateRelationship_cases caseTable db s req rel F k₁ T k₂ hreq hfrom hto hname with
    ⟨s₁, e, _, hrun⟩ | ⟨s₁, coll, s₃, e, _, _, hrun⟩ | ⟨s₁, coll, s₃, meta, created, _, _, hrun⟩ <;>
  · rw [hrun]
    rfl

theorem normalizeRune_eq_of_same (caseTable : Char → Char) (a b : Char)
    (h : sameRuneUpToCaseAndSpace caseTable a b = true) :
    normalizeRune caseTable a = normalizeRune caseTable b := by
  have hu : unicodeToLower caseTable '_' = '_' := by
    unfold unicodeToLower
    rw [if_pos (by decide), if_neg (by decide)]
  simp only [sameRuneUpToCaseAndSpace, Bool.or_eq_true, Bool.and_eq_true, decide_eq_true_eq] at h
  rcases h with (h | ⟨⟨ha, hb⟩, hl⟩) | ⟨ha, hb⟩
  · rw [h]
  · simp only [normalizeRune, if_neg ha, if_neg hb, hl]
  · have hn : ∀ c : Char, c = ' ' ∨ c = '_' → normalizeRune caseTable c = '_' := by
      rintro c (hc | hc)
      · rw [hc]
        rfl
      · rw [hc]
        simp only [normalizeRune]
        rw [if_neg (by decide), hu]
    rw [hn a ha, hn b hb]

theorem map_normalizeRune_eq_of_same (caseTable : Char → Char) :
    ∀ as bs : List Char, sameUpToCaseAndSpace caseTable as bs = true →
      as.map (normalizeRune caseTable) = bs.map (normalizeRune caseTable)
  | [], [], _ => rfl
  | [], _ :: _, h => by simp [sameUpToCaseAndSpace] at h
  | _ :: _, [], h => by simp [sameUpToCaseAndSpace] at h
  | a :: as, b :: bs, h => by
    simp only [sameUpToCaseAndSpace, Bool.and_eq_true] at h
    simp only [List.map_cons]
    rw [normalizeRune_eq_of_same caseTable a b h.1,
      map_normalizeRune_eq_of_same caseTable as bs h.2]

theorem normalizedName_eq_of_same (caseTable : Char → Char) (n₁ n₂ : String)
    (h : sameUpToCaseAndSpace caseTable n₁.data n₂.data = true) :
    normalizedName caseTable n₁ = normalizedName caseTable n₂ := by
  unfold normalizedName
  rw [map_normalizeRune_eq_of_same caseTable n₁.data n₂.data h]

/-- C3: the derived partition name depends on the from collection, the
relation name and the to collection only, and absorbs case and space
differences in the name: two validated requests whose ids parse to the same
collections `F` and `T` (with any document keys) and whose names differ only in
letter case and in space versus underscore ask the store for the same
partition, whatever the store states. -/
theorem C3_partition_name_absorbs_case_and_space {σ : Type} (caseTable : Char → Char)
    (db : ArangoDBClient σ) (s s' : σ) (req₁ req₂ : CreateRelationshipRequest)
    (rel₁ rel₂ : Relation) (F T k₁ k₂ k₁' k₂' : String)
    (hreq₁ : req₁.Relationship = some rel₁)
    (hreq₂ : req₂.Relationship = some rel₂)
    (hfrom₁ : db.ParseDocID rel₁.From = .ok (F, k₁))
    (hto₁ : db.ParseDocID rel₁.To = .ok (T, k₂))
    (hfrom₂ : db.ParseDocID rel₂.From = .ok (F, k₁'))
    (hto₂ : db.ParseDocID rel₂.To = .ok (T, k₂'))
    (hname : rel₁.Name ≠ "")
    (hsame : sameUpToCaseAndSpace caseTable rel₁.Name.data rel₂.Name.data = true) :
    collectionName F (normalizedName caseTable rel₁.Name) T =
      collectionName F (normalizedName caseTable rel₂.Name) T ∧
    (CreateRelationship caseTable db s req₁).calls.head? =
      some (.GetCreateEdgeCollection (collectionName F (normalizedName caseTable rel₁.Name) T)
        ⟨[F], [T]⟩) ∧
    (CreateRelationship caseTable db s' req₂).calls.head? =
      (CreateRelationship caseTable db s req₁).calls.head? := by
  have hn := normalizedName_eq_of_same caseTable rel₁.Name rel₂.Name hsame
  have hname₂ : rel₂.Name ≠ "" := by
    intro h₂
    apply hname
    apply (normalizedName_eq_empty_iff caseTable rel₁.Name).mp
    rw [hn]
    exact (normalizedName_eq_empty_iff caseTable rel₂.Name).mpr h₂
  refine ⟨by rw [hn], ?_, ?_⟩
  · exact CreateRelationship_first_call caseTable db s req₁ rel₁ F k₁ T k₂ hreq₁ hfrom₁ hto₁ hname
  · rw [CreateRelationship_first_call caseTable db s req₁ rel₁ F k₁ T k₂ hreq₁ hfrom₁ hto₁ hname,
      CreateRelationship_first_call caseTable db s' req₂ rel₂ F k₁' T k₂' hreq₂ hfrom₂ hto₂ hname₂,
      hn]

/-- C3, for `"hosted by"` with keys `e1`, `o1` on the empty store and
`"Hosted By"` with keys `e2`, `o7` on the store the first request leaves. -/
theorem C3_partition_name_absorbs_case_and_space_witness :
    sameUpToCaseAndSpace asciiCaseTable "hosted by".data "Hosted By".data = true ∧
    memClient.ParseDocID "events/e2" = .ok ("events", "e2") ∧
    memClient.ParseDocID "organizations/o7" = .ok ("organizations", "o7") ∧
    collectionName "events" (normalizedName asciiCaseTable "hosted by") "organizations" =
      collectionName "events" (normalizedName asciiCaseTable "Hosted By") "organizations" ∧
    (CreateRelationship asciiCaseTable memClient storeAfterHostedBy hostedByRequestTyped).calls.head? =
      (CreateRelationship asciiCaseTable memClient MemStore.empty hostedByRequest).calls.head? :=
  have h := C3_partition_name_absorbs_case_and_space asciiCaseTable memClient MemStore.empty
    storeAfterHostedBy hostedByRequest hostedByRequestTyped
    ⟨"", "", "", "events/e1", "organizations/o1", "hosted by"⟩
    ⟨"", "", "", "events/e2", "organizations/o7", "Hosted By"⟩
    "events" "organizations" "e1" "o1" "e2" "o7" rfl rfl rfl rfl rfl rfl (by decide) (by decide)
  ⟨by decide, rfl, rfl, h.1, h.2.2⟩

/-- The run depends on the relationship through `From`, `To` and `Name` only:
what happens in the store and what is returned is the same for two
relationships that agree on these. -/
theorem CreateRelationship_congr {σ : Type} (caseTable : Char → Char)
    (db : ArangoDBClient σ) (s : σ) (rel₁ rel₂ : Relation)
    (hfrom : rel₁.From = rel₂.From) (hto : rel₁.To = rel₂.To) (hname : rel₁.Name = rel₂.Name) :
    (CreateRelationship caseTable db s ⟨some rel₁⟩).calls =
      (CreateRelationship caseTable db s ⟨some rel₂⟩).calls ∧
    (CreateRelationship caseTable db s ⟨some rel₁⟩).result =
      (CreateRelationship caseTable db s ⟨some rel₂⟩).result ∧
    (CreateRelationship caseTable db s ⟨some rel₁⟩).store =
      (CreateRelationship caseTable db s ⟨some rel₂⟩).store := by
  have hc : cleared rel₁ = cleared rel₂ := by
    simp only [cleared, hfrom, hto, hname]
  rcases hpf : db.ParseDocID rel₁.From with e | ⟨F, k₁⟩
  · rw [CreateRelationship_bad_from caseTable db s _ rel₁ e rfl hpf,
      CreateRelationship_bad_from caseTable db s _ rel₂ e rfl (hfrom ▸ hpf)]
    exact ⟨rfl, rfl, rfl⟩
  rcases hpt : db.ParseDocID rel₁.To with e | ⟨T, k₂⟩
  · rw [CreateRelationship_bad_to caseTable db s _ rel₁ F k₁ e rfl hpf hpt,
      CreateRelationship_bad_to caseTable db s _ rel₂ F k₁ e rfl (hfrom ▸ hpf) (hto ▸ hpt)]
    exact ⟨rfl, rfl, rfl⟩
  by_cases hn : rel₁.Name = ""
  · rw [CreateRelationship_bad_name caseTable db s _ rel₁ F k₁ T k₂ rfl hpf hpt hn,
      CreateRelationship_bad_name caseTable db s _ rel₂ F k₁ T k₂ rfl (hfrom ▸ hpf) (hto ▸ hpt)
        (hname ▸ hn)]
    exact ⟨rfl, rfl, rfl⟩
  have hn₂ : rel₂.Name ≠ "" := hname ▸ hn
  rcases CreateRelationship_cases caseTable db s ⟨some rel₁⟩ rel₁ F k₁ T k₂ rfl hpf hpt hn with
    ⟨s₁, e, h₁, hrun⟩ | ⟨s₁, coll, s₃, e, h₁, h₃, hrun⟩ | ⟨s₁, coll, s₃, meta, created, h₁, h₃, hrun⟩
  · rw [hrun, CreateRelationship_edge_fails caseTable db s ⟨some rel₂⟩ rel₂ F k₁ T k₂ s₁ e rfl
      (hfrom ▸ hpf) (hto ▸ hpt) hn₂ (hname ▸ h₁)]
    simp only [hname, and_self]
  · rw [hrun, CreateRelationship_insert_fails caseTable db s ⟨some rel₂⟩ rel₂ F k₁ T k₂ s₁ s₃ coll e
      rfl (hfrom ▸ hpf) (hto ▸ hpt) hn₂ (hname ▸ h₁) (hc ▸ h₃)]
    simp only [fullTrace, hname, hc, and_self]
  · rw [hrun, CreateRelationship_succeeds caseTable db s ⟨some rel₂⟩ rel₂ F k₁ T k₂ s₁ s₃ coll meta
      created rfl (hfrom ▸ hpf) (hto ▸ hpt) hn₂ (hname ▸ h₁) (hc ▸ h₃)]
    simp only [fullTrace, hname, hc, and_self]

/-- Every document handed to the store for insertion is the caller's
relationship with `Id`, `Key` and `Rev` cleared. -/
theorem CreateRelationship_inserted_cleared {σ : Type} (caseTable : Char → Char)
    (db : ArangoDBClient σ) (s : σ) (rel d : Relation)
    (hd : d ∈ insertedDocuments (CreateRelationship caseTable db s ⟨some rel⟩).calls) :
    d = cleared rel := by
  rcases hpf : db.ParseDocID rel.From with e | ⟨F, k₁⟩
  · rw [CreateRelationship_bad_from caseTable db s _ rel e rfl hpf] at hd
    simp [insertedDocuments] at hd
  rcases hpt : db.ParseDocID rel.To with e | ⟨T, k₂⟩
  · rw [CreateRelationship_bad_to caseTable db s _ rel F k₁ e rfl hpf hpt] at hd
    simp [insertedDocuments] at hd
  by_cases hn : rel.Name = ""
  · rw [CreateRelationship_bad_name caseTable db s _ rel F k₁ T k₂ rfl hpf hpt hn] at hd
    simp [insertedDocuments] at hd
  rcases CreateRelationship_cases caseTable db s ⟨some rel⟩ rel F k₁ T k₂ rfl hpf hpt hn with
    ⟨s₁, e, _, hrun⟩ | ⟨s₁, coll, s₃, e, _, _, hrun⟩ | ⟨s₁, coll, s₃, meta, created, _, _, hrun⟩
  · rw [hrun] at hd
    simp [insertedDocuments] at hd
  · rw [hrun] at hd
    simpa [insertedDocuments, fullTrace] using hd
  · rw [hrun] at hd
    simpa [insertedDocuments, fullTrace] using hd

/-- C6: two requests that agree on from, to and name and differ only in the
relationship's id, key and revision issue the same store calls, so the
document handed to the store for insertion and the target partition are the
same, and end with the same result and store; every document handed to the
store has `Id`, `Key` and `Rev` empty. -/
theorem C6_caller_identity_discarded {σ : Type} (caseTable : Char → Char)
    (db : ArangoDBClient σ) (s : σ) (rel₁ rel₂ : Relation)
    (hfrom : rel₁.From = rel₂.From) (hto : rel₁.To = rel₂.To) (hname : rel₁.Name = rel₂.Name) :
    (CreateRelationship caseTable db s ⟨some rel₁⟩).calls =
      (CreateRelationship caseTable db s ⟨some rel₂⟩).calls ∧
    (CreateRelationship caseTable db s ⟨some rel₁⟩).result =
      (CreateRelationship caseTable db s ⟨some rel₂⟩).result ∧
    (CreateRelationship caseTable db s ⟨some rel₁⟩).store =
      (CreateRelationship caseTable db s ⟨some rel₂⟩).store ∧
    ∀ d ∈ insertedDocuments (CreateRelationship caseTable db s ⟨some rel₁⟩).calls,
      d.Id = "" ∧ d.Key = "" ∧ d.Rev = "" ∧
      d.From = rel₂.From ∧ d.To = rel₂.To ∧ d.Name = rel₂.Name := by
  obtain ⟨hcalls, hres, hstore⟩ := CreateRelationship_congr caseTable db s rel₁ rel₂ hfrom hto hname
  refine ⟨hcalls, hres, hstore, ?_⟩
  intro d hd
  rw [CreateRelationship_inserted_cleared caseTable db s rel₁ d hd]
  exact ⟨rfl, rfl, rfl, hfrom, hto, hname⟩

/-- C6, for the request of the spec's example with and without a
caller-supplied id, key and revision. -/
theorem C6_caller_identity_discarded_witness :
    (CreateRelationship asciiCaseTable memClient MemStore.empty hostedByRequestWithIdentity).calls =
      (CreateRelationship asciiCaseTable memClient MemStore.empty hostedByRequest).calls ∧
    insertedDocuments
      (CreateRelationship asciiCaseTable memClient MemStore.empty hostedByRequestWithIdentity).calls =
      [⟨"", "", "", "events/e1", "organizations/o1", "hosted by"⟩] :=
  ⟨(C6_caller_identity_discarded asciiCaseTable memClient MemStore.empty
      ⟨"persons/p9", "p9", "_r77", "events/e1", "organizations/o1", "hosted by"⟩
      ⟨"", "", "", "events/e1", "organizations/o1", "hosted by"⟩ rfl rfl rfl).1, rfl⟩

/-- The spec's parser on an id `"<collection>/<key>"` gives the two parts back
when the collection holds no separator and neither part is empty. -/
theorem splitAtSeparator_append (key : List Char) :
    ∀ coll : List Char, '/' ∉ coll → splitAtSeparator (coll ++ '/' :: key) = some (coll, key)
  | [], _ => by simp [splitAtSeparator]
  | c :: cs, h => by
    have hc : c ≠ '/' := fun hc => h (by simp [hc])
    have hcs : '/' ∉ cs := fun hm => h (List.mem_cons_of_mem _ hm)
    have ih : splitAtSeparator (cs ++ '/' :: key) = some (cs, key) :=
      splitAtSeparator_append key cs hcs
    show splitAtSeparator (c :: (cs ++ '/' :: key)) = some (c :: cs, key)
    simp only [splitAtSeparator, if_neg hc, ih]

theorem parseDocID_format (coll key : String) (hsep : '/' ∉ coll.data) (hcoll : coll ≠ "")
    (hkey : key ≠ "") : parseDocID (coll ++ "/" ++ key) = .ok (coll, key) := by
  have hdata : (coll ++ "/" ++ key).data = coll.data ++ '/' :: key.data := by
    simp [String.data_append]
  have hc : coll.data ≠ [] := fun h => hcoll (String.ext h)
  have hk : key.data ≠ [] := fun h => hkey (String.ext h)
  unfold parseDocID
  rw [hdata, splitAtSeparator_append key.data coll.data hsep]
  simp only [hc, hk, or_self, if_false]

theorem collectionName_ne_empty (F n T : String) : collectionName F n T ≠ "" := by
  intro h
  have hd : (collectionName F n T).data = [] := by rw [h]
  simp [collectionName, String.data_append] at hd

/-- The store call of `UpdateRelationship` for an id that parses. -/
theorem UpdateRelationship_calls {σ : Type} (db : ArangoDBClient σ) (s : σ)
    (req : UpdateRelationshipRequest) (coll key : String)
    (hid : db.ParseDocID req.Id = .ok (coll, key)) :
    (UpdateRelationship db s req).calls =
      [.Query updateQuery ⟨key, some req.Relationship, coll⟩] := by
  unfold UpdateRelationship
  rw [hid]
  simp only
  rcases db.Query s updateQuery ⟨key, some req.Relationship, coll⟩ with ⟨s₁, e | cursor⟩
  · rfl
  · rcases hread : cursor.ReadDocument with err | ⟨meta, rel⟩
    · simp only [hread]
      split_ifs <;> rfl
    · simp only [hread]

/-- The store call of `DeleteRelationship` for an id that parses. -/
theorem DeleteRelationship_calls {σ : Type} (db : ArangoDBClient σ) (s : σ)
    (req : DeleteRelationshipRequest) (coll key : String)
    (hid : db.ParseDocID req.Id = .ok (coll, key)) :
    (DeleteRelationship db s req).calls = [.Query deleteQuery ⟨key, none, coll⟩] := by
  unfold DeleteRelationship
  rw [hid]
  simp only
  rcases db.Query s deleteQuery ⟨key, none, coll⟩ with ⟨s₁, e | cursor⟩
  · rfl
  · rcases hread : cursor.ReadDocument with err | ⟨meta, rel⟩
    · simp only [hread]
      split_ifs <;> rfl
    · simp only [hread]

/-- C9 (as stated, refuted): in the run of the spec's example the calls that
reach the store are the get-or-create of the edge partition, one
vertex-partition registration, and the insert; the registration that is
requested names the edge partition `"events_hosted_by_organizations"` itself,
and none is requested for `"events"` or for `"organizations"`. -/
theorem C9_counterexample_edge_partition_registered :
    (CreateRelationship asciiCaseTable memClient MemStore.empty hostedByRequest).calls =
      [.GetCreateEdgeCollection "events_hosted_by_organizations"
          ⟨["events"], ["organizations"]⟩,
        .CreateVertexCollectionWithOptions "events_hosted_by_organizations",
        .CreateDocument "events_hosted_by_organizations"
          ⟨"", "", "", "events/e1", "organizations/o1", "hosted by"⟩] ∧
    StoreCall.CreateVertexCollectionWithOptions "events" ∉
      (CreateRelationship asciiCaseTable memClient MemStore.empty hostedByRequest).calls ∧
    StoreCall.CreateVertexCollectionWithOptions "organizations" ∉
      (CreateRelationship asciiCaseTable memClient MemStore.empty hostedByRequest).calls :=
  ⟨rfl, by decide, by decide⟩

/-- C9 (amended): for every request that passes validation and resolves its
edge partition, `CreateRelationship` requests exactly one vertex-partition
registration from the backing graph, and it names the resolved edge partition
itself: the name that partition reports, which is the derived partition name
when the store hands back the partition it was asked for.  The from and to
collections are passed to the store as the endpoint constraints of the edge
partition only, in the first call.  What the registration reports is
discarded: the run is the same whatever it reports. -/
theorem C9_registered_vertex_collection {σ : Type} (caseTable : Char → Char)
    (db : ArangoDBClient σ) (s : σ) (req : CreateRelationshipRequest) (rel : Relation)
    (F k₁ T k₂ : String) (s₁ : σ) (collection : Collection)
    (hreq : req.Relationship = some rel)
    (hfrom : db.ParseDocID rel.From = .ok (F, k₁))
    (hto : db.ParseDocID rel.To = .ok (T, k₂))
    (hname : rel.Name ≠ "")
    (h₁ : db.GetCreateEdgeCollection s
      (collectionName F (normalizedName caseTable rel.Name) T) ⟨[F], [T]⟩ = (s₁, .ok collection)) :
    (CreateRelationship caseTable db s req).calls =
      [.GetCreateEdgeCollection (collectionName F (normalizedName caseTable rel.Name) T)
          ⟨[F], [T]⟩,
        .CreateVertexCollectionWithOptions collection.Name,
        .CreateDocument collection.Name (cleared rel)] ∧
    registeredVertexCollections (CreateRelationship caseTable db s req).calls = [collection.Name] ∧
    (collection.Name = collectionName F (normalizedName caseTable rel.Name) T →
      registeredVertexCollections (CreateRelationship caseTable db s req).calls =
        [collectionName F (normalizedName caseTable rel.Name) T]) ∧
    (∀ r : Except DriverError Collection,
      CreateRelationship caseTable (withRegistrationResult db r) s req =
        CreateRelationship caseTable db s req) := by
  have hcalls : (CreateRelationship caseTable db s req).calls =
      fullTrace F (normalizedName caseTable rel.Name) T collection rel := by
    rcases h₃ : db.CreateDocument (db.CreateVertexCollectionWithOptions s₁ collection.Name).1
        collection (cleared rel) with ⟨s₃, e | ⟨meta, created⟩⟩
    · rw [CreateRelationship_insert_fails caseTable db s req rel F k₁ T k₂ s₁ s₃ collection e
        hreq hfrom hto hname h₁ h₃]
    · rw [CreateRelationship_succeeds caseTable db s req rel F k₁ T k₂ s₁ s₃ collection meta
        created hreq hfrom hto hname h₁ h₃]
  have hreg : registeredVertexCollections (CreateRelationship caseTable db s req).calls =
      [collection.Name] := by
    rw [hcalls]
    rfl
  refine ⟨hcalls, hreg, ?_, fun _ => rfl⟩
  intro hhandle
  rw [hreg, hhandle]

/-- C9 (amended), at the request of the spec's example on the reference store. -/
theorem C9_registered_vertex_collection_witness :
    memClient.GetCreateEdgeCollection MemStore.empty
      (collectionName "events" (normalizedName asciiCaseTable "hosted by") "organizations")
      ⟨["events"], ["organizations"]⟩ =
      (⟨["events_hosted_by_organizations"],
        [("events_hosted_by_organizations", ⟨["events"], ["organizations"]⟩)], [], [], 0⟩,
        .ok ⟨"events_hosted_by_organizations"⟩) ∧
    registeredVertexCollections
      (CreateRelationship asciiCaseTable memClient MemStore.empty hostedByRequest).calls =
      [(⟨"events_hosted_by_organizations"⟩ : Collection).Name] :=
  ⟨rfl,
    (C9_registered_vertex_collection asciiCaseTable memClient MemStore.empty hostedByRequest
      ⟨"", "", "", "events/e1", "organizations/o1", "hosted by"⟩
      "events" "e1" "organizations" "o1"
      ⟨["events_hosted_by_organizations"],
        [("events_hosted_by_organizations", ⟨["events"], ["organizations"]⟩)], [], [], 0⟩
      ⟨"events_hosted_by_organizations"⟩ rfl rfl rfl (by decide) rfl).2.1⟩

/-- C10 (as stated, refuted): on the store the spec's example leaves behind,
the same request passes validation and resolves its partition, the
vertex-partition registration in the graph fails (the name is registered
already), and `CreateRelationship` still succeeds and returns a record. -/
theorem C10_counterexample_registration_failure_ignored :
    memClient.GetCreateEdgeCollection storeAfterHostedBy "events_hosted_by_organizations"
      ⟨["events"], ["organizations"]⟩ =
      (storeAfterHostedBy, .ok ⟨"events_hosted_by_organizations"⟩) ∧
    memClient.CreateVertexCollectionWithOptions storeAfterHostedBy
      "events_hosted_by_organizations" =
      (storeAfterHostedBy, .error (.arango 409 "duplicate name")) ∧
    (CreateRelationship asciiCaseTable memClient storeAfterHostedBy hostedByRequest).result =
      .ok ⟨"events_hosted_by_organizations/2", "2", "_r2", "events/e1", "organizations/o1",
        "hosted by"⟩ ∧
    (CreateRelationship asciiCaseTable memClient storeAfterHostedBy hostedByRequest).calls =
      [.GetCreateEdgeCollection "events_hosted_by_organizations" ⟨["events"], ["organizations"]⟩,
       .CreateVertexCollectionWithOptions "events_hosted_by_organizations",
       .CreateDocument "events_hosted_by_organizations"
         ⟨"", "", "", "events/e1", "organizations/o1", "hosted by"⟩] :=
  ⟨rfl, rfl, rfl, rfl⟩

/-- C10 (amended): for every request that passes validation, if the
get-or-create of the edge partition fails, or the document insert fails,
`CreateRelationship` fails with `Internal` and the fixed message and returns
no record; the outcome of the vertex-partition registration is not looked at:
when the other two calls succeed the request succeeds, whatever the
registration returned. -/
theorem C10_store_failures {σ : Type} (caseTable : Char → Char)
    (db : ArangoDBClient σ) (s : σ) (req : CreateRelationshipRequest) (rel : Relation)
    (F k₁ T k₂ : String)
    (hreq : req.Relationship = some rel)
    (hfrom : db.ParseDocID rel.From = .ok (F, k₁))
    (hto : db.ParseDocID rel.To = .ok (T, k₂))
    (hname : rel.Name ≠ "") :
    (∀ s₁ e,
      db.GetCreateEdgeCollection s
        (collectionName F (normalizedName caseTable rel.Name) T) ⟨[F], [T]⟩ = (s₁, .error e) →
      (CreateRelationship caseTable db s req).result = .error internalError) ∧
    (∀ s₁ collection s₃ e,
      db.GetCreateEdgeCollection s
        (collectionName F (normalizedName caseTable rel.Name) T) ⟨[F], [T]⟩ = (s₁, .ok collection) →
      db.CreateDocument (db.CreateVertexCollectionWithOptions s₁ collection.Name).1
        collection (cleared rel) = (s₃, .error e) →
      (CreateRelationship caseTable db s req).result = .error internalError) ∧
    (∀ s₁ collection s₃ meta created,
      db.GetCreateEdgeCollection s
        (collectionName F (normalizedName caseTable rel.Name) T) ⟨[F], [T]⟩ = (s₁, .ok collection) →
      db.CreateDocument (db.CreateVertexCollectionWithOptions s₁ collection.Name).1
        collection (cleared rel) = (s₃, .ok (meta, created)) →
      (CreateRelationship caseTable db s req).result =
        .ok { created with Id := meta.ID, Key := meta.Key, Rev := meta.Rev }) ∧
    internalError = ⟨Code.Internal, "Internal service error. Please try again later."⟩ := by
  refine ⟨?_, ?_, ?_, rfl⟩
  · intro s₁ e h₁
    rw [CreateRelationship_edge_fails caseTable db s req rel F k₁ T k₂ s₁ e hreq hfrom hto hname h₁]
  · intro s₁ collection s₃ e h₁ h₃
    rw [CreateRelationship_insert_fails caseTable db s req rel F k₁ T k₂ s₁ s₃ collection e
      hreq hfrom hto hname h₁ h₃]
  · intro s₁ collection s₃ meta created h₁ h₃
    rw [CreateRelationship_succeeds caseTable db s req rel F k₁ T k₂ s₁ s₃ collection meta created
      hreq hfrom hto hname h₁ h₃]

/-- C10 (amended), at the request of the spec's example on a store whose
insert fails: the request fails with `Internal`. -/
theorem C10_store_failures_witness :
    failingInsertClient.ParseDocID "events/e1" = .ok ("events", "e1") ∧
    failingInsertClient.ParseDocID "organizations/o1" = .ok ("organizations", "o1") ∧
    (CreateRelationship asciiCaseTable failingInsertClient MemStore.empty hostedByRequest).result =
      .error ⟨Code.Internal, "Internal service error. Please try again later."⟩ :=
  ⟨rfl, rfl,
    (C10_store_failures asciiCaseTable failingInsertClient MemStore.empty hostedByRequest
      ⟨"", "", "", "events/e1", "organizations/o1", "hosted by"⟩
      "events" "e1" "organizations" "o1" rfl rfl rfl (by decide)).2.1
      ⟨["events_hosted_by_organizations"],
        [("events_hosted_by_organizations", ⟨["events"], ["organizations"]⟩)], [], [], 0⟩
      ⟨"events_hosted_by_organizations"⟩
      ⟨["events_hosted_by_organizations"],
        [("events_hosted_by_organizations", ⟨["events"], ["organizations"]⟩)],
        ["events_hosted_by_organizations"], [], 0⟩
      (.other "write failed") rfl rfl⟩

/-! ## Runs of `UpdateRelationship` and `DeleteRelationship` -/

/-- An update whose id does not parse is rejected before any store call. -/
theorem UpdateRelationship_bad_id {σ : Type} (db : ArangoDBClient σ) (s : σ)
    (req : UpdateRelationshipRequest) (e : DriverError)
    (hid : db.ParseDocID req.Id = .error e) :
    UpdateRelationship db s req = ⟨.error invalidParameter, req.Relationship, s, []⟩ := by
  simp only [UpdateRelationship, hid]

/-- An update whose query fails. -/
theorem UpdateRelationship_query_fails {σ : Type} (db : ArangoDBClient σ) (s s₁ : σ)
    (req : UpdateRelationshipRequest) (coll key : String) (e : DriverError)
    (hid : db.ParseDocID req.Id = .ok (coll, key))
    (hq : db.Query s updateQuery ⟨key, some req.Relationship, coll⟩ = (s₁, .error e)) :
    UpdateRelationship db s req =
      ⟨.error internalError, req.Relationship, s₁,
        [.Query updateQuery ⟨key, some req.Relationship, coll⟩]⟩ := by
  simp only [UpdateRelationship, hid, hq]

/-- An update whose cursor cannot be read. -/
theorem UpdateRelationship_read_fails {σ : Type} (db : ArangoDBClient σ) (s s₁ : σ)
    (req : UpdateRelationshipRequest) (coll key : String) (cursor : Cursor) (err : DriverError)
    (hid : db.ParseDocID req.Id = .ok (coll, key))
    (hq : db.Query s updateQuery ⟨key, some req.Relationship, coll⟩ = (s₁, .ok cursor))
    (hread : cursor.ReadDocument = .error err) :
    UpdateRelationship db s req =
      ⟨.error (if IsNoMoreDocuments err then relationNotFound else internalError),
        req.Relationship, s₁, [.Query updateQuery ⟨key, some req.Relationship, coll⟩]⟩ := by
  simp only [UpdateRelationship, hid, hq, hread]
  split_ifs <;> rfl

/-- An update whose query and read succeed. -/
theorem UpdateRelationship_succeeds {σ : Type} (db : ArangoDBClient σ) (s s₁ : σ)
    (req : UpdateRelationshipRequest) (coll key : String) (cursor : Cursor)
    (meta : DocumentMeta) (relationship : Relation)
    (hid : db.ParseDocID req.Id = .ok (coll, key))
    (hq : db.Query s updateQuery ⟨key, some req.Relationship, coll⟩ = (s₁, .ok cursor))
    (hread : cursor.ReadDocument = .ok (meta, relationship)) :
    UpdateRelationship db s req =
      ⟨.ok { relationship with Id := meta.ID, Key := meta.Key, Rev := meta.Rev },
        req.Relationship, s₁, [.Query updateQuery ⟨key, some req.Relationship, coll⟩]⟩ := by
  simp only [UpdateRelationship, hid, hq, hread]

/-- A delete whose id does not parse is rejected before any store call. -/
theorem DeleteRelationship_bad_id {σ : Type} (db : ArangoDBClient σ) (s : σ)
    (req : DeleteRelationshipRequest) (e : DriverError)
    (hid : db.ParseDocID req.Id = .error e) :
    DeleteRelationship db s req = ⟨.error invalidParameter, none, s, []⟩ := by
  simp only [DeleteRelationship, hid]

/-- A delete whose query fails. -/
theorem DeleteRelationship_query_fails {σ : Type} (db : ArangoDBClient σ) (s s₁ : σ)
    (req : DeleteRelationshipRequest) (coll key : String) (e : DriverError)
    (hid : db.ParseDocID req.Id = .ok (coll, key))
    (hq : db.Query s deleteQuery ⟨key, none, coll⟩ = (s₁, .error e)) :
    DeleteRelationship db s req =
      ⟨.error internalError, none, s₁, [.Query deleteQuery ⟨key, none, coll⟩]⟩ := by
  simp only [DeleteRelationship, hid, hq]

/-- A delete whose cursor cannot be read. -/
theorem DeleteRelationship_read_fails {σ : Type} (db : ArangoDBClient σ) (s s₁ : σ)
    (req : DeleteRelationshipRequest) (coll key : String) (cursor : Cursor) (err : DriverError)
    (hid : db.ParseDocID req.Id = .ok (coll, key))
    (hq : db.Query s deleteQuery ⟨key, none, coll⟩ = (s₁, .ok cursor))
    (hread : cursor.ReadDocument = .error err) :
    DeleteRelationship db s req =
      ⟨.error (if IsNoMoreDocuments err then relationNotFound else internalError),
        none, s₁, [.Query deleteQuery ⟨key, none, coll⟩]⟩ := by
  simp only [DeleteRelationship, hid, hq, hread]
  split_ifs <;> rfl

/-- A delete whose query and read succeed. -/
theorem DeleteRelationship_succeeds {σ : Type} (db : ArangoDBClient σ) (s s₁ : σ)
    (req : DeleteRelationshipRequest) (coll key : String) (cursor : Cursor)
    (found : DocumentMeta × Relation)
    (hid : db.ParseDocID req.Id = .ok (coll, key))
    (hq : db.Query s deleteQuery ⟨key, none, coll⟩ = (s₁, .ok cursor))
    (hread : cursor.ReadDocument = .ok found) :
    DeleteRelationship db s req =
      ⟨.ok (), none, s₁, [.Query deleteQuery ⟨key, none, coll⟩]⟩ := by
  simp only [DeleteRelationship, hid, hq, hread]

/-! ## The reference store under the two statements -/

theorem encodeField_getD (v : String) : (encodeField v).getD "" = v := by
  unfold encodeField
  split_ifs with h
  · simp [h]
  · rfl

/-- The update statement, read attribute by attribute off the query text, is
the merge-patch of the spec. -/
theorem updateStatement_eq_mergePatch (stored : Relation) (patch : Option Relation) :
    updateStatement stored patch = mergePatch stored patch := by
  cases patch with
  | none => rfl
  | some p =>
    have hget : ∀ v w : String,
        (match encodeField v with
          | some value => some value
          | none => encodeField w).getD "" = if v = "" then w else v := by
      intro v w
      by_cases hv : v = ""
      · simp [encodeField, hv]
        split_ifs with hw
        · simp [hw]
        · rfl
      · simp [encodeField, hv]
    simp only [updateStatement, mergePatch, decodeRelation, aqlUpdateWith, cleanPatch, aqlUnset,
      encodeRelation]
    simp [hget, encodeField_getD]

/-- The clean patch depends on the from, to and name of the partial only. -/
theorem cleanPatch_congr (p₁ p₂ : Relation)
    (hfrom : p₁.From = p₂.From) (hto : p₁.To = p₂.To) (hname : p₁.Name = p₂.Name) :
    cleanPatch p₁ = cleanPatch p₂ := by
  funext attr
  simp only [cleanPatch, aqlUnset, encodeRelation, hfrom, hto, hname]
  by_cases h₁ : attr = "_id"
  · simp [h₁]
  by_cases h₂ : attr = "_key"
  · simp [h₂]
  by_cases h₃ : attr = "_rev"
  · simp [h₃]
  simp [h₁, h₂, h₃]

/-- The merge-patch depends on the from, to and name of the partial only. -/
theorem mergePatch_congr (stored p₁ p₂ : Relation)
    (hfrom : p₁.From = p₂.From) (hto : p₁.To = p₂.To) (hname : p₁.Name = p₂.Name) :
    mergePatch stored (some p₁) = mergePatch stored (some p₂) := by
  simp only [mergePatch, hfrom, hto, hname]

/-- The update query of the reference store on a document that exists. -/
theorem MemStore.query_update_found (s : MemStore) (b : BindVars) (old : Relation)
    (hcoll : b.collection ∈ s.collections) (hold : s.lookup b.collection b.key = some old) :
    s.query updateQuery b =
      ({ s with
          documents := s.documents.map (fun d =>
            if d.1 = b.collection ∧ d.2.Key = b.key then
              (d.1, { mergePatch old (b.patch.bind id) with
                Rev := "_r" ++ toString (s.clock + 1) })
            else d)
          clock := s.clock + 1 },
        .ok ⟨.ok (⟨old.Key, old.Id, "_r" ++ toString (s.clock + 1)⟩,
          { mergePatch old (b.patch.bind id) with
            Rev := "_r" ++ toString (s.clock + 1) })⟩) := by
  have hkey : (mergePatch old (b.patch.bind id)).Key = old.Key := by
    cases b.patch.bind id <;> rfl
  have hident : (mergePatch old (b.patch.bind id)).Id = old.Id := by
    cases b.patch.bind id <;> rfl
  simp only [MemStore.query, hcoll, if_true, hold, hkey, hident]

/-- The update query of the reference store on a document that is missing. -/
theorem MemStore.query_update_missing (s : MemStore) (b : BindVars)
    (hcoll : b.collection ∈ s.collections) (hold : s.lookup b.collection b.key = none) :
    s.query updateQuery b = (s, .error (.arango 404 "document not found")) := by
  simp only [MemStore.query, hcoll, if_true, hold]

/-- The delete query of the reference store on a document that exists. -/
theorem MemStore.query_delete_found (s : MemStore) (b : BindVars) (old : Relation)
    (hcoll : b.collection ∈ s.collections) (hold : s.lookup b.collection b.key = some old) :
    s.query deleteQuery b =
      ({ s with documents :=
          s.documents.filter (fun d => ¬ (d.1 = b.collection ∧ d.2.Key = b.key)) },
        .ok ⟨.ok (⟨old.Key, old.Id, old.Rev⟩, old)⟩) := by
  have hne : deleteQuery ≠ updateQuery := by decide
  simp only [MemStore.query, hcoll, if_true, hne, if_false, hold]

/-- The delete query of the reference store on a document that is missing. -/
theorem MemStore.query_delete_missing (s : MemStore) (b : BindVars)
    (hcoll : b.collection ∈ s.collections) (hold : s.lookup b.collection b.key = none) :
    s.query deleteQuery b = (s, .ok ⟨.error .noMoreDocuments⟩) := by
  have hne : deleteQuery ≠ updateQuery := by decide
  simp only [MemStore.query, hcoll, if_true, hne, if_false, hold]

/-- Any query of the reference store on a collection that does not exist. -/
theorem MemStore.query_no_collection (s : MemStore) (query : String) (b : BindVars)
    (hcoll : b.collection ∉ s.collections) :
    s.query query b = (s, .error (.arango 404 "collection or view not found")) := by
  simp only [MemStore.query, hcoll, if_false]

theorem splitAtSeparator_none : ∀ l : List Char, '/' ∉ l → splitAtSeparator l = none
  | [], _ => rfl
  | c :: cs, h => by
    have hc : c ≠ '/' := fun hc => h (by simp [hc])
    have hcs : '/' ∉ cs := fun hm => h (List.mem_cons_of_mem _ hm)
    simp only [splitAtSeparator, if_neg hc, splitAtSeparator_none cs hcs]

/-- The spec's parser rejects an id without separator. -/
theorem parseDocID_no_separator (id : String) (h : '/' ∉ id.data) :
    parseDocID id = .error (.other "invalid document id") := by
  unfold parseDocID
  rw [splitAtSeparator_none id.data h]

/-- The spec's parser rejects an id whose collection part is empty. -/
theorem parseDocID_empty_collection (key : String) :
    parseDocID ("/" ++ key) = .error (.other "invalid document id") := by
  have hdata : ("/" ++ key).data = '/' :: key.data := by
    simp [String.data_append]
  unfold parseDocID
  rw [hdata]
  simp [splitAtSeparator]

/-- The spec's parser rejects an id whose key part is empty. -/
theorem parseDocID_empty_key (coll : String) (h : '/' ∉ coll.data) :
    parseDocID (coll ++ "/") = .error (.other "invalid document id") := by
  have hdata : (coll ++ "/").data = coll.data ++ '/' :: [] := by
    simp [String.data_append]
  unfold parseDocID
  rw [hdata, splitAtSeparator_append [] coll.data h]
  simp

/-- C11: for every id that fails parsing, `UpdateRelationship` and
`DeleteRelationship` both fail with `InvalidArgument`, issue no query and leave
the store as it is; the spec's parser fails on an id without separator, with
an empty collection part, or with an empty key part. -/
theorem C11_malformed_id_rejected {σ : Type} (db : ArangoDBClient σ) (s : σ) (id : String)
    (patch : Option Relation) (e : DriverError)
    (hparse : db.ParseDocID id = .error e) :
    (resultCode (UpdateRelationship db s ⟨id, patch⟩).result = Code.InvalidArgument ∧
      (UpdateRelationship db s ⟨id, patch⟩).calls = [] ∧
      (UpdateRelationship db s ⟨id, patch⟩).store = s) ∧
    (resultCode (DeleteRelationship db s ⟨id⟩).result = Code.InvalidArgument ∧
      (DeleteRelationship db s ⟨id⟩).calls = [] ∧
      (DeleteRelationship db s ⟨id⟩).store = s) ∧
    (∀ x : String, '/' ∉ x.data → parseDocID x = .error (.other "invalid document id")) ∧
    (∀ key : String, parseDocID ("/" ++ key) = .error (.other "invalid document id")) ∧
    (∀ coll : String, '/' ∉ coll.data →
      parseDocID (coll ++ "/") = .error (.other "invalid document id")) := by
  refine ⟨?_, ?_, parseDocID_no_separator, parseDocID_empty_collection, parseDocID_empty_key⟩
  · rw [UpdateRelationship_bad_id db s ⟨id, patch⟩ e hparse]
    exact ⟨rfl, rfl, rfl⟩
  · rw [DeleteRelationship_bad_id db s ⟨id⟩ e hparse]
    exact ⟨rfl, rfl, rfl⟩

/-- C11, at the ids `"not-an-id"` and `"events/"` on the reference store that
holds the record of the spec's example. -/
theorem C11_malformed_id_rejected_witness :
    memClient.ParseDocID "not-an-id" = .error (.other "invalid document id") ∧
    memClient.ParseDocID "events/" = .error (.other "invalid document id") ∧
    resultCode (UpdateRelationship memClient storeAfterHostedBy
      ⟨"not-an-id", some relatedPatch⟩).result = Code.InvalidArgument ∧
    (UpdateRelationship memClient storeAfterHostedBy ⟨"not-an-id", some relatedPatch⟩).calls = [] ∧
    resultCode (DeleteRelationship memClient storeAfterHostedBy ⟨"events/"⟩).result =
      Code.InvalidArgument ∧
    (DeleteRelationship memClient storeAfterHostedBy ⟨"events/"⟩).calls = [] :=
  have h₁ := C11_malformed_id_rejected memClient storeAfterHostedBy "not-an-id"
    (some relatedPatch) (.other "invalid document id") rfl
  have h₂ := C11_malformed_id_rejected memClient storeAfterHostedBy "events/"
    none (.other "invalid document id") rfl
  ⟨rfl, rfl, h₁.1.1, h₁.1.2.1, h₂.2.1.1, h₂.2.1.2.1⟩

/-- C12 (the code at the failing input): on the reference store, after the
record of the spec's example is created and deleted, the update query for its
id reports the missing document as a not-found error of the query, and
`UpdateRelationship` returns `Internal`, not `NotFound`. -/
theorem C12_update_after_delete_returns_internal :
    (DeleteRelationship memClient storeAfterHostedBy ⟨hostedById⟩).result = .ok () ∧
    storeAfterDelete.lookup "events_hosted_by_organizations" "1" = none ∧
    memClient.Query storeAfterDelete updateQuery
        ⟨"1", some (some relatedPatch), "events_hosted_by_organizations"⟩ =
      (storeAfterDelete, .error (.arango 404 "document not found")) ∧
    (UpdateRelationship memClient storeAfterDelete ⟨hostedById, some relatedPatch⟩).result =
      .error ⟨Code.Internal, "Internal service error. Please try again later."⟩ ∧
    (UpdateRelationship memClient storeAfterDelete ⟨hostedById, some relatedPatch⟩).calls =
      [.Query updateQuery ⟨"1", some (some relatedPatch), "events_hosted_by_organizations"⟩] :=
  ⟨rfl, rfl, rfl, rfl, rfl⟩

/-- C13 (the code at the failing input): on the reference store that holds
the record of the spec's example, a delete by an id whose partition does not
exist gets a not-found error of the query and returns `Internal`, not
`NotFound`; a second delete of the example's own id finds an empty result
and returns `NotFound`. -/
theorem C13_delete_in_missing_partition_returns_internal :
    "events_related_to_events" ∉ storeAfterHostedBy.collections ∧
    memClient.Query storeAfterHostedBy deleteQuery ⟨"7", none, "events_related_to_events"⟩ =
      (storeAfterHostedBy, .error (.arango 404 "collection or view not found")) ∧
    (DeleteRelationship memClient storeAfterHostedBy ⟨"events_related_to_events/7"⟩).result =
      .error ⟨Code.Internal, "Internal service error. Please try again later."⟩ ∧
    (DeleteRelationship memClient storeAfterDelete ⟨hostedById⟩).result =
      .error ⟨Code.NotFound, "Relation not found"⟩ :=
  ⟨by decide, rfl, rfl, rfl⟩

/-- A document found by `lookup` is stored in that collection under that key. -/
theorem MemStore.lookup_some (s : MemStore) (coll key : String) (old : Relation)
    (h : s.lookup coll key = some old) : (coll, old) ∈ s.documents ∧ old.Key = key := by
  unfold MemStore.lookup at h
  rcases hf : s.documents.find? (fun d => d.1 = coll ∧ d.2.Key = key) with _ | d
  · rw [hf] at h
    cases h
  · rw [hf] at h
    have hd : d.2 = old := by simpa using h
    have hp := List.find?_some hf
    have hmem := List.mem_of_find?_eq_some hf
    simp only [decide_eq_true_eq] at hp
    subst hd
    refine ⟨?_, hp.2⟩
    have : d = (coll, d.2) := by rw [← hp.1]
    rw [← this]
    exact hmem

/-- No document is found by `lookup` exactly when none is stored in that
collection under that key. -/
theorem MemStore.lookup_eq_none (s : MemStore) (coll key : String) :
    s.lookup coll key = none ↔ ∀ d ∈ s.documents, ¬ (d.1 = coll ∧ d.2.Key = key) := by
  unfold MemStore.lookup
  simp [List.find?_eq_none]

theorem find?_filter_of_imp {α : Type} (p q : α → Bool) (h : ∀ a, p a = true → q a = true) :
    ∀ l : List α, (l.filter q).find? p = l.find? p
  | [] => rfl
  | a :: l => by
    by_cases hq : q a = true
    · rw [List.filter_cons_of_pos hq]
      by_cases hp : p a = true
      · simp [List.find?_cons, hp]
      · simp [List.find?_cons, hp, find?_filter_of_imp p q h l]
    · have hp : ¬ p a = true := fun hp => hq (h a hp)
      rw [List.filter_cons_of_neg hq]
      simp [List.find?_cons, hp, find?_filter_of_imp p q h l]

theorem length_filter_other (coll key : String) :
    ∀ l : List (String × Relation),
      (l.map (fun d => (d.1, d.2.Key))).Nodup →
      (∃ d ∈ l, d.1 = coll ∧ d.2.Key = key) →
      (l.filter (fun d => ¬ (d.1 = coll ∧ d.2.Key = key))).length + 1 = l.length
  | [], _, h => by
    rcases h with ⟨d, hd, _⟩
    cases hd
  | a :: l, hnd, h => by
    rw [List.map_cons, List.nodup_cons] at hnd
    by_cases ha : a.1 = coll ∧ a.2.Key = key
    · have hrest : ∀ d ∈ l, ¬ (d.1 = coll ∧ d.2.Key = key) := by
        intro d hd hdm
        apply hnd.1
        rw [List.mem_map]
        exact ⟨d, hd, by rw [hdm.1, hdm.2, ha.1, ha.2]⟩
      have hkeep : l.filter (fun d => ¬ (d.1 = coll ∧ d.2.Key = key)) = l := by
        rw [List.filter_eq_self]
        intro d hd
        exact decide_eq_true (hrest d hd)
      rw [List.filter_cons_of_neg
        (by simp only [decide_eq_true_eq, not_not]; exact ha), hkeep]
      rfl
    · have hex : ∃ d ∈ l, d.1 = coll ∧ d.2.Key = key := by
        rcases h with ⟨d, hd, hdm⟩
        rcases List.mem_cons.mp hd with hda | hdl
        · rw [hda] at hdm
          exact absurd hdm ha
        · exact ⟨d, hdl, hdm⟩
      have hcons : (a :: l).filter (fun d => decide (¬ (d.1 = coll ∧ d.2.Key = key))) =
          a :: l.filter (fun d => decide (¬ (d.1 = coll ∧ d.2.Key = key))) :=
        List.filter_cons_of_pos (decide_eq_true ha)
      rw [hcons, List.length_cons, List.length_cons, length_filter_other coll key l hnd.2 hex]

/-- The run of `DeleteRelationship` on the reference store for a record that
exists. -/
theorem DeleteRelationship_mem_found (s : MemStore) (id coll key : String) (old : Relation)
    (hid : parseDocID id = .ok (coll, key))
    (hcoll : coll ∈ s.collections) (hold : s.lookup coll key = some old) :
    DeleteRelationship memClient s ⟨id⟩ =
      ⟨.ok (), none,
        { s with documents := s.documents.filter (fun d => ¬ (d.1 = coll ∧ d.2.Key = key)) },
        [.Query deleteQuery ⟨key, none, coll⟩]⟩ :=
  DeleteRelationship_succeeds memClient s _ ⟨id⟩ coll key _ _ hid
    (MemStore.query_delete_found s ⟨key, none, coll⟩ old hcoll hold) rfl

/-- The run of `DeleteRelationship` on the reference store for a record that
is missing from an existing collection. -/
theorem DeleteRelationship_mem_missing (s : MemStore) (id coll key : String)
    (hid : parseDocID id = .ok (coll, key))
    (hcoll : coll ∈ s.collections) (hold : s.lookup coll key = none) :
    DeleteRelationship memClient s ⟨id⟩ =
      ⟨.error relationNotFound, none, s, [.Query deleteQuery ⟨key, none, coll⟩]⟩ :=
  DeleteRelationship_read_fails memClient s s ⟨id⟩ coll key _ .noMoreDocuments hid
    (MemStore.query_delete_missing s ⟨key, none, coll⟩ hcoll hold) rfl

/-- The run of `DeleteRelationship` on the reference store for a collection
that does not exist. -/
theorem DeleteRelationship_mem_no_collection (s : MemStore) (id coll key : String)
    (hid : parseDocID id = .ok (coll, key)) (hcoll : coll ∉ s.collections) :
    DeleteRelationship memClient s ⟨id⟩ =
      ⟨.error internalError, none, s, [.Query deleteQuery ⟨key, none, coll⟩]⟩ :=
  DeleteRelationship_query_fails memClient s s ⟨id⟩ coll key _ hid
    (MemStore.query_no_collection s deleteQuery ⟨key, none, coll⟩ hcoll)

/-- C14: on the reference store, for every well-formed store state and every
well-formed id whose record exists, `DeleteRelationship` succeeds with the
empty acknowledgment; afterwards no record exists at the parsed (collection,
key), the lookup of every other (collection, key) gives what it gave before,
the documents left are the documents before without that one, exactly one
document is gone, and nothing else in the store has changed. -/
theorem C14_delete_removes_exactly_one (s : MemStore) (id coll key : String) (old : Relation)
    (hwf : s.WellFormed)
    (hid : parseDocID id = .ok (coll, key))
    (hold : s.lookup coll key = some old) :
    (DeleteRelationship memClient s ⟨id⟩).result = .ok () ∧
    (DeleteRelationship memClient s ⟨id⟩).store.lookup coll key = none ∧
    (∀ c k, ¬ (c = coll ∧ k = key) →
      (DeleteRelationship memClient s ⟨id⟩).store.lookup c k = s.lookup c k) ∧
    (DeleteRelationship memClient s ⟨id⟩).store.documents =
      s.documents.filter (fun d => ¬ (d.1 = coll ∧ d.2.Key = key)) ∧
    (∀ d ∈ s.documents, d ≠ (coll, old) → d ∈ (DeleteRelationship memClient s ⟨id⟩).store.documents) ∧
    (DeleteRelationship memClient s ⟨id⟩).store.documents.length + 1 = s.documents.length ∧
    (DeleteRelationship memClient s ⟨id⟩).store.collections = s.collections ∧
    (DeleteRelationship memClient s ⟨id⟩).store.constraints = s.constraints ∧
    (DeleteRelationship memClient s ⟨id⟩).store.graphVertices = s.graphVertices ∧
    (DeleteRelationship memClient s ⟨id⟩).store.clock = s.clock := by
  obtain ⟨hmem, hkey⟩ := MemStore.lookup_some s coll key old hold
  have hcoll : coll ∈ s.collections := (hwf.1 _ hmem).1
  rw [DeleteRelationship_mem_found s id coll key old hid hcoll hold]
  refine ⟨rfl, ?_, ?_, rfl, ?_, ?_, rfl, rfl, rfl, rfl⟩
  · rw [MemStore.lookup_eq_none]
    intro d hd
    simp only [List.mem_filter, decide_eq_true_eq] at hd
    exact hd.2
  · intro c k hck
    simp only [MemStore.lookup]
    rw [find?_filter_of_imp]
    intro d hd
    simp only [decide_eq_true_eq] at hd ⊢
    intro hdm
    exact hck ⟨hd.1 ▸ hdm.1, hd.2 ▸ hdm.2⟩
  · intro d hd hne
    simp only [List.mem_filter, decide_eq_true_eq]
    refine ⟨hd, ?_⟩
    intro hdm
    apply hne
    have hpair : (d.1, d.2.Key) = (coll, old.Key) := by rw [hdm.1, hdm.2, hkey]
    have hinj := List.inj_on_of_nodup_map hwf.2 hd hmem hpair
    exact hinj
  · exact length_filter_other coll key s.documents hwf.2 ⟨(coll, old), hmem, rfl, hkey⟩

/-- C14, at the record of the spec's example on the reference store. -/
theorem C14_delete_removes_exactly_one_witness :
    storeAfterHostedBy.WellFormed ∧
    parseDocID hostedById = .ok ("events_hosted_by_organizations", "1") ∧
    storeAfterHostedBy.lookup "events_hosted_by_organizations" "1" =
      some ⟨hostedById, "1", "_r1", "events/e1", "organizations/o1", "hosted by"⟩ ∧
    (DeleteRelationship memClient storeAfterHostedBy ⟨hostedById⟩).result = .ok () ∧
    (DeleteRelationship memClient storeAfterHostedBy ⟨hostedById⟩).store.lookup
      "events_hosted_by_organizations" "1" = none :=
  have h := C14_delete_removes_exactly_one storeAfterHostedBy hostedById
    "events_hosted_by_organizations" "1"
    ⟨hostedById, "1", "_r1", "events/e1", "organizations/o1", "hosted by"⟩
    (by decide) rfl rfl
  ⟨by decide, rfl, rfl, h.1, h.2.1⟩

theorem splitAtSeparator_some : ∀ (l coll key : List Char),
    splitAtSeparator l = some (coll, key) → l = coll ++ '/' :: key
  | [], _, _, h => by simp [splitAtSeparator] at h
  | c :: cs, coll, key, h => by
    by_cases hc : c = '/'
    · simp only [splitAtSeparator, if_pos hc, Option.some.injEq, Prod.mk.injEq] at h
      rw [← h.1, ← h.2, hc]
      rfl
    · simp only [splitAtSeparator, if_neg hc] at h
      rcases hs : splitAtSeparator cs with _ | ⟨coll', key'⟩
      · rw [hs] at h
        cases h
      · rw [hs] at h
        simp only [Option.some.injEq, Prod.mk.injEq] at h
        rw [← h.1, ← h.2, splitAtSeparator_some cs coll' key' hs]
        rfl

/-- An id the spec's parser accepts is its collection, the separator, its
key. -/
theorem parseDocID_ok_eq (id coll key : String) (h : parseDocID id = .ok (coll, key)) :
    id = coll ++ "/" ++ key := by
  unfold parseDocID at h
  rcases hs : splitAtSeparator id.data with _ | ⟨c, k⟩
  · rw [hs] at h
    cases h
  · rw [hs] at h
    simp only at h
    split_ifs at h
    simp only [Except.ok.injEq, Prod.mk.injEq] at h
    apply String.ext
    rw [splitAtSeparator_some id.data c k hs, ← h.1, ← h.2]
    simp [String.data_append]

/-- The run of `UpdateRelationship` on the reference store for a record that
exists. -/
theorem UpdateRelationship_mem_found (s : MemStore) (id coll key : String)
    (patch : Option Relation) (old : Relation)
    (hid : parseDocID id = .ok (coll, key))
    (hcoll : coll ∈ s.collections) (hold : s.lookup coll key = some old) :
    UpdateRelationship memClient s ⟨id, patch⟩ =
      ⟨.ok ⟨old.Id, old.Key, "_r" ++ toString (s.clock + 1), (mergePatch old patch).From,
          (mergePatch old patch).To, (mergePatch old patch).Name⟩,
        patch,
        { s with
          documents := s.documents.map (fun d =>
            if d.1 = coll ∧ d.2.Key = key then
              (d.1, { mergePatch old patch with Rev := "_r" ++ toString (s.clock + 1) })
            else d)
          clock := s.clock + 1 },
        [.Query updateQuery ⟨key, some patch, coll⟩]⟩ :=
  UpdateRelationship_succeeds memClient s _ ⟨id, patch⟩ coll key _ _ _ hid
    (MemStore.query_update_found s ⟨key, some patch, coll⟩ old hcoll hold) rfl

/-- The run of `UpdateRelationship` on the reference store for a record that
is missing from an existing collection. -/
theorem UpdateRelationship_mem_missing (s : MemStore) (id coll key : String)
    (patch : Option Relation)
    (hid : parseDocID id = .ok (coll, key))
    (hcoll : coll ∈ s.collections) (hold : s.lookup coll key = none) :
    UpdateRelationship memClient s ⟨id, patch⟩ =
      ⟨.error internalError, patch, s, [.Query updateQuery ⟨key, some patch, coll⟩]⟩ :=
  UpdateRelationship_query_fails memClient s s ⟨id, patch⟩ coll key _ hid
    (MemStore.query_update_missing s ⟨key, some patch, coll⟩ hcoll hold)

/-- The run of `UpdateRelationship` on the reference store for a collection
that does not exist. -/
theorem UpdateRelationship_mem_no_collection (s : MemStore) (id coll key : String)
    (patch : Option Relation)
    (hid : parseDocID id = .ok (coll, key)) (hcoll : coll ∉ s.collections) :
    UpdateRelationship memClient s ⟨id, patch⟩ =
      ⟨.error internalError, patch, s, [.Query updateQuery ⟨key, some patch, coll⟩]⟩ :=
  UpdateRelationship_query_fails memClient s s ⟨id, patch⟩ coll key _ hid
    (MemStore.query_no_collection s updateQuery ⟨key, some patch, coll⟩ hcoll)

/-- The lookup of a record after the documents stored at `(coll, key)` are
replaced by `new`, whose key is `key`. -/
theorem lookup_map_replace (coll key : String) (new : Relation) (hnew : new.Key = key)
    (c k : String) (l : List (String × Relation)) :
    ((l.map (fun d => if d.1 = coll ∧ d.2.Key = key then (d.1, new) else d)).find?
        (fun d => d.1 = c ∧ d.2.Key = k)).map (fun d => d.2) =
      ((l.find? (fun d => d.1 = c ∧ d.2.Key = k)).map (fun d => d.2)).map
        (fun r => if c = coll ∧ k = key then new else r) := by
  induction l with
  | nil => rfl
  | cons a l ih =>
    rw [List.map_cons, List.find?_cons, List.find?_cons]
    by_cases ha : a.1 = coll ∧ a.2.Key = key
    · by_cases hck : c = coll ∧ k = key
      · have h₁ : decide ((a.1, new).1 = c ∧ (a.1, new).2.Key = k) = true := by
          simp [ha.1, hnew, hck.1, hck.2]
        have h₂ : decide (a.1 = c ∧ a.2.Key = k) = true := by
          simp [ha.1, ha.2, hck.1, hck.2]
        simp only [if_pos ha, h₁, h₂, Option.map_some', if_pos hck]
      · have h₁ : decide ((a.1, new).1 = c ∧ (a.1, new).2.Key = k) = false := by
          simp only [decide_eq_false_iff_not]
          rintro ⟨hc, hk⟩
          exact hck ⟨hc ▸ ha.1, by rw [← hk]; exact hnew⟩
        have h₂ : decide (a.1 = c ∧ a.2.Key = k) = false := by
          simp only [decide_eq_false_iff_not]
          rintro ⟨hc, hk⟩
          exact hck ⟨hc ▸ ha.1, hk ▸ ha.2⟩
        simp only [if_pos ha, h₁, h₂]
        exact ih
    · simp only [if_neg ha]
      by_cases hq : a.1 = c ∧ a.2.Key = k
      · have h₂ : decide (a.1 = c ∧ a.2.Key = k) = true := decide_eq_true hq
        have hck : ¬ (c = coll ∧ k = key) := by
          rintro ⟨hc, hk⟩
          exact ha ⟨hq.1.trans hc, hq.2.trans hk⟩
        simp only [h₂, Option.map_some', if_neg hck]
      · have h₂ : decide (a.1 = c ∧ a.2.Key = k) = false := decide_eq_false hq
        simp only [h₂]
        exact ih

/-- C15: on the reference store, `UpdateRelationship` is a merge-patch: for
every well-formed store state, every existing record and every partial, the
update succeeds and the record it returns is the record it stores; each of the
fields from, to, name that is present (non-empty) in the partial takes the
partial's value, and each one that is not present, as every one of them under
a nil partial, keeps its stored value; id and key keep their stored values;
the record at every other (collection, key) is unchanged and no record is
added or removed; and the three fields are those the update statement, read
attribute by attribute off the query text, produces. -/
theorem C15_update_is_merge_patch (s : MemStore) (id coll key : String)
    (patch : Option Relation) (old : Relation)
    (hwf : s.WellFormed)
    (hid : parseDocID id = .ok (coll, key))
    (hold : s.lookup coll key = some old) :
    ∃ r : Relation,
      (UpdateRelationship memClient s ⟨id, patch⟩).result = .ok r ∧
      (UpdateRelationship memClient s ⟨id, patch⟩).store.lookup coll key = some r ∧
      (∀ p, patch = some p →
        r.From = (if p.From = "" then old.From else p.From) ∧
        r.To = (if p.To = "" then old.To else p.To) ∧
        r.Name = (if p.Name = "" then old.Name else p.Name)) ∧
      (patch = none → r.From = old.From ∧ r.To = old.To ∧ r.Name = old.Name) ∧
      r.Id = old.Id ∧ r.Key = old.Key ∧
      (∀ c k, ¬ (c = coll ∧ k = key) →
        (UpdateRelationship memClient s ⟨id, patch⟩).store.lookup c k = s.lookup c k) ∧
      (UpdateRelationship memClient s ⟨id, patch⟩).store.documents.length =
        s.documents.length ∧
      (updateStatement old patch).From = r.From ∧
      (updateStatement old patch).To = r.To ∧
      (updateStatement old patch).Name = r.Name := by
  obtain ⟨hmem, hkey⟩ := MemStore.lookup_some s coll key old hold
  have hcoll : coll ∈ s.collections := (hwf.1 _ hmem).1
  rw [UpdateRelationship_mem_found s id coll key patch old hid hcoll hold]
  refine ⟨_, rfl, ?_, ?_, ?_, rfl, rfl, ?_, ?_, ?_⟩
  · have hold' : (s.documents.find? (fun d => d.1 = coll ∧ d.2.Key = key)).map (fun d => d.2) =
        some old := hold
    refine (lookup_map_replace coll key
      { mergePatch old patch with Rev := "_r" ++ toString (s.clock + 1) }
      (by cases patch <;> exact hkey) coll key s.documents).trans ?_
    rw [hold']
    cases patch <;> simp [mergePatch]
  · intro p hp
    subst hp
    exact ⟨rfl, rfl, rfl⟩
  · intro hp
    subst hp
    exact ⟨rfl, rfl, rfl⟩
  · intro c k hck
    refine (lookup_map_replace coll key
      { mergePatch old patch with Rev := "_r" ++ toString (s.clock + 1) }
      (by cases patch <;> exact hkey) c k s.documents).trans ?_
    simp only [if_neg hck, Option.map_id', MemStore.lookup]
  · simp
  · rw [updateStatement_eq_mergePatch]
    exact ⟨rfl, rfl, rfl⟩

/-- C15, at the record of the spec's example with the partial that sets only
the name: the update changes the name and leaves from and to as they were. -/
theorem C15_update_is_merge_patch_witness :
    storeAfterHostedBy.WellFormed ∧
    parseDocID hostedById = .ok ("events_hosted_by_organizations", "1") ∧
    storeAfterHostedBy.lookup "events_hosted_by_organizations" "1" =
      some ⟨hostedById, "1", "_r1", "events/e1", "organizations/o1", "hosted by"⟩ ∧
    ∃ r : Relation,
      (UpdateRelationship memClient storeAfterHostedBy ⟨hostedById, some relatedPatch⟩).result =
        .ok r ∧
      (UpdateRelationship memClient storeAfterHostedBy
        ⟨hostedById, some relatedPatch⟩).store.lookup "events_hosted_by_organizations" "1" =
        some r ∧
      r.From = "events/e1" ∧ r.To = "organizations/o1" ∧ r.Name = "related" ∧
      r.Id = hostedById ∧ r.Key = "1" := by
  obtain ⟨r, hres, hstore, hfields, _, hid, hkey, _⟩ :=
    C15_update_is_merge_patch storeAfterHostedBy hostedById "events_hosted_by_organizations" "1"
      (some relatedPatch) ⟨hostedById, "1", "_r1", "events/e1", "organizations/o1", "hosted by"⟩
      (by decide) rfl rfl
  obtain ⟨hf, ht, hn⟩ := hfields relatedPatch rfl
  exact ⟨by decide, rfl, rfl, r, hres, hstore, hf, ht, hn, hid, hkey⟩

/-- Two updates whose partials agree on from, to and name end with the same
result and store. -/
theorem UpdateRelationship_mem_congr (s : MemStore) (id : String) (p₁ p₂ : Relation)
    (hfrom : p₁.From = p₂.From) (hto : p₁.To = p₂.To) (hname : p₁.Name = p₂.Name) :
    (UpdateRelationship memClient s ⟨id, some p₁⟩).store =
      (UpdateRelationship memClient s ⟨id, some p₂⟩).store ∧
    (UpdateRelationship memClient s ⟨id, some p₁⟩).result =
      (UpdateRelationship memClient s ⟨id, some p₂⟩).result := by
  rcases hid : parseDocID id with e | ⟨coll, key⟩
  · rw [UpdateRelationship_bad_id memClient s ⟨id, some p₁⟩ e hid,
      UpdateRelationship_bad_id memClient s ⟨id, some p₂⟩ e hid]
    exact ⟨rfl, rfl⟩
  by_cases hcoll : coll ∈ s.collections
  · rcases hold : s.lookup coll key with _ | old
    · rw [UpdateRelationship_mem_missing s id coll key _ hid hcoll hold,
        UpdateRelationship_mem_missing s id coll key _ hid hcoll hold]
      exact ⟨rfl, rfl⟩
    · rw [UpdateRelationship_mem_found s id coll key _ old hid hcoll hold,
        UpdateRelationship_mem_found s id coll key _ old hid hcoll hold,
        mergePatch_congr old p₁ p₂ hfrom hto hname]
      exact ⟨rfl, rfl⟩
  · rw [UpdateRelationship_mem_no_collection s id coll key _ hid hcoll,
      UpdateRelationship_mem_no_collection s id coll key _ hid hcoll]
    exact ⟨rfl, rfl⟩

/-- C16: on the reference store, two updates with the same id whose partials
agree on from, to and name and differ only in id, key and revision apply the
same clean patch, which holds no `_id`, `_key` or `_rev`; the update statement
gives the same document for both and leaves id, key and revision of the stored
document alone; and the two updates end with the same store and the same
result. -/
theorem C16_partial_identity_ignored (s : MemStore) (id : String) (p₁ p₂ : Relation)
    (hfrom : p₁.From = p₂.From) (hto : p₁.To = p₂.To) (hname : p₁.Name = p₂.Name) :
    cleanPatch p₁ = cleanPatch p₂ ∧
    (cleanPatch p₁ "_id" = none ∧ cleanPatch p₁ "_key" = none ∧ cleanPatch p₁ "_rev" = none) ∧
    (∀ stored, updateStatement stored (some p₁) = updateStatement stored (some p₂)) ∧
    (∀ stored, (updateStatement stored (some p₁)).Id = stored.Id ∧
      (updateStatement stored (some p₁)).Key = stored.Key ∧
      (updateStatement stored (some p₁)).Rev = stored.Rev) ∧
    (UpdateRelationship memClient s ⟨id, some p₁⟩).store =
      (UpdateRelationship memClient s ⟨id, some p₂⟩).store ∧
    (UpdateRelationship memClient s ⟨id, some p₁⟩).result =
      (UpdateRelationship memClient s ⟨id, some p₂⟩).result := by
  refine ⟨cleanPatch_congr p₁ p₂ hfrom hto hname, ⟨rfl, rfl, rfl⟩, ?_, ?_,
    UpdateRelationship_mem_congr s id p₁ p₂ hfrom hto hname⟩
  · intro stored
    rw [updateStatement_eq_mergePatch, updateStatement_eq_mergePatch,
      mergePatch_congr stored p₁ p₂ hfrom hto hname]
  · intro stored
    rw [updateStatement_eq_mergePatch]
    exact ⟨rfl, rfl, rfl⟩

/-- C16, for the partial of the spec's update example with and without a
caller-supplied id, key and revision, on the reference store that holds the
record of the spec's example. -/
theorem C16_partial_identity_ignored_witness :
    relatedPatchWithIdentity.From = relatedPatch.From ∧
    relatedPatchWithIdentity.To = relatedPatch.To ∧
    relatedPatchWithIdentity.Name = relatedPatch.Name ∧
    (UpdateRelationship memClient storeAfterHostedBy
        ⟨hostedById, some relatedPatchWithIdentity⟩).store =
      (UpdateRelationship memClient storeAfterHostedBy ⟨hostedById, some relatedPatch⟩).store ∧
    (UpdateRelationship memClient storeAfterHostedBy ⟨hostedById, some relatedPatch⟩).store.lookup
        "events_hosted_by_organizations" "1" =
      some ⟨hostedById, "1", "_r2", "events/e1", "organizations/o1", "related"⟩ :=
  ⟨rfl, rfl, rfl,
    (C16_partial_identity_ignored storeAfterHostedBy hostedById relatedPatchWithIdentity
      relatedPatch rfl rfl rfl).2.2.2.2.1, rfl⟩

/-- C17: on the reference store, for every well-formed store state, every
successful `UpdateRelationship` returns a record whose id is the id given in
the request and whose key is the key parsed from that id; they are the id and
key of the record stored there before the update. -/
theorem C17_update_keeps_identity (s : MemStore) (id : String) (patch : Option Relation)
    (r : Relation)
    (hwf : s.WellFormed)
    (hok : (UpdateRelationship memClient s ⟨id, patch⟩).result = .ok r) :
    r.Id = id ∧
    ∃ coll old, parseDocID id = .ok (coll, r.Key) ∧ s.lookup coll r.Key = some old ∧
      old.Id = r.Id ∧ old.Key = r.Key := by
  rcases hid : parseDocID id with e | ⟨coll, key⟩
  · rw [UpdateRelationship_bad_id memClient s ⟨id, patch⟩ e hid] at hok
    cases hok
  by_cases hcoll : coll ∈ s.collections
  · rcases hold : s.lookup coll key with _ | old
    · rw [UpdateRelationship_mem_missing s id coll key _ hid hcoll hold] at hok
      cases hok
    · rw [UpdateRelationship_mem_found s id coll key _ old hid hcoll hold] at hok
      obtain ⟨hmem, hkey⟩ := MemStore.lookup_some s coll key old hold
      have hform : old.Id = coll ++ "/" ++ old.Key := (hwf.1 _ hmem).2
      have hr : r = ⟨old.Id, old.Key, "_r" ++ toString (s.clock + 1),
          (mergePatch old patch).From, (mergePatch old patch).To,
          (mergePatch old patch).Name⟩ := by
        cases hok
        rfl
      have hrid : r.Id = old.Id := by rw [hr]
      have hrkey : r.Key = old.Key := by rw [hr]
      refine ⟨?_, coll, old, ?_, ?_, hrid.symm, hrkey.symm⟩
      · rw [hrid, hform, hkey, parseDocID_ok_eq id coll key hid]
      · rw [hrkey, hkey]
      · rw [hrkey, hkey]
        exact hold
  · rw [UpdateRelationship_mem_no_collection s id coll key _ hid hcoll] at hok
    cases hok

/-- C17, at the record of the spec's example with the partial that sets only
the name. -/
theorem C17_update_keeps_identity_witness :
    storeAfterHostedBy.WellFormed ∧
    (UpdateRelationship memClient storeAfterHostedBy ⟨hostedById, some relatedPatch⟩).result =
      .ok ⟨hostedById, "1", "_r2", "events/e1", "organizations/o1", "related"⟩ ∧
    (⟨hostedById, "1", "_r2", "events/e1", "organizations/o1", "related"⟩ : Relation).Id =
      hostedById :=
  ⟨by decide, rfl,
    (C17_update_keeps_identity storeAfterHostedBy hostedById (some relatedPatch)
      ⟨hostedById, "1", "_r2", "events/e1", "organizations/o1", "related"⟩ (by decide) rfl).1⟩

/-- What the vertex-collection registration reports has no influence on the
run of `CreateRelationship`. -/
theorem CreateRelationship_registration_result {σ : Type} (caseTable : Char → Char)
    (db : ArangoDBClient σ) (s : σ) (req : CreateRelationshipRequest)
    (r : Except DriverError Collection) :
    CreateRelationship caseTable (withRegistrationResult db r) s req =
      CreateRelationship caseTable db s req := rfl

/-- C18 (as stated, refuted): two runs of the spec's example that differ only
in which backend error the vertex-partition registration returned both
succeed; the status handed to the caller is `OK`, not `Internal`. -/
theorem C18_counterexample_registration_error_not_internal :
    (registrationFailsWith (.arango 500 "internal server error")).CreateVertexCollectionWithOptions
        MemStore.empty "events_hosted_by_organizations" =
      (MemStore.empty, .error (.arango 500 "internal server error")) ∧
    (registrationFailsWith (.other "connection refused")).CreateVertexCollectionWithOptions
        MemStore.empty "events_hosted_by_organizations" =
      (MemStore.empty, .error (.other "connection refused")) ∧
    resultCode (CreateRelationship asciiCaseTable
      (registrationFailsWith (.arango 500 "internal server error")) MemStore.empty
      hostedByRequest).result = Code.OK ∧
    resultCode (CreateRelationship asciiCaseTable
      (registrationFailsWith (.other "connection refused")) MemStore.empty
      hostedByRequest).result = Code.OK :=
  ⟨rfl, rfl, rfl, rfl⟩

/-- C18 (amended): any two runs in which the store returned a backend error
other than the not-found and no-more-results conditions, at the get-or-create
of the edge partition, at the document insert, at the query of an update or
delete, or at the cursor read of an update or delete, hand the caller the
identical status, code `Internal` with the fixed message, whatever the two
errors are.  What the vertex-partition registration reports does not reach
the caller either: the run is the same whatever it reports. -/
theorem C18_backend_errors_do_not_leak {σ : Type} (caseTable : Char → Char)
    (db₁ db₂ : ArangoDBClient σ) (s₁ s₂ : σ) :
    (∀ req rel F k₁ T k₂ t₁ t₂ e₁ e₂,
      req.Relationship = some rel → rel.Name ≠ "" →
      db₁.ParseDocID rel.From = .ok (F, k₁) → db₁.ParseDocID rel.To = .ok (T, k₂) →
      db₂.ParseDocID rel.From = .ok (F, k₁) → db₂.ParseDocID rel.To = .ok (T, k₂) →
      db₁.GetCreateEdgeCollection s₁
        (collectionName F (normalizedName caseTable rel.Name) T) ⟨[F], [T]⟩ = (t₁, .error e₁) →
      db₂.GetCreateEdgeCollection s₂
        (collectionName F (normalizedName caseTable rel.Name) T) ⟨[F], [T]⟩ = (t₂, .error e₂) →
      isNotFoundCondition e₁ = false → isNotFoundCondition e₂ = false →
      (CreateRelationship caseTable db₁ s₁ req).result = .error internalError ∧
      (CreateRelationship caseTable db₂ s₂ req).result = .error internalError) ∧
    (∀ req rel F k₁ T k₂ t₁ t₂ c₁ c₂ u₁ u₂ e₁ e₂,
      req.Relationship = some rel → rel.Name ≠ "" →
      db₁.ParseDocID rel.From = .ok (F, k₁) → db₁.ParseDocID rel.To = .ok (T, k₂) →
      db₂.ParseDocID rel.From = .ok (F, k₁) → db₂.ParseDocID rel.To = .ok (T, k₂) →
      db₁.GetCreateEdgeCollection s₁
        (collectionName F (normalizedName caseTable rel.Name) T) ⟨[F], [T]⟩ = (t₁, .ok c₁) →
      db₂.GetCreateEdgeCollection s₂
        (collectionName F (normalizedName caseTable rel.Name) T) ⟨[F], [T]⟩ = (t₂, .ok c₂) →
      db₁.CreateDocument (db₁.CreateVertexCollectionWithOptions t₁ c₁.Name).1 c₁ (cleared rel) =
        (u₁, .error e₁) →
      db₂.CreateDocument (db₂.CreateVertexCollectionWithOptions t₂ c₂.Name).1 c₂ (cleared rel) =
        (u₂, .error e₂) →
      isNotFoundCondition e₁ = false → isNotFoundCondition e₂ = false →
      (CreateRelationship caseTable db₁ s₁ req).result = .error internalError ∧
      (CreateRelationship caseTable db₂ s₂ req).result = .error internalError) ∧
    (∀ req r, CreateRelationship caseTable (withRegistrationResult db₁ r) s₁ req =
      CreateRelationship caseTable db₁ s₁ req) ∧
    (∀ req coll key t₁ t₂ e₁ e₂,
      db₁.ParseDocID req.Id = .ok (coll, key) → db₂.ParseDocID req.Id = .ok (coll, key) →
      db₁.Query s₁ updateQuery ⟨key, some req.Relationship, coll⟩ = (t₁, .error e₁) →
      db₂.Query s₂ updateQuery ⟨key, some req.Relationship, coll⟩ = (t₂, .error e₂) →
      isNotFoundCondition e₁ = false → isNotFoundCondition e₂ = false →
      (UpdateRelationship db₁ s₁ req).result = .error internalError ∧
      (UpdateRelationship db₂ s₂ req).result = .error internalError) ∧
    (∀ req coll key t₁ t₂ c₁ c₂ e₁ e₂,
      db₁.ParseDocID req.Id = .ok (coll, key) → db₂.ParseDocID req.Id = .ok (coll, key) →
      db₁.Query s₁ updateQuery ⟨key, some req.Relationship, coll⟩ = (t₁, .ok c₁) →
      db₂.Query s₂ updateQuery ⟨key, some req.Relationship, coll⟩ = (t₂, .ok c₂) →
      c₁.ReadDocument = .error e₁ → c₂.ReadDocument = .error e₂ →
      isNotFoundCondition e₁ = false → isNotFoundCondition e₂ = false →
      (UpdateRelationship db₁ s₁ req).result = .error internalError ∧
      (UpdateRelationship db₂ s₂ req).result = .error internalError) ∧
    (∀ req coll key t₁ t₂ e₁ e₂,
      db₁.ParseDocID req.Id = .ok (coll, key) → db₂.ParseDocID req.Id = .ok (coll, key) →
      db₁.Query s₁ deleteQuery ⟨key, none, coll⟩ = (t₁, .error e₁) →
      db₂.Query s₂ deleteQuery ⟨key, none, coll⟩ = (t₂, .error e₂) →
      isNotFoundCondition e₁ = false → isNotFoundCondition e₂ = false →
      (DeleteRelationship db₁ s₁ req).result = .error internalError ∧
      (DeleteRelationship db₂ s₂ req).result = .error internalError) ∧
    (∀ req coll key t₁ t₂ c₁ c₂ e₁ e₂,
      db₁.ParseDocID req.Id = .ok (coll, key) → db₂.ParseDocID req.Id = .ok (coll, key) →
      db₁.Query s₁ deleteQuery ⟨key, none, coll⟩ = (t₁, .ok c₁) →
      db₂.Query s₂ deleteQuery ⟨key, none, coll⟩ = (t₂, .ok c₂) →
      c₁.ReadDocument = .error e₁ → c₂.ReadDocument = .error e₂ →
      isNotFoundCondition e₁ = false → isNotFoundCondition e₂ = false →
      (DeleteRelationship db₁ s₁ req).result = .error internalError ∧
      (DeleteRelationship db₂ s₂ req).result = .error internalError) ∧
    internalError = ⟨Code.Internal, "Internal service error. Please try again later."⟩ := by
  have hno : ∀ e, isNotFoundCondition e = false → IsNoMoreDocuments e = false := by
    intro e h
    unfold isNotFoundCondition at h
    exact (Bool.or_eq_false_iff.mp h).2
  refine ⟨?_, ?_, ?_, ?_, ?_, ?_, ?_, rfl⟩
  · intro req rel F k₁ T k₂ t₁ t₂ e₁ e₂ hreq hname hf₁ ht₁ hf₂ ht₂ h₁ h₂ _ _
    rw [CreateRelationship_edge_fails caseTable db₁ s₁ req rel F k₁ T k₂ t₁ e₁ hreq hf₁ ht₁ hname h₁,
      CreateRelationship_edge_fails caseTable db₂ s₂ req rel F k₁ T k₂ t₂ e₂ hreq hf₂ ht₂ hname h₂]
    exact ⟨rfl, rfl⟩
  · intro req rel F k₁ T k₂ t₁ t₂ c₁ c₂ u₁ u₂ e₁ e₂ hreq hname hf₁ ht₁ hf₂ ht₂ h₁ h₂ hi₁ hi₂ _ _
    rw [CreateRelationship_insert_fails caseTable db₁ s₁ req rel F k₁ T k₂ t₁ u₁ c₁ e₁
        hreq hf₁ ht₁ hname h₁ hi₁,
      CreateRelationship_insert_fails caseTable db₂ s₂ req rel F k₁ T k₂ t₂ u₂ c₂ e₂
        hreq hf₂ ht₂ hname h₂ hi₂]
    exact ⟨rfl, rfl⟩
  · intro req r
    rfl
  · intro req coll key t₁ t₂ e₁ e₂ hid₁ hid₂ hq₁ hq₂ _ _
    rw [UpdateRelationship_query_fails db₁ s₁ t₁ req coll key e₁ hid₁ hq₁,
      UpdateRelationship_query_fails db₂ s₂ t₂ req coll key e₂ hid₂ hq₂]
    exact ⟨rfl, rfl⟩
  · intro req coll key t₁ t₂ c₁ c₂ e₁ e₂ hid₁ hid₂ hq₁ hq₂ hr₁ hr₂ hn₁ hn₂
    rw [UpdateRelationship_read_fails db₁ s₁ t₁ req coll key c₁ e₁ hid₁ hq₁ hr₁,
      UpdateRelationship_read_fails db₂ s₂ t₂ req coll key c₂ e₂ hid₂ hq₂ hr₂,
      hno e₁ hn₁, hno e₂ hn₂]
    exact ⟨rfl, rfl⟩
  · intro req coll key t₁ t₂ e₁ e₂ hid₁ hid₂ hq₁ hq₂ _ _
    rw [DeleteRelationship_query_fails db₁ s₁ t₁ req coll key e₁ hid₁ hq₁,
      DeleteRelationship_query_fails db₂ s₂ t₂ req coll key e₂ hid₂ hq₂]
    exact ⟨rfl, rfl⟩
  · intro req coll key t₁ t₂ c₁ c₂ e₁ e₂ hid₁ hid₂ hq₁ hq₂ hr₁ hr₂ hn₁ hn₂
    rw [DeleteRelationship_read_fails db₁ s₁ t₁ req coll key c₁ e₁ hid₁ hq₁ hr₁,
      DeleteRelationship_read_fails db₂ s₂ t₂ req coll key c₂ e₂ hid₂ hq₂ hr₂,
      hno e₁ hn₁, hno e₂ hn₂]
    exact ⟨rfl, rfl⟩

/-- C18 (amended), for an update of the record of the spec's example on two
stores whose query fails, one with a server error and one with a dropped
connection, neither of them a not-found condition: both runs return the same
`Internal` status. -/
theorem C18_backend_errors_do_not_leak_witness :
    (queryFailsWith (.arango 500 "internal server error")).Query storeAfterHostedBy updateQuery
        ⟨"1", some (some relatedPatch), "events_hosted_by_organizations"⟩ =
      (storeAfterHostedBy, .error (.arango 500 "internal server error")) ∧
    (queryFailsWith (.other "connection refused")).Query storeAfterHostedBy updateQuery
        ⟨"1", some (some relatedPatch), "events_hosted_by_organizations"⟩ =
      (storeAfterHostedBy, .error (.other "connection refused")) ∧
    isNotFoundCondition (.arango 500 "internal server error") = false ∧
    isNotFoundCondition (.other "connection refused") = false ∧
    (UpdateRelationship (queryFailsWith (.arango 500 "internal server error")) storeAfterHostedBy
        ⟨hostedById, some relatedPatch⟩).result =
      .error ⟨Code.Internal, "Internal service error. Please try again later."⟩ ∧
    (UpdateRelationship (queryFailsWith (.other "connection refused")) storeAfterHostedBy
        ⟨hostedById, some relatedPatch⟩).result =
      .error ⟨Code.Internal, "Internal service error. Please try again later."⟩ :=
  have h := (C18_backend_errors_do_not_leak asciiCaseTable
    (queryFailsWith (.arango 500 "internal server error"))
    (queryFailsWith (.other "connection refused")) storeAfterHostedBy storeAfterHostedBy).2.2.2.1
    ⟨hostedById, some relatedPatch⟩ "events_hosted_by_organizations" "1"
    storeAfterHostedBy storeAfterHostedBy (.arango 500 "internal server error")
    (.other "connection refused") rfl rfl rfl rfl rfl rfl
  ⟨rfl, rfl, rfl, rfl, h.1, h.2⟩

theorem mergePatch_idem (old : Relation) (patch : Option Relation) (rev : String) :
    ({ mergePatch { mergePatch old patch with Rev := rev } patch with Rev := "" } : Relation) =
      { mergePatch old patch with Rev := "" } := by
  cases patch with
  | none => rfl
  | some p =>
    simp only [mergePatch]
    by_cases hf : p.From = "" <;> by_cases ht : p.To = "" <;> by_cases hn : p.Name = "" <;>
      simp [hf, ht, hn]

/-- The store an update of an existing record on the reference store leaves. -/
theorem UpdateRelationship_mem_found_store (s : MemStore) (id coll key : String)
    (patch : Option Relation) (old : Relation)
    (hid : parseDocID id = .ok (coll, key))
    (hcoll : coll ∈ s.collections) (hold : s.lookup coll key = some old) :
    (UpdateRelationship memClient s ⟨id, patch⟩).store =
      s.replaced coll key { mergePatch old patch with Rev := "_r" ++ toString (s.clock + 1) } := by
  rw [UpdateRelationship_mem_found s id coll key patch old hid hcoll hold]
  rfl

/-- The store a delete of an existing record on the reference store leaves. -/
theorem DeleteRelationship_mem_found_store (s : MemStore) (id coll key : String) (old : Relation)
    (hid : parseDocID id = .ok (coll, key))
    (hcoll : coll ∈ s.collections) (hold : s.lookup coll key = some old) :
    (DeleteRelationship memClient s ⟨id⟩).store = s.removed coll key := by
  rw [DeleteRelationship_mem_found s id coll key old hid hcoll hold]
  rfl

/-- After the replacement the record at `(coll, key)` is the new one. -/
theorem MemStore.lookup_replaced (s : MemStore) (coll key : String) (old new : Relation)
    (hnew : new.Key = key) (hold : s.lookup coll key = some old) :
    (s.replaced coll key new).lookup coll key = some new := by
  have hold' : (s.documents.find? (fun d => d.1 = coll ∧ d.2.Key = key)).map (fun d => d.2) =
      some old := hold
  refine (lookup_map_replace coll key new hnew coll key s.documents).trans ?_
  rw [hold']
  simp

/-- After the removal no record is left at `(coll, key)`. -/
theorem MemStore.lookup_removed (s : MemStore) (coll key : String) :
    (s.removed coll key).lookup coll key = none := by
  rw [MemStore.lookup_eq_none]
  intro d hd
  simp only [MemStore.removed, List.mem_filter, decide_eq_true_eq] at hd
  exact hd.2

/-- A second update of a record found on the reference store changes no
stored field but the revision. -/
theorem MemStore.fields_replaced_twice (s : MemStore) (coll key : String)
    (old : Relation) (patch : Option Relation) (rev₁ rev₂ : String) (hkey : old.Key = key) :
    ((s.replaced coll key { mergePatch old patch with Rev := rev₁ }).replaced coll key
        { mergePatch { mergePatch old patch with Rev := rev₁ } patch with Rev := rev₂ }).fields =
      (s.replaced coll key { mergePatch old patch with Rev := rev₁ }).fields := by
  have hkey₁ : (mergePatch old patch).Key = key := by
    cases patch <;> exact hkey
  simp only [MemStore.fields, MemStore.replaced, List.map_map]
  apply List.map_congr_left
  intro d _
  simp only [Function.comp]
  by_cases hd : d.1 = coll ∧ d.2.Key = key
  · have hd₁ : d.1 = coll ∧ (mergePatch old patch).Key = key := ⟨hd.1, hkey₁⟩
    simp only [if_pos hd, if_pos hd₁]
    rw [mergePatch_idem old patch]
  · simp only [if_neg hd]

/-- C20: on the reference store, for every store state, id and partial,
`UpdateRelationship(id, partial)` applied twice leaves the same stored fields
(the revision apart), collections, constraints and graph as applied once, and
`DeleteRelationship(id)` applied twice leaves the same store state as applied
once. -/
theorem C20_update_delete_idempotent (s : MemStore) (id : String) (patch : Option Relation) :
    ((UpdateRelationship memClient (UpdateRelationship memClient s ⟨id, patch⟩).store
        ⟨id, patch⟩).store.fields =
      (UpdateRelationship memClient s ⟨id, patch⟩).store.fields ∧
     (UpdateRelationship memClient (UpdateRelationship memClient s ⟨id, patch⟩).store
        ⟨id, patch⟩).store.collections =
      (UpdateRelationship memClient s ⟨id, patch⟩).store.collections ∧
     (UpdateRelationship memClient (UpdateRelationship memClient s ⟨id, patch⟩).store
        ⟨id, patch⟩).store.constraints =
      (UpdateRelationship memClient s ⟨id, patch⟩).store.constraints ∧
     (UpdateRelationship memClient (UpdateRelationship memClient s ⟨id, patch⟩).store
        ⟨id, patch⟩).store.graphVertices =
      (UpdateRelationship memClient s ⟨id, patch⟩).store.graphVertices) ∧
    (DeleteRelationship memClient (DeleteRelationship memClient s ⟨id⟩).store ⟨id⟩).store =
      (DeleteRelationship memClient s ⟨id⟩).store := by
  rcases hid : parseDocID id with e | ⟨coll, key⟩
  · have hu : (UpdateRelationship memClient s ⟨id, patch⟩).store = s := by
      rw [UpdateRelationship_bad_id memClient s ⟨id, patch⟩ e hid]
    have hd : (DeleteRelationship memClient s ⟨id⟩).store = s := by
      rw [DeleteRelationship_bad_id memClient s ⟨id⟩ e hid]
    rw [hu, hd, hu, hd]
    exact ⟨⟨rfl, rfl, rfl, rfl⟩, rfl⟩
  by_cases hcoll : coll ∈ s.collections
  · rcases hold : s.lookup coll key with _ | old
    · have hu : (UpdateRelationship memClient s ⟨id, patch⟩).store = s := by
        rw [UpdateRelationship_mem_missing s id coll key patch hid hcoll hold]
      have hd : (DeleteRelationship memClient s ⟨id⟩).store = s := by
        rw [DeleteRelationship_mem_missing s id coll key hid hcoll hold]
      rw [hu, hd, hu, hd]
      exact ⟨⟨rfl, rfl, rfl, rfl⟩, rfl⟩
    · obtain ⟨_, hkey⟩ := MemStore.lookup_some s coll key old hold
      have hkey₁ : ({ mergePatch old patch with
          Rev := "_r" ++ toString (s.clock + 1) } : Relation).Key = key := by
        cases patch <;> exact hkey
      constructor
      · have h₁ := UpdateRelationship_mem_found_store s id coll key patch old hid hcoll hold
        have h₂ := UpdateRelationship_mem_found_store
          (s.replaced coll key
            { mergePatch old patch with Rev := "_r" ++ toString (s.clock + 1) })
          id coll key patch
          { mergePatch old patch with Rev := "_r" ++ toString (s.clock + 1) } hid hcoll
          (MemStore.lookup_replaced s coll key old _ hkey₁ hold)
        rw [h₁, h₂]
        exact ⟨MemStore.fields_replaced_twice s coll key old patch _ _ hkey, rfl, rfl, rfl⟩
      · rw [DeleteRelationship_mem_found_store s id coll key old hid hcoll hold]
        rw [DeleteRelationship_mem_missing (s.removed coll key) id coll key hid hcoll
          (MemStore.lookup_removed s coll key)]
  · have hu : (UpdateRelationship memClient s ⟨id, patch⟩).store = s := by
      rw [UpdateRelationship_mem_no_collection s id coll key patch hid hcoll]
    have hd : (DeleteRelationship memClient s ⟨id⟩).store = s := by
      rw [DeleteRelationship_mem_no_collection s id coll key hid hcoll]
    rw [hu, hd, hu, hd]
    exact ⟨⟨rfl, rfl, rfl, rfl⟩, rfl⟩

/-! ## Well-formed store states under update and delete -/

/-- The empty store is well-formed. -/
theorem MemStore.wellFormed_empty : MemStore.empty.WellFormed := by decide

/-- A delete statement keeps the store well-formed. -/
theorem MemStore.wellFormed_removed (s : MemStore) (coll key : String) (hwf : s.WellFormed) :
    (s.removed coll key).WellFormed := by
  constructor
  · intro d hd
    simp only [MemStore.removed, List.mem_filter] at hd
    exact hwf.1 d hd.1
  · exact (List.filter_sublist s.documents).map _ |>.nodup hwf.2

/-- An update statement keeps the store well-formed when the new document
keeps the id and key of the stored one. -/
theorem MemStore.wellFormed_replaced (s : MemStore) (coll key : String) (new : Relation)
    (hwf : s.WellFormed) (hkey : new.Key = key) (hident : new.Id = coll ++ "/" ++ key) :
    (s.replaced coll key new).WellFormed := by
  have hkeys : (s.documents.map (fun d =>
      if d.1 = coll ∧ d.2.Key = key then (d.1, new) else d)).map (fun d => (d.1, d.2.Key)) =
      s.documents.map (fun d => (d.1, d.2.Key)) := by
    rw [List.map_map]
    apply List.map_congr_left
    intro d _
    simp only [Function.comp]
    by_cases hd : d.1 = coll ∧ d.2.Key = key
    · rw [if_pos hd]
      show (d.1, new.Key) = (d.1, d.2.Key)
      rw [hkey, hd.2]
    · rw [if_neg hd]
  constructor
  · intro d hd
    simp only [MemStore.replaced, List.mem_map] at hd
    obtain ⟨d₀, hd₀, hd'⟩ := hd
    by_cases hm : d₀.1 = coll ∧ d₀.2.Key = key
    · rw [if_pos hm] at hd'
      rw [← hd']
      exact ⟨(hwf.1 d₀ hd₀).1, by rw [hident, hkey, hm.1]⟩
    · rw [if_neg hm] at hd'
      rw [← hd']
      exact hwf.1 d₀ hd₀
  · show ((s.documents.map _).map _).Nodup
    rw [hkeys]
    exact hwf.2

/-- `UpdateRelationship` and `DeleteRelationship` keep the reference store
well-formed. -/
theorem wellFormed_after_update_delete (s : MemStore) (id : String) (patch : Option Relation)
    (hwf : s.WellFormed) :
    (UpdateRelationship memClient s ⟨id, patch⟩).store.WellFormed ∧
    (DeleteRelationship memClient s ⟨id⟩).store.WellFormed := by
  rcases hid : parseDocID id with e | ⟨coll, key⟩
  · rw [UpdateRelationship_bad_id memClient s ⟨id, patch⟩ e hid,
      DeleteRelationship_bad_id memClient s ⟨id⟩ e hid]
    exact ⟨hwf, hwf⟩
  by_cases hcoll : coll ∈ s.collections
  · rcases hold : s.lookup coll key with _ | old
    · rw [UpdateRelationship_mem_missing s id coll key patch hid hcoll hold,
        DeleteRelationship_mem_missing s id coll key hid hcoll hold]
      exact ⟨hwf, hwf⟩
    · obtain ⟨hmem, hkey⟩ := MemStore.lookup_some s coll key old hold
      have hform : old.Id = coll ++ "/" ++ old.Key := (hwf.1 _ hmem).2
      rw [UpdateRelationship_mem_found_store s id coll key patch old hid hcoll hold,
        DeleteRelationship_mem_found_store s id coll key old hid hcoll hold]
      refine ⟨MemStore.wellFormed_replaced s coll key _ hwf ?_ ?_,
        MemStore.wellFormed_removed s coll key hwf⟩
      · cases patch <;> exact hkey
      · cases patch <;> (rw [← hkey]; exact hform)
  · rw [UpdateRelationship_mem_no_collection s id coll key patch hid hcoll,
      DeleteRelationship_mem_no_collection s id coll key hid hcoll]
    exact ⟨hwf, hwf⟩

/-! ## Validation and the caller's request object -/

/-- C28: validation precedes every side effect in `CreateRelationship`:
whenever it fails with `InvalidArgument`, no store call has been issued, the
store is as it was, and the relationship inside the caller's request is
unchanged, its id, key and revision not cleared. -/
theorem C28_validation_precedes_side_effects {σ : Type} (caseTable : Char → Char)
    (db : ArangoDBClient σ) (s : σ) (req : CreateRelationshipRequest)
    (hinvalid : resultCode (CreateRelationship caseTable db s req).result = Code.InvalidArgument) :
    (CreateRelationship caseTable db s req).calls = [] ∧
    (CreateRelationship caseTable db s req).store = s ∧
    (CreateRelationship caseTable db s req).request = req.Relationship := by
  rcases hreq : req.Relationship with _ | rel
  · rw [CreateRelationship_nil caseTable db s req hreq]
    exact ⟨rfl, rfl, rfl⟩
  rcases hfrom : db.ParseDocID rel.From with e | ⟨F, k₁⟩
  · rw [CreateRelationship_bad_from caseTable db s req rel e hreq hfrom]
    exact ⟨rfl, rfl, rfl⟩
  rcases hto : db.ParseDocID rel.To with e | ⟨T, k₂⟩
  · rw [CreateRelationship_bad_to caseTable db s req rel F k₁ e hreq hfrom hto]
    exact ⟨rfl, rfl, rfl⟩
  by_cases hname : rel.Name = ""
  · rw [CreateRelationship_bad_name caseTable db s req rel F k₁ T k₂ hreq hfrom hto hname]
    exact ⟨rfl, rfl, rfl⟩
  · exfalso
    rcases CreateRelationship_cases caseTable db s req rel F k₁ T k₂ hreq hfrom hto hname with
      ⟨s₁, e, _, hrun⟩ | ⟨s₁, coll, s₃, e, _, _, hrun⟩ |
      ⟨s₁, coll, s₃, meta, created, _, _, hrun⟩ <;>
    · rw [hrun] at hinvalid
      simp [resultCode, internalError] at hinvalid

/-- C28, at a request without from id that carries an id, a key and a
revision, on the store that holds the record of the spec's example. -/
theorem C28_validation_precedes_side_effects_witness :
    resultCode (CreateRelationship asciiCaseTable memClient storeAfterHostedBy
      missingFromRequest).result = Code.InvalidArgument ∧
    (CreateRelationship asciiCaseTable memClient storeAfterHostedBy missingFromRequest).calls = [] ∧
    (CreateRelationship asciiCaseTable memClient storeAfterHostedBy missingFromRequest).store =
      storeAfterHostedBy ∧
    (CreateRelationship asciiCaseTable memClient storeAfterHostedBy missingFromRequest).request =
      some ⟨"persons/p9", "p9", "_r77", "", "organizations/o1", "employment"⟩ :=
  have h := C28_validation_precedes_side_effects asciiCaseTable memClient storeAfterHostedBy
    missingFromRequest rfl
  ⟨rfl, h.1, h.2.1, h.2.2⟩

/-- C29: `CreateRelationship` modifies the caller's request in place: whenever
the request passes validation and the edge partition resolves, the relationship
inside the request has `Id`, `Key` and `Rev` empty afterwards, also when the
insert then fails, while `From`, `To` and `Name` keep the caller's values; the
name is not replaced by the normalized name. -/
theorem C29_request_cleared_in_place {σ : Type} (caseTable : Char → Char)
    (db : ArangoDBClient σ) (s : σ) (req : CreateRelationshipRequest) (rel : Relation)
    (F k₁ T k₂ : String) (s₁ : σ) (collection : Collection)
    (hreq : req.Relationship = some rel)
    (hfrom : db.ParseDocID rel.From = .ok (F, k₁))
    (hto : db.ParseDocID rel.To = .ok (T, k₂))
    (hname : rel.Name ≠ "")
    (h₁ : db.GetCreateEdgeCollection s
      (collectionName F (normalizedName caseTable rel.Name) T) ⟨[F], [T]⟩ = (s₁, .ok collection)) :
    (CreateRelationship caseTable db s req).request =
      some ⟨"", "", "", rel.From, rel.To, rel.Name⟩ ∧
    (∀ s₃ e,
      db.CreateDocument (db.CreateVertexCollectionWithOptions s₁ collection.Name).1
        collection (cleared rel) = (s₃, .error e) →
      (CreateRelationship caseTable db s req).result = .error internalError ∧
      (CreateRelationship caseTable db s req).request =
        some ⟨"", "", "", rel.From, rel.To, rel.Name⟩) := by
  rcases h₃ : db.CreateDocument (db.CreateVertexCollectionWithOptions s₁ collection.Name).1
      collection (cleared rel) with ⟨s₃, e | ⟨meta, created⟩⟩
  · rw [CreateRelationship_insert_fails caseTable db s req rel F k₁ T k₂ s₁ s₃ collection e
      hreq hfrom hto hname h₁ h₃]
    exact ⟨rfl, fun _ _ _ => ⟨rfl, rfl⟩⟩
  · rw [CreateRelationship_succeeds caseTable db s req rel F k₁ T k₂ s₁ s₃ collection meta created
      hreq hfrom hto hname h₁ h₃]
    refine ⟨rfl, ?_⟩
    intro s₃' e he
    cases he

/-- C29, at the request of the spec's example with a caller-supplied id, key
and revision, on a store whose insert fails. -/
theorem C29_request_cleared_in_place_witness :
    failingInsertClient.GetCreateEdgeCollection MemStore.empty
      (collectionName "events" (normalizedName asciiCaseTable "hosted by") "organizations")
      ⟨["events"], ["organizations"]⟩ =
      (⟨["events_hosted_by_organizations"],
        [("events_hosted_by_organizations", ⟨["events"], ["organizations"]⟩)], [], [], 0⟩,
        .ok ⟨"events_hosted_by_organizations"⟩) ∧
    hostedByRequestWithIdentity.Relationship =
      some ⟨"persons/p9", "p9", "_r77", "events/e1", "organizations/o1", "hosted by"⟩ ∧
    (CreateRelationship asciiCaseTable failingInsertClient MemStore.empty
      hostedByRequestWithIdentity).result = .error internalError ∧
    (CreateRelationship asciiCaseTable failingInsertClient MemStore.empty
      hostedByRequestWithIdentity).request =
      some ⟨"", "", "", "events/e1", "organizations/o1", "hosted by"⟩ :=
  have h := C29_request_cleared_in_place asciiCaseTable failingInsertClient MemStore.empty
    hostedByRequestWithIdentity
    ⟨"persons/p9", "p9", "_r77", "events/e1", "organizations/o1", "hosted by"⟩
    "events" "e1" "organizations" "o1"
    ⟨["events_hosted_by_organizations"],
      [("events_hosted_by_organizations", ⟨["events"], ["organizations"]⟩)], [], [], 0⟩
    ⟨"events_hosted_by_organizations"⟩ rfl rfl rfl (by decide) rfl
  ⟨rfl, rfl, rfl, h.1⟩

/-! ## Lowercasing, rune by rune -/

theorem toNat_ofNat_of_lt (n : Nat) (h : n < 0xd800) : (Char.ofNat n).toNat = n := by
  have hv : n.isValidChar := Or.inl h
  unfold Char.ofNat
  rw [dif_pos hv]
  rfl

theorem char_eq_of_toNat_eq (c d : Char) (h : c.toNat = d.toNat) : c = d := by
  rw [← Char.ofNat_toNat c, ← Char.ofNat_toNat d, h]

/-- The code point of the lowercase form of an ASCII rune. -/
theorem unicodeToLower_ascii (caseTable : Char → Char) (c : Char) (h : c.toNat ≤ 0x7F) :
    (unicodeToLower caseTable c).toNat =
      if 65 ≤ c.toNat ∧ c.toNat ≤ 90 then c.toNat + 32 else c.toNat := by
  have hA : 'A'.toNat = 65 := rfl
  have hZ : 'Z'.toNat = 90 := rfl
  have ha : 'a'.toNat = 97 := rfl
  unfold unicodeToLower
  rw [if_pos h, hA, hZ, ha]
  by_cases hup : 65 ≤ c.toNat ∧ c.toNat ≤ 90
  · rw [if_pos hup, if_pos hup]
    exact toNat_ofNat_of_lt _ (by omega)
  · rw [if_neg hup, if_neg hup]

/-- The lowercase form of a rune beyond ASCII is what the case table says. -/
theorem unicodeToLower_beyond_ascii (caseTable : Char → Char) (c : Char) (h : 0x7F < c.toNat) :
    unicodeToLower caseTable c = caseTable c := by
  unfold unicodeToLower
  rw [if_neg (by omega)]

/-- Lowercasing gives the code point `n`, which is no lowercase letter's,
only for the rune with that code point, when the case table never gives it. -/
theorem unicodeToLower_eq_iff (caseTable : Char → Char) (c x : Char)
    (hx : x.toNat ≤ 0x7F) (hlow : ¬ (97 ≤ x.toNat ∧ x.toNat ≤ 122))
    (hup : ¬ (65 ≤ x.toNat ∧ x.toNat ≤ 90))
    (htable : ∀ r : Char, 0x7F < r.toNat → caseTable r ≠ x) :
    unicodeToLower caseTable c = x ↔ c = x := by
  by_cases hc : c.toNat ≤ 0x7F
  · have hval := unicodeToLower_ascii caseTable c hc
    constructor
    · intro h
      rw [h] at hval
      apply char_eq_of_toNat_eq
      by_cases hcu : 65 ≤ c.toNat ∧ c.toNat ≤ 90
      · rw [if_pos hcu] at hval
        omega
      · rw [if_neg hcu] at hval
        exact hval.symm
    · intro h
      apply char_eq_of_toNat_eq
      rw [hval, h, if_neg hup]
  · have hbeyond : 0x7F < c.toNat := by omega
    rw [unicodeToLower_beyond_ascii caseTable c hbeyond]
    constructor
    · intro h
      exact absurd h (htable c hbeyond)
    · intro h
      rw [h] at hbeyond
      omega

/-- Lowercasing twice is lowercasing once, when it is so for the case table. -/
theorem unicodeToLower_idem (caseTable : Char → Char) (c : Char)
    (htable : ∀ r : Char, 0x7F < r.toNat →
      unicodeToLower caseTable (caseTable r) = caseTable r) :
    unicodeToLower caseTable (unicodeToLower caseTable c) = unicodeToLower caseTable c := by
  by_cases hc : c.toNat ≤ 0x7F
  · have hval := unicodeToLower_ascii caseTable c hc
    have hc' : (unicodeToLower caseTable c).toNat ≤ 0x7F := by
      rw [hval]
      split_ifs <;> omega
    apply char_eq_of_toNat_eq
    rw [unicodeToLower_ascii caseTable _ hc', hval]
    split_ifs <;> omega
  · have hbeyond : 0x7F < c.toNat := by omega
    rw [unicodeToLower_beyond_ascii caseTable c hbeyond]
    exact htable c hbeyond

theorem stringsReplaceAll_stringsToLower (caseTable : Char → Char) (name : String) :
    specNormalizedName caseTable name =
      ⟨name.data.map (fun c =>
        if unicodeToLower caseTable c = ' ' then '_' else unicodeToLower caseTable c)⟩ := by
  unfold specNormalizedName
  rw [stringsToLower_eq_map]
  simp only [stringsReplaceAll, List.map_map]
  rfl

/-- C27: the two orders of normalization agree: for every name, lowercasing
and then replacing each space by an underscore (the spec's order) gives the
string the code computes by replacing first and lowercasing then; and
normalization is idempotent.  The case table of the runtime enters through two
of its properties: beyond ASCII it never yields a space, and lowercasing what
it yields changes nothing. -/
theorem C27_normalization_orders_agree (caseTable : Char → Char) (name : String)
    (hspace : ∀ r : Char, 0x7F < r.toNat → caseTable r ≠ ' ')
    (hidem : ∀ r : Char, 0x7F < r.toNat →
      unicodeToLower caseTable (caseTable r) = caseTable r) :
    specNormalizedName caseTable name =
      stringsToLower caseTable (stringsReplaceAll name ' ' '_') ∧
    processRelationName caseTable name =
      (if name = "" then .error ⟨Code.InvalidArgument, "invalid relation name"⟩
        else .ok (specNormalizedName caseTable name)) ∧
    normalizedName caseTable (normalizedName caseTable name) = normalizedName caseTable name ∧
    stringsToLower caseTable (stringsReplaceAll
        (stringsToLower caseTable (stringsReplaceAll name ' ' '_')) ' ' '_') =
      stringsToLower caseTable (stringsReplaceAll name ' ' '_') := by
  have hsp : ∀ c : Char, unicodeToLower caseTable c = ' ' ↔ c = ' ' := fun c =>
    unicodeToLower_eq_iff caseTable c ' ' (by decide) (by decide) (by decide) hspace
  have horder : specNormalizedName caseTable name = normalizedName caseTable name := by
    rw [stringsReplaceAll_stringsToLower]
    unfold normalizedName
    congr 1
    apply List.map_congr_left
    intro c _
    simp only [normalizeRune, hsp c]
  have hrune : ∀ c : Char,
      normalizeRune caseTable (normalizeRune caseTable c) = normalizeRune caseTable c := by
    intro c
    by_cases hc : c = ' '
    · rw [hc]
      rfl
    · have hne : unicodeToLower caseTable c ≠ ' ' := fun h => hc ((hsp c).mp h)
      simp only [normalizeRune, if_neg hc, if_neg hne]
      exact unicodeToLower_idem caseTable c hidem
  have hidemName : normalizedName caseTable (normalizedName caseTable name) =
      normalizedName caseTable name := by
    simp only [normalizedName, List.map_map]
    congr 1
    apply List.map_congr_left
    intro c _
    exact hrune c
  refine ⟨?_, ?_, hidemName, ?_⟩
  · rw [horder, relationName_eq_normalizedName]
  · rw [processRelationName_eq, horder]
  · rw [relationName_eq_normalizedName, relationName_eq_normalizedName]
    exact hidemName

/-- C27, for the name `"Hosted By"` and the case table that leaves every rune
beyond ASCII alone. -/
theorem C27_normalization_orders_agree_witness :
    (∀ r : Char, 0x7F < r.toNat → asciiCaseTable r ≠ ' ') ∧
    (∀ r : Char, 0x7F < r.toNat →
      unicodeToLower asciiCaseTable (asciiCaseTable r) = asciiCaseTable r) ∧
    specNormalizedName asciiCaseTable "Hosted By" = "hosted_by" ∧
    specNormalizedName asciiCaseTable "Hosted By" =
      stringsToLower asciiCaseTable (stringsReplaceAll "Hosted By" ' ' '_') :=
  have hspace : ∀ r : Char, 0x7F < r.toNat → asciiCaseTable r ≠ ' ' := by
    intro r hr h
    have h' : r = ' ' := h
    rw [h'] at hr
    exact absurd hr (by decide)
  have hidem : ∀ r : Char, 0x7F < r.toNat →
      unicodeToLower asciiCaseTable (asciiCaseTable r) = asciiCaseTable r := by
    intro r hr
    exact unicodeToLower_beyond_ascii asciiCaseTable r hr
  ⟨hspace, hidem, by decide,
    (C27_normalization_orders_agree asciiCaseTable "Hosted By" hspace hidem).1⟩

/-! ## The partition name as a collection name -/

theorem collectionName_data (F n T : String) :
    (collectionName F n T).data = F.data ++ '_' :: (n.data ++ '_' :: T.data) := by
  simp [collectionName, String.data_append]

theorem splitAtSeparator_collection : ∀ (l coll key : List Char),
    splitAtSeparator l = some (coll, key) → '/' ∉ coll
  | [], _, _, h => by simp [splitAtSeparator] at h
  | c :: cs, coll, key, h => by
    by_cases hc : c = '/'
    · simp only [splitAtSeparator, if_pos hc, Option.some.injEq, Prod.mk.injEq] at h
      rw [← h.1]
      exact List.not_mem_nil _
    · simp only [splitAtSeparator, if_neg hc] at h
      rcases hs : splitAtSeparator cs with _ | ⟨coll', key'⟩
      · rw [hs] at h
        cases h
      · rw [hs] at h
        simp only [Option.some.injEq, Prod.mk.injEq] at h
        rw [← h.1]
        intro hmem
        rcases List.mem_cons.mp hmem with heq | hrest
        · exact hc heq.symm
        · exact splitAtSeparator_collection cs coll' key' hs hrest

/-- The collection part of an id the spec's parser accepts holds no
separator. -/
theorem parseDocID_collection (id coll key : String) (h : parseDocID id = .ok (coll, key)) :
    '/' ∉ coll.data := by
  unfold parseDocID at h
  rcases hs : splitAtSeparator id.data with _ | ⟨c, k⟩
  · rw [hs] at h
    cases h
  · rw [hs] at h
    simp only at h
    split_ifs at h
    simp only [Except.ok.injEq, Prod.mk.injEq] at h
    rw [← h.1]
    exact splitAtSeparator_collection id.data c k hs

/-- The normalized name holds a separator only if the name does, when the
case table never yields one. -/
theorem normalizedName_no_separator (caseTable : Char → Char) (name : String)
    (hname : '/' ∉ name.data)
    (htable : ∀ r : Char, 0x7F < r.toNat → caseTable r ≠ '/') :
    '/' ∉ (normalizedName caseTable name).data := by
  intro hmem
  simp only [normalizedName, List.mem_map] at hmem
  obtain ⟨c, hc, hcn⟩ := hmem
  by_cases hsp : c = ' '
  · rw [normalizeRune, if_pos hsp] at hcn
    exact absurd hcn (by decide)
  · rw [normalizeRune, if_neg hsp] at hcn
    have hceq : c = '/' :=
      (unicodeToLower_eq_iff caseTable c '/' (by decide) (by decide) (by decide) htable).mp hcn
    rw [hceq] at hc
    exact hname hc

/-- C26 (as stated, refuted): the request with name `"a/b"` passes validation
and asks the store for the partition `"events_a/b_organizations"`, which holds
the separator; the id made of that partition, `"/"` and the key `"1"` splits on
its first separator into `("events_a", "b_organizations/1")`.  A character
outside any partition-name alphabet, such as `"!"`, passes validation as
well. -/
theorem C26_counterexample_separator_in_partition_name :
    (CreateRelationship asciiCaseTable memClient MemStore.empty slashNameRequest).calls.head? =
      some (.GetCreateEdgeCollection "events_a/b_organizations"
        ⟨["events"], ["organizations"]⟩) ∧
    '/' ∈ (collectionName "events" (normalizedName asciiCaseTable "a/b") "organizations").data ∧
    parseDocID (collectionName "events" (normalizedName asciiCaseTable "a/b") "organizations"
        ++ "/" ++ "1") = .ok ("events_a", "b_organizations/1") ∧
    processRelationName asciiCaseTable "Owned By!" = .ok "owned_by!" :=
  ⟨rfl, by decide, rfl, rfl⟩

/-- C26 (amended): for every request that passes validation (with the spec's
id parser) and whose relation name holds no `"/"`, the derived partition name
holds no `"/"`, so that for every non-empty key the id
`"<derived partition>/<key>"` splits on its first separator into exactly
(derived partition, key).  The case table of the runtime enters through one
property: beyond ASCII it never yields `"/"`. -/
theorem C26_partition_name_without_separator (caseTable : Char → Char) (s : MemStore)
    (rel : Relation) (F k₁ T k₂ : String)
    (hfrom : parseDocID rel.From = .ok (F, k₁))
    (hto : parseDocID rel.To = .ok (T, k₂))
    (hname : rel.Name ≠ "")
    (hsep : '/' ∉ rel.Name.data)
    (htable : ∀ r : Char, 0x7F < r.toNat → caseTable r ≠ '/') :
    (CreateRelationship caseTable memClient s ⟨some rel⟩).calls.head? =
      some (.GetCreateEdgeCollection (collectionName F (normalizedName caseTable rel.Name) T)
        ⟨[F], [T]⟩) ∧
    '/' ∉ (collectionName F (normalizedName caseTable rel.Name) T).data ∧
    ∀ key : String, key ≠ "" →
      parseDocID (collectionName F (normalizedName caseTable rel.Name) T ++ "/" ++ key) =
        .ok (collectionName F (normalizedName caseTable rel.Name) T, key) := by
  have hno : '/' ∉ (collectionName F (normalizedName caseTable rel.Name) T).data := by
    rw [collectionName_data]
    intro hmem
    simp only [List.mem_append, List.mem_cons] at hmem
    rcases hmem with hF | hu | hn | hu | hT
    · exact parseDocID_collection rel.From F k₁ hfrom hF
    · exact absurd hu (by decide)
    · exact normalizedName_no_separator caseTable rel.Name hsep htable hn
    · exact absurd hu (by decide)
    · exact parseDocID_collection rel.To T k₂ hto hT
  refine ⟨?_, hno, ?_⟩
  · exact CreateRelationship_first_call caseTable memClient s ⟨some rel⟩ rel F k₁ T k₂ rfl hfrom hto
      hname
  · intro key hkey
    exact parseDocID_format _ key hno (collectionName_ne_empty _ _ _) hkey

/-- C26 (amended), at the request of the spec's example. -/
theorem C26_partition_name_without_separator_witness :
    parseDocID "events/e1" = .ok ("events", "e1") ∧
    parseDocID "organizations/o1" = .ok ("organizations", "o1") ∧
    '/' ∉ "hosted by".data ∧
    (∀ r : Char, 0x7F < r.toNat → asciiCaseTable r ≠ '/') ∧
    '/' ∉ (collectionName "events" (normalizedName asciiCaseTable "hosted by")
      "organizations").data :=
  have htable : ∀ r : Char, 0x7F < r.toNat → asciiCaseTable r ≠ '/' := by
    intro r hr h
    have h' : r = '/' := h
    rw [h'] at hr
    exact absurd hr (by decide)
  ⟨rfl, rfl, by decide, htable,
    (C26_partition_name_without_separator asciiCaseTable MemStore.empty
      ⟨"", "", "", "events/e1", "organizations/o1", "hosted by"⟩
      "events" "e1" "organizations" "o1" rfl rfl (by decide) (by decide) htable).2.1⟩

/-! ## One partition per relation type -/

theorem append_separator_inj {α : Type} (x : α) :
    ∀ (a a' r r' : List α), x ∉ a → x ∉ a' → a ++ x :: r = a' ++ x :: r' → a = a' ∧ r = r'
  | [], [], _, _, _, _, h => by
    simp only [List.nil_append, List.cons.injEq, true_and] at h
    exact ⟨rfl, h⟩
  | [], b :: bs, _, _, _, hb, h => by
    simp only [List.nil_append, List.cons_append, List.cons.injEq] at h
    exact absurd (by simp [h.1]) hb
  | b :: bs, [], _, _, ha, _, h => by
    simp only [List.nil_append, List.cons_append, List.cons.injEq] at h
    exact absurd (by simp [h.1]) ha
  | b :: bs, c :: cs, r, r', ha, hb, h => by
    simp only [List.cons_append, List.cons.injEq] at h
    have hbs : x ∉ bs := fun hm => ha (List.mem_cons_of_mem _ hm)
    have hcs : x ∉ cs := fun hm => hb (List.mem_cons_of_mem _ hm)
    obtain ⟨h₁, h₂⟩ := append_separator_inj x bs cs r r' hbs hcs h.2
    exact ⟨by rw [h.1, h₁], h₂⟩

/-- The derivation of the partition name is injective on triples whose from
and to collections hold no underscore. -/
theorem collectionName_injective (F n T F' n' T' : String)
    (hF : '_' ∉ F.data) (hT : '_' ∉ T.data) (hF' : '_' ∉ F'.data) (hT' : '_' ∉ T'.data)
    (h : collectionName F n T = collectionName F' n' T') :
    F = F' ∧ n = n' ∧ T = T' := by
  have hdata : (collectionName F n T).data = (collectionName F' n' T').data := by rw [h]
  rw [collectionName_data, collectionName_data] at hdata
  obtain ⟨hFF, hrest⟩ := append_separator_inj '_' F.data F'.data _ _ hF hF' hdata
  have hrev := congrArg List.reverse hrest
  simp only [List.reverse_append, List.reverse_cons, List.append_assoc, List.singleton_append]
    at hrev
  obtain ⟨hTT, hnn⟩ := append_separator_inj '_' T.data.reverse T'.data.reverse _ _
    (by simpa using hT) (by simpa using hT') hrev
  exact ⟨String.ext hFF, String.ext (List.reverse_injective hnn),
    String.ext (List.reverse_injective hTT)⟩

/-- C21 (as stated, refuted): the triples (`events_hosted`, `by`,
`organizations`) and (`events`, `hosted_by`, `organizations`) differ and derive
the same partition name; the two requests that carry them pass validation and
ask the store for the same partition. -/
theorem C21_counterexample_two_triples_one_partition :
    ("events_hosted", "by", "organizations") ≠ ("events", "hosted_by", "organizations") ∧
    collectionName "events_hosted" "by" "organizations" =
      collectionName "events" "hosted_by" "organizations" ∧
    (CreateRelationship asciiCaseTable memClient MemStore.empty underscoreFromRequest).calls.head? =
      some (.GetCreateEdgeCollection "events_hosted_by_organizations"
        ⟨["events_hosted"], ["organizations"]⟩) ∧
    (CreateRelationship asciiCaseTable memClient MemStore.empty hostedByRequest).calls.head? =
      some (.GetCreateEdgeCollection "events_hosted_by_organizations"
        ⟨["events"], ["organizations"]⟩) :=
  ⟨by decide, by decide, rfl, rfl⟩

/-- C21 (amended): for all triples (F, n, T) and (F', n', T') whose from and
to collections hold no underscore (as the five entity collections) and that
are not equal component-wise, the derived partition names differ; two
validated requests with such triples ask the store for different
partitions. -/
theorem C21_one_partition_per_relation_type (caseTable : Char → Char) (F n T F' n' T' : String)
    (hF : '_' ∉ F.data) (hT : '_' ∉ T.data) (hF' : '_' ∉ F'.data) (hT' : '_' ∉ T'.data)
    (hne : (F, n, T) ≠ (F', n', T')) :
    collectionName F n T ≠ collectionName F' n' T' ∧
    ∀ {σ : Type} (db : ArangoDBClient σ) (s s' : σ) (rel rel' : Relation) (k₁ k₂ k₁' k₂' : String),
      db.ParseDocID rel.From = .ok (F, k₁) → db.ParseDocID rel.To = .ok (T, k₂) →
      db.ParseDocID rel'.From = .ok (F', k₁') → db.ParseDocID rel'.To = .ok (T', k₂') →
      rel.Name ≠ "" → rel'.Name ≠ "" →
      normalizedName caseTable rel.Name = n → normalizedName caseTable rel'.Name = n' →
      (CreateRelationship caseTable db s ⟨some rel⟩).calls.head? ≠
        (CreateRelationship caseTable db s' ⟨some rel'⟩).calls.head? := by
  have hnames : collectionName F n T ≠ collectionName F' n' T' := by
    intro h
    obtain ⟨h₁, h₂, h₃⟩ := collectionName_injective F n T F' n' T' hF hT hF' hT' h
    exact hne (by rw [h₁, h₂, h₃])
  refine ⟨hnames, ?_⟩
  intro σ db s s' rel rel' k₁ k₂ k₁' k₂' hf ht hf' ht' hn hn' hnorm hnorm'
  rw [CreateRelationship_first_call caseTable db s ⟨some rel⟩ rel F k₁ T k₂ rfl hf ht hn,
    CreateRelationship_first_call caseTable db s' ⟨some rel'⟩ rel' F' k₁' T' k₂' rfl hf' ht' hn',
    hnorm, hnorm']
  intro h
  simp only [Option.some.injEq, StoreCall.GetCreateEdgeCollection.injEq] at h
  exact hnames h.1

/-- C21 (amended), for the relation types `hosted_by` from events to
organizations and `related_to` from events to events. -/
theorem C21_one_partition_per_relation_type_witness :
    '_' ∉ "events".data ∧ '_' ∉ "organizations".data ∧
    ("events", "hosted_by", "organizations") ≠ ("events", "related_to", "events") ∧
    collectionName "events" "hosted_by" "organizations" ≠
      collectionName "events" "related_to" "events" :=
  ⟨by decide, by decide, by decide,
    (C21_one_partition_per_relation_type asciiCaseTable "events" "hosted_by" "organizations"
      "events" "related_to" "events" (by decide) (by decide) (by decide) (by decide)
      (by decide)).1⟩

/-! ## The collection of an id is never checked -/

/-- C30: `UpdateRelationship` and `DeleteRelationship` pass the collection and
key parsed from the id unchanged as the partition and key of the query, for
every client; and on the reference store, for every well-formed id that
addresses an existing document in any collection, `DeleteRelationship` removes
that document and succeeds, and `UpdateRelationship` patches it. -/
theorem C30_collection_kind_never_checked (m : MemStore) (id coll key : String)
    (patch : Option Relation) (old : Relation)
    (hwf : m.WellFormed)
    (hid : parseDocID id = .ok (coll, key))
    (hold : m.lookup coll key = some old) :
    (∀ {σ : Type} (db : ArangoDBClient σ) (s : σ), db.ParseDocID id = .ok (coll, key) →
      (UpdateRelationship db s ⟨id, patch⟩).calls =
        [.Query updateQuery ⟨key, some patch, coll⟩] ∧
      (DeleteRelationship db s ⟨id⟩).calls = [.Query deleteQuery ⟨key, none, coll⟩]) ∧
    (DeleteRelationship memClient m ⟨id⟩).result = .ok () ∧
    (DeleteRelationship memClient m ⟨id⟩).store.lookup coll key = none ∧
    (UpdateRelationship memClient m ⟨id, patch⟩).result =
      .ok ⟨old.Id, old.Key, "_r" ++ toString (m.clock + 1), (mergePatch old patch).From,
        (mergePatch old patch).To, (mergePatch old patch).Name⟩ ∧
    (UpdateRelationship memClient m ⟨id, patch⟩).store.lookup coll key =
      some { mergePatch old patch with Rev := "_r" ++ toString (m.clock + 1) } := by
  obtain ⟨hmem, hkey⟩ := MemStore.lookup_some m coll key old hold
  have hcoll : coll ∈ m.collections := (hwf.1 _ hmem).1
  have hkey₁ : ({ mergePatch old patch with
      Rev := "_r" ++ toString (m.clock + 1) } : Relation).Key = key := by
    cases patch <;> exact hkey
  refine ⟨?_, ?_, ?_, ?_, ?_⟩
  · intro σ db s hdb
    exact ⟨UpdateRelationship_calls db s ⟨id, patch⟩ coll key hdb,
      DeleteRelationship_calls db s ⟨id⟩ coll key hdb⟩
  · rw [DeleteRelationship_mem_found m id coll key old hid hcoll hold]
  · rw [DeleteRelationship_mem_found_store m id coll key old hid hcoll hold]
    exact MemStore.lookup_removed m coll key
  · rw [UpdateRelationship_mem_found m id coll key patch old hid hcoll hold]
  · rw [UpdateRelationship_mem_found_store m id coll key patch old hid hcoll hold]
    exact MemStore.lookup_replaced m coll key old _ hkey₁ hold

/-- C30, at the id `"persons/p1"` of a document of the entity collection
`persons`. -/
theorem C30_collection_kind_never_checked_witness :
    personsStore.WellFormed ∧
    parseDocID "persons/p1" = .ok ("persons", "p1") ∧
    personsStore.lookup "persons" "p1" = some ⟨"persons/p1", "p1", "_r1", "", "", "John Doe"⟩ ∧
    (DeleteRelationship memClient personsStore ⟨"persons/p1"⟩).result = .ok () ∧
    (DeleteRelationship memClient personsStore ⟨"persons/p1"⟩).store.lookup "persons" "p1" =
      none ∧
    (UpdateRelationship memClient personsStore ⟨"persons/p1", some relatedPatch⟩).result =
      .ok ⟨"persons/p1", "p1", "_r2", "", "", "related"⟩ :=
  have h := C30_collection_kind_never_checked personsStore "persons/p1" "persons" "p1"
    (some relatedPatch) ⟨"persons/p1", "p1", "_r1", "", "", "John Doe"⟩ (by decide) rfl rfl
  ⟨by decide, rfl, rfl, h.2.1, h.2.2.1, h.2.2.2.1⟩

/-! ## `CreateRelationship` on the reference store -/

theorem MemStore.getCreateEdgeCollection_eq (s : MemStore) (name : String)
    (c : VertexConstraints) (hvalid : validPartitionName name = true) :
    s.getCreateEdgeCollection name c = ((s.getCreateEdgeCollection name c).1, .ok ⟨name⟩) ∧
    (s.getCreateEdgeCollection name c).1.documents = s.documents ∧
    (s.getCreateEdgeCollection name c).1.clock = s.clock ∧
    name ∈ (s.getCreateEdgeCollection name c).1.collections := by
  unfold MemStore.getCreateEdgeCollection
  rw [if_pos hvalid]
  split_ifs with h
  · exact ⟨rfl, rfl, rfl, h⟩
  · exact ⟨rfl, rfl, rfl, List.mem_cons_self _ _⟩

/-- The reference store refuses a partition name outside the partition-name
alphabet and stays as it was. -/
theorem MemStore.getCreateEdgeCollection_illegal (s : MemStore) (name : String)
    (c : VertexConstraints) (hvalid : ¬ validPartitionName name = true) :
    s.getCreateEdgeCollection name c = (s, .error (.arango 400 "illegal name")) := by
  unfold MemStore.getCreateEdgeCollection
  rw [if_neg hvalid]

/-- A name in the partition-name alphabet holds no separator. -/
theorem validPartitionName_no_separator (name : String) (h : validPartitionName name = true) :
    '/' ∉ name.data := by
  intro hmem
  unfold validPartitionName at h
  rw [Bool.and_eq_true] at h
  have hc := List.all_eq_true.mp h.2 '/' hmem
  exact absurd hc (by decide)

theorem toDigitsCore_ne_nil (b : Nat) : ∀ (fuel n : Nat) (ds : List Char), ds ≠ [] →
    Nat.toDigitsCore b fuel n ds ≠ [] := by
  intro fuel
  induction fuel with
  | zero =>
    intro n ds h
    simpa [Nat.toDigitsCore] using h
  | succ fuel ih =>
    intro n ds _
    unfold Nat.toDigitsCore
    simp only
    split_ifs
    · exact List.cons_ne_nil _ _
    · exact ih _ _ (List.cons_ne_nil _ _)

/-- The decimal text of a number, from which the reference store draws its
keys, is never empty. -/
theorem natToString_ne_empty (n : Nat) : toString n ≠ "" := by
  intro h
  have hd : (toString n).data = [] := by rw [h]
  have hrepr : (toString n).data = Nat.toDigits 10 n := rfl
  rw [hrepr] at hd
  unfold Nat.toDigits at hd
  unfold Nat.toDigitsCore at hd
  simp only at hd
  split_ifs at hd
  exact toDigitsCore_ne_nil 10 _ _ _ (List.cons_ne_nil _ _) hd

theorem MemStore.createVertexCollection_eq (s : MemStore) (name : String) :
    (s.createVertexCollection name).1.documents = s.documents ∧
    (s.createVertexCollection name).1.clock = s.clock ∧
    (s.createVertexCollection name).1.collections = s.collections := by
  unfold MemStore.createVertexCollection
  split_ifs <;> exact ⟨rfl, rfl, rfl⟩

theorem MemStore.createDocument_eq (s : MemStore) (c : Collection) (doc : Relation)
    (h : c.Name ∈ s.collections) :
    s.createDocument c doc =
      ({ s with
          documents := (c.Name, { doc with
            Id := c.Name ++ "/" ++ toString (s.clock + 1), Key := toString (s.clock + 1),
            Rev := "_r" ++ toString (s.clock + 1) }) :: s.documents
          clock := s.clock + 1 },
        .ok (⟨toString (s.clock + 1), c.Name ++ "/" ++ toString (s.clock + 1),
            "_r" ++ toString (s.clock + 1)⟩,
          { doc with
            Id := c.Name ++ "/" ++ toString (s.clock + 1), Key := toString (s.clock + 1),
            Rev := "_r" ++ toString (s.clock + 1) })) := by
  simp only [MemStore.createDocument, h, if_true]

/-- On the reference store every validated request whose derived partition
name is in the partition-name alphabet succeeds: the record comes back with
the id, key and revision the store assigned, and the store gains exactly that
record, at the head of its documents. -/
theorem CreateRelationship_mem_validated (caseTable : Char → Char) (s : MemStore)
    (req : CreateRelationshipRequest) (rel : Relation) (F k₁ T k₂ : String)
    (hreq : req.Relationship = some rel)
    (hfrom : parseDocID rel.From = .ok (F, k₁))
    (hto : parseDocID rel.To = .ok (T, k₂))
    (hname : rel.Name ≠ "")
    (hvalid : validPartitionName (collectionName F (normalizedName caseTable rel.Name) T) = true) :
    (CreateRelationship caseTable memClient s req).result =
      .ok ⟨collectionName F (normalizedName caseTable rel.Name) T ++ "/" ++ toString (s.clock + 1),
        toString (s.clock + 1), "_r" ++ toString (s.clock + 1),
        rel.From, rel.To, rel.Name⟩ ∧
    (CreateRelationship caseTable memClient s req).store.documents =
      (collectionName F (normalizedName caseTable rel.Name) T,
        ⟨collectionName F (normalizedName caseTable rel.Name) T ++ "/" ++ toString (s.clock + 1),
          toString (s.clock + 1), "_r" ++ toString (s.clock + 1),
          rel.From, rel.To, rel.Name⟩) :: s.documents := by
  obtain ⟨h₁, hdocs₁, hclock₁, hmem₁⟩ := MemStore.getCreateEdgeCollection_eq s
    (collectionName F (normalizedName caseTable rel.Name) T) ⟨[F], [T]⟩ hvalid
  obtain ⟨hdocs₂, hclock₂, hcolls₂⟩ := MemStore.createVertexCollection_eq
    (s.getCreateEdgeCollection (collectionName F (normalizedName caseTable rel.Name) T)
      ⟨[F], [T]⟩).1 (collectionName F (normalizedName caseTable rel.Name) T)
  have hmem₂ : (⟨collectionName F (normalizedName caseTable rel.Name) T⟩ : Collection).Name ∈
      ((s.getCreateEdgeCollection (collectionName F (normalizedName caseTable rel.Name) T)
        ⟨[F], [T]⟩).1.createVertexCollection
          (collectionName F (normalizedName caseTable rel.Name) T)).1.collections := by
    rw [hcolls₂]
    exact hmem₁
  have h₃ := MemStore.createDocument_eq _ _ (cleared rel) hmem₂
  rw [CreateRelationship_succeeds caseTable memClient s req rel F k₁ T k₂ _ _ _ _ _
    hreq hfrom hto hname h₁ h₃]
  simp only [hdocs₂, hdocs₁, hclock₂, hclock₁, cleared, and_self]

/-- On the reference store a validated request whose derived partition name is
outside the partition-name alphabet ends in `Internal` after the one call that
was refused, and the store is as it was. -/
theorem CreateRelationship_mem_illegal_name (caseTable : Char → Char) (s : MemStore)
    (req : CreateRelationshipRequest) (rel : Relation) (F k₁ T k₂ : String)
    (hreq : req.Relationship = some rel)
    (hfrom : parseDocID rel.From = .ok (F, k₁))
    (hto : parseDocID rel.To = .ok (T, k₂))
    (hname : rel.Name ≠ "")
    (hvalid : ¬ validPartitionName (collectionName F (normalizedName caseTable rel.Name) T) = true) :
    CreateRelationship caseTable memClient s req =
      ⟨.error internalError, some rel, s,
        [.GetCreateEdgeCollection (collectionName F (normalizedName caseTable rel.Name) T)
          ⟨[F], [T]⟩]⟩ :=
  CreateRelationship_edge_fails caseTable memClient s req rel F k₁ T k₂ s
    (.arango 400 "illegal name") hreq hfrom hto hname
    (MemStore.getCreateEdgeCollection_illegal s _ _ hvalid)

/-- On the reference store a request leaves the documents as they are or adds
the new record at their head. -/
theorem CreateRelationship_mem_documents (caseTable : Char → Char) (s : MemStore)
    (req : CreateRelationshipRequest) :
    (CreateRelationship caseTable memClient s req).store.documents = s.documents ∨
    ∃ rel F k₁ T k₂, req.Relationship = some rel ∧
      parseDocID rel.From = .ok (F, k₁) ∧ parseDocID rel.To = .ok (T, k₂) ∧ rel.Name ≠ "" ∧
      (CreateRelationship caseTable memClient s req).store.documents =
        (collectionName F (normalizedName caseTable rel.Name) T,
          ⟨collectionName F (normalizedName caseTable rel.Name) T ++ "/" ++
              toString (s.clock + 1),
            toString (s.clock + 1), "_r" ++ toString (s.clock + 1),
            rel.From, rel.To, rel.Name⟩) :: s.documents := by
  rcases hreq : req.Relationship with _ | rel
  · rw [CreateRelationship_nil caseTable memClient s req hreq]
    exact Or.inl rfl
  rcases hfrom : parseDocID rel.From with e | ⟨F, k₁⟩
  · rw [CreateRelationship_bad_from caseTable memClient s req rel e hreq hfrom]
    exact Or.inl rfl
  rcases hto : parseDocID rel.To with e | ⟨T, k₂⟩
  · rw [CreateRelationship_bad_to caseTable memClient s req rel F k₁ e hreq hfrom hto]
    exact Or.inl rfl
  by_cases hname : rel.Name = ""
  · rw [CreateRelationship_bad_name caseTable memClient s req rel F k₁ T k₂ hreq hfrom hto hname]
    exact Or.inl rfl
  by_cases hvalid :
      validPartitionName (collectionName F (normalizedName caseTable rel.Name) T) = true
  · exact Or.inr ⟨rel, F, k₁, T, k₂, rfl, hfrom, hto, hname,
      (CreateRelationship_mem_validated caseTable s req rel F k₁ T k₂ hreq hfrom hto hname
        hvalid).2⟩
  · rw [CreateRelationship_mem_illegal_name caseTable s req rel F k₁ T k₂ hreq hfrom hto hname
      hvalid]
    exact Or.inl rfl

/-- The store an update leaves on the reference store: the store as it was,
or the store with the record found at the parsed collection and key
replaced by its merge with the partial. -/
theorem UpdateRelationship_mem_store (s : MemStore) (req : UpdateRelationshipRequest) :
    (UpdateRelationship memClient s req).store = s ∨
    ∃ coll key old, (coll, old) ∈ s.documents ∧ old.Key = key ∧
      (UpdateRelationship memClient s req).store =
        s.replaced coll key
          { mergePatch old req.Relationship with Rev := "_r" ++ toString (s.clock + 1) } := by
  obtain ⟨id, patch⟩ := req
  rcases hid : parseDocID id with e | ⟨coll, key⟩
  · rw [UpdateRelationship_bad_id memClient s ⟨id, patch⟩ e hid]
    exact Or.inl rfl
  by_cases hcoll : coll ∈ s.collections
  · rcases hold : s.lookup coll key with _ | old
    · rw [UpdateRelationship_mem_missing s id coll key patch hid hcoll hold]
      exact Or.inl rfl
    · obtain ⟨hmem, hkey⟩ := MemStore.lookup_some s coll key old hold
      exact Or.inr ⟨coll, key, old, hmem, hkey,
        UpdateRelationship_mem_found_store s id coll key patch old hid hcoll hold⟩
  · rw [UpdateRelationship_mem_no_collection s id coll key patch hid hcoll]
    exact Or.inl rfl

/-- The store a delete leaves on the reference store: the store as it was, or
the store without the records at the parsed collection and key. -/
theorem DeleteRelationship_mem_store (s : MemStore) (req : DeleteRelationshipRequest) :
    (DeleteRelationship memClient s req).store = s ∨
    ∃ coll key, (DeleteRelationship memClient s req).store = s.removed coll key := by
  obtain ⟨id⟩ := req
  rcases hid : parseDocID id with e | ⟨coll, key⟩
  · rw [DeleteRelationship_bad_id memClient s ⟨id⟩ e hid]
    exact Or.inl rfl
  by_cases hcoll : coll ∈ s.collections
  · rcases hold : s.lookup coll key with _ | old
    · rw [DeleteRelationship_mem_missing s id coll key hid hcoll hold]
      exact Or.inl rfl
    · exact Or.inr ⟨coll, key,
        DeleteRelationship_mem_found_store s id coll key old hid hcoll hold⟩
  · rw [DeleteRelationship_mem_no_collection s id coll key hid hcoll]
    exact Or.inl rfl

/-! ## Invariants of the reachable store states -/

/-- Names stay non-empty along every run of the three operations. -/
theorem namesNonEmpty_of_reachable (caseTable : Char → Char) (allowed : Option Relation → Prop)
    (s : MemStore) (h : ReachableWith caseTable allowed s) : s.NamesNonEmpty := by
  induction h with
  | empty =>
    intro d hd
    cases hd
  | create s req _ ih =>
    rcases CreateRelationship_mem_documents caseTable s req with hsame |
      ⟨rel, F, k₁, T, k₂, _, _, _, hname, hdocs⟩
    · intro d hd
      rw [hsame] at hd
      exact ih d hd
    · intro d hd
      rw [hdocs] at hd
      rcases List.mem_cons.mp hd with hnew | hold
      · rw [hnew]
        exact hname
      · exact ih d hold
  | update s req _ _ ih =>
    rcases UpdateRelationship_mem_store s req with hsame | ⟨coll, key, old, hmem, _, hstore⟩
    · rw [hsame]
      exact ih
    · rw [hstore]
      intro d hd
      simp only [MemStore.replaced, List.mem_map] at hd
      obtain ⟨d₀, hd₀, hd'⟩ := hd
      by_cases hm : d₀.1 = coll ∧ d₀.2.Key = key
      · rw [if_pos hm] at hd'
        rw [← hd']
        have hold : old.Name ≠ "" := ih _ hmem
        show (mergePatch old req.Relationship).Name ≠ ""
        rcases req.Relationship with _ | p
        · exact hold
        · simp only [mergePatch]
          split_ifs with hp
          · exact hold
          · exact hp
      · rw [if_neg hm] at hd'
        rw [← hd']
        exact ih d₀ hd₀
  | delete s req _ ih =>
    rcases DeleteRelationship_mem_store s req with hsame | ⟨coll, key, hstore⟩
    · rw [hsame]
      exact ih
    · rw [hstore]
      intro d hd
      simp only [MemStore.removed, List.mem_filter] at hd
      exact ih d hd.1

/-- Records stay in a partition derived from their own endpoints along every
run in which no update sets an endpoint. -/
theorem endpointsMatch_of_reachable (caseTable : Char → Char) (s : MemStore)
    (h : ReachableWith caseTable setsNoEndpoint s) : s.EndpointsMatch := by
  induction h with
  | empty =>
    intro d hd
    cases hd
  | create s req _ ih =>
    rcases CreateRelationship_mem_documents caseTable s req with hsame |
      ⟨rel, F, k₁, T, k₂, _, hfrom, hto, _, hdocs⟩
    · intro d hd
      rw [hsame] at hd
      exact ih d hd
    · intro d hd
      rw [hdocs] at hd
      rcases List.mem_cons.mp hd with hnew | hold
      · rw [hnew]
        exact ⟨F, k₁, T, k₂, normalizedName caseTable rel.Name, hfrom, hto, rfl⟩
      · exact ih d hold
  | update s req hallowed _ ih =>
    rcases UpdateRelationship_mem_store s req with hsame | ⟨coll, key, old, hmem, _, hstore⟩
    · rw [hsame]
      exact ih
    · rw [hstore]
      intro d hd
      simp only [MemStore.replaced, List.mem_map] at hd
      obtain ⟨d₀, hd₀, hd'⟩ := hd
      by_cases hm : d₀.1 = coll ∧ d₀.2.Key = key
      · rw [if_pos hm] at hd'
        rw [← hd']
        obtain ⟨F, k₁, T, k₂, n, hfrom, hto, hpart⟩ := ih _ hmem
        have hkeep : (mergePatch old req.Relationship).From = old.From ∧
            (mergePatch old req.Relationship).To = old.To := by
          rcases hp : req.Relationship with _ | p
          · exact ⟨rfl, rfl⟩
          · obtain ⟨hf, ht⟩ := hallowed p hp
            simp only [mergePatch, hf, ht, if_true, and_self]
        refine ⟨F, k₁, T, k₂, n, ?_, ?_, ?_⟩
        · show parseDocID (mergePatch old req.Relationship).From = _
          rw [hkeep.1]
          exact hfrom
        · show parseDocID (mergePatch old req.Relationship).To = _
          rw [hkeep.2]
          exact hto
        · show d₀.1 = _
          rw [hm.1]
          exact hpart
      · rw [if_neg hm] at hd'
        rw [← hd']
        exact ih d₀ hd₀
  | delete s req _ ih =>
    rcases DeleteRelationship_mem_store s req with hsame | ⟨coll, key, hstore⟩
    · rw [hsame]
      exact ih
    · rw [hstore]
      intro d hd
      simp only [MemStore.removed, List.mem_filter] at hd
      exact ih d hd.1

/-- C24 (as stated, refuted): on the reference store, a create with the name
typed as `"Hosted By"` stores `"Hosted By"`, and an update of the record of the
spec's example with a partial whose name is `"Hosted By"` leaves the stored
name `"Hosted By"`: upper case letters and a space, not the normalized
`"hosted_by"`. -/
theorem C24_counterexample_stored_name_not_normalized :
    (CreateRelationship asciiCaseTable memClient MemStore.empty hostedByRequestTyped).store.documents =
      [("events_hosted_by_organizations",
        ⟨hostedById, "1", "_r1", "events/e2", "organizations/o7", "Hosted By"⟩)] ∧
    (UpdateRelationship memClient storeAfterHostedBy ⟨hostedById, some hostedByPatch⟩).store.lookup
        "events_hosted_by_organizations" "1" =
      some ⟨hostedById, "1", "_r2", "events/e1", "organizations/o1", "Hosted By"⟩ ∧
    normalizedName asciiCaseTable "Hosted By" = "hosted_by" ∧
    ' ' ∈ "Hosted By".data ∧ 'H' ∈ "Hosted By".data :=
  ⟨rfl, rfl, by decide, by decide, by decide⟩

/-- C24 (amended): in every store state reachable on the reference store
through `CreateRelationship`, `UpdateRelationship` and `DeleteRelationship`,
every relationship record has a non-empty name.  The name is the one typed in
the create or given in the last partial that set it; it is not normalized. -/
theorem C24_stored_names_non_empty (caseTable : Char → Char) (s : MemStore)
    (d : String × Relation)
    (hreach : Reachable caseTable s) (hd : d ∈ s.documents) :
    d.2.Name ≠ "" :=
  namesNonEmpty_of_reachable caseTable (fun _ => True) s hreach d hd

/-- C24 (amended), at the store reached by the create of the spec's example
and an update whose partial names the relation `"Hosted By"`. -/
theorem C24_stored_names_non_empty_witness :
    Reachable asciiCaseTable
      (UpdateRelationship memClient storeAfterHostedBy ⟨hostedById, some hostedByPatch⟩).store ∧
    (("events_hosted_by_organizations",
        ⟨hostedById, "1", "_r2", "events/e1", "organizations/o1", "Hosted By"⟩) :
      String × Relation) ∈
      (UpdateRelationship memClient storeAfterHostedBy
        ⟨hostedById, some hostedByPatch⟩).store.documents ∧
    ("Hosted By" : String) ≠ "" :=
  have hreach : Reachable asciiCaseTable
      (UpdateRelationship memClient storeAfterHostedBy ⟨hostedById, some hostedByPatch⟩).store :=
    ReachableWith.update storeAfterHostedBy ⟨hostedById, some hostedByPatch⟩ trivial
      (ReachableWith.create MemStore.empty hostedByRequest ReachableWith.empty)
  ⟨hreach, by decide,
    C24_stored_names_non_empty asciiCaseTable _
      ("events_hosted_by_organizations",
        ⟨hostedById, "1", "_r2", "events/e1", "organizations/o1", "Hosted By"⟩)
      hreach (by decide)⟩

/-- C25 (as stated, refuted): on the reference store, an update of the record
of the spec's example with a partial that sets the from id to `"persons/p1"`
succeeds; the record stays in the partition `"events_hosted_by_organizations"`,
requested with the constraint `From = ["events"]`, and its from id is now in
the collection `persons`. -/
theorem C25_counterexample_update_moves_endpoint :
    (UpdateRelationship memClient storeAfterHostedBy
        ⟨hostedById, some personEndpointPatch⟩).store.documents =
      [("events_hosted_by_organizations",
        ⟨hostedById, "1", "_r2", "persons/p1", "organizations/o1", "hosted by"⟩)] ∧
    (UpdateRelationship memClient storeAfterHostedBy
        ⟨hostedById, some personEndpointPatch⟩).store.constraints =
      [("events_hosted_by_organizations", ⟨["events"], ["organizations"]⟩)] ∧
    parseDocID "persons/p1" = .ok ("persons", "p1") ∧
    "persons" ∉ ["events"] :=
  ⟨rfl, rfl, rfl, by decide⟩

/-- C25 (amended): in every store state reachable on the reference store
through `CreateRelationship`, `DeleteRelationship` and those
`UpdateRelationship` calls whose partial sets neither from nor to, every edge
record lies in a partition derived from (F, n, T) for some relation name n,
where F is the collection of its from id and T the collection of its to id.
The record a create inserts satisfies this for the triple of its request. -/
theorem C25_endpoints_match_partition (caseTable : Char → Char) (s : MemStore)
    (d : String × Relation)
    (hreach : ReachableWith caseTable setsNoEndpoint s) (hd : d ∈ s.documents) :
    ∃ F k₁ T k₂ n,
      parseDocID d.2.From = .ok (F, k₁) ∧ parseDocID d.2.To = .ok (T, k₂) ∧
      d.1 = collectionName F n T :=
  endpointsMatch_of_reachable caseTable s hreach d hd

/-- C25 (amended), at the store reached by the create of the spec's example
and an update whose partial sets only the name. -/
theorem C25_endpoints_match_partition_witness :
    ReachableWith asciiCaseTable setsNoEndpoint
      (UpdateRelationship memClient storeAfterHostedBy ⟨hostedById, some relatedPatch⟩).store ∧
    (("events_hosted_by_organizations",
        ⟨hostedById, "1", "_r2", "events/e1", "organizations/o1", "related"⟩) :
      String × Relation) ∈
      (UpdateRelationship memClient storeAfterHostedBy
        ⟨hostedById, some relatedPatch⟩).store.documents ∧
    ∃ F k₁ T k₂ n,
      parseDocID "events/e1" = .ok (F, k₁) ∧ parseDocID "organizations/o1" = .ok (T, k₂) ∧
      "events_hosted_by_organizations" = collectionName F n T :=
  have hallowed : setsNoEndpoint (some relatedPatch) := by
    intro p hp
    cases hp
    exact ⟨rfl, rfl⟩
  have hreach : ReachableWith asciiCaseTable setsNoEndpoint
      (UpdateRelationship memClient storeAfterHostedBy ⟨hostedById, some relatedPatch⟩).store :=
    ReachableWith.update storeAfterHostedBy ⟨hostedById, some relatedPatch⟩ hallowed
      (ReachableWith.create MemStore.empty hostedByRequest ReachableWith.empty)
  ⟨hreach, by decide,
    C25_endpoints_match_partition asciiCaseTable _
      ("events_hosted_by_organizations",
        ⟨hostedById, "1", "_r2", "events/e1", "organizations/o1", "related"⟩)
      hreach (by decide)⟩

/-! ## The entity services -/

/-- A read that fails. -/
theorem GetEntity_read_fails {σ φ : Type} (kind : EntityKind) (c : EntityCollection σ φ)
    (s s₁ : σ) (key : String) (err : DriverError)
    (h : c.ReadDocument s key = (s₁, .error err)) :
    GetEntity kind c s key = ⟨.error (entityError kind err), s₁⟩ := by
  simp only [GetEntity, h, entityError]
  split_ifs <;> rfl

/-- A read that succeeds. -/
theorem GetEntity_succeeds {σ φ : Type} (kind : EntityKind) (c : EntityCollection σ φ)
    (s s₁ : σ) (key : String) (meta : DocumentMeta) (entity : Entity φ)
    (h : c.ReadDocument s key = (s₁, .ok (meta, entity))) :
    GetEntity kind c s key =
      ⟨.ok { entity with Id := meta.ID, Key := meta.Key, Rev := meta.Rev }, s₁⟩ := by
  simp only [GetEntity, h]

/-- A create that fails. -/
theorem CreateEntity_fails {σ φ : Type} (kind : EntityKind) (c : EntityCollection σ φ)
    (s s₁ : σ) (entity : Option (Entity φ)) (err : DriverError)
    (h : c.CreateDocument s entity = (s₁, .error err)) :
    CreateEntity kind c s entity = ⟨.error internalError, s₁⟩ := by
  simp only [CreateEntity, h]

/-- A create that succeeds. -/
theorem CreateEntity_succeeds {σ φ : Type} (kind : EntityKind) (c : EntityCollection σ φ)
    (s s₁ : σ) (entity : Option (Entity φ)) (meta : DocumentMeta) (created : Entity φ)
    (h : c.CreateDocument s entity = (s₁, .ok (meta, created))) :
    CreateEntity kind c s entity =
      ⟨.ok { created with Id := meta.ID, Key := meta.Key, Rev := meta.Rev }, s₁⟩ := by
  simp only [CreateEntity, h]

/-- An update that fails. -/
theorem UpdateEntity_fails {σ φ : Type} (kind : EntityKind) (c : EntityCollection σ φ)
    (s s₁ : σ) (entity : Option (Entity φ)) (err : DriverError)
    (h : c.UpdateDocument s (requestKey entity) entity = (s₁, .error err)) :
    UpdateEntity kind c s entity = ⟨.error (entityError kind err), s₁⟩ := by
  simp only [UpdateEntity, h, entityError]
  split_ifs <;> rfl

/-- An update that succeeds. -/
theorem UpdateEntity_succeeds {σ φ : Type} (kind : EntityKind) (c : EntityCollection σ φ)
    (s s₁ : σ) (entity : Option (Entity φ)) (meta : DocumentMeta) (updated : Entity φ)
    (h : c.UpdateDocument s (requestKey entity) entity = (s₁, .ok (meta, updated))) :
    UpdateEntity kind c s entity =
      ⟨.ok { updated with Id := meta.ID, Key := meta.Key, Rev := meta.Rev }, s₁⟩ := by
  simp only [UpdateEntity, h]

/-- A delete that fails. -/
theorem DeleteEntity_fails {σ φ : Type} (kind : EntityKind) (c : EntityCollection σ φ)
    (s s₁ : σ) (key : String) (err : DriverError)
    (h : c.RemoveDocument s key = (s₁, .error err)) :
    DeleteEntity kind c s key = ⟨.error (entityError kind err), s₁⟩ := by
  simp only [DeleteEntity, h, entityError]
  split_ifs <;> rfl

/-- A delete that succeeds. -/
theorem DeleteEntity_succeeds {σ φ : Type} (kind : EntityKind) (c : EntityCollection σ φ)
    (s s₁ : σ) (key : String) (meta : DocumentMeta)
    (h : c.RemoveDocument s key = (s₁, .ok meta)) :
    DeleteEntity kind c s key = ⟨.ok (), s₁⟩ := by
  simp only [DeleteEntity, h]

/-- The code of the status an entity service returns for a store error. -/
theorem entityError_code (kind : EntityKind) (err : DriverError) :
    (entityError kind err).code =
      if IsNotFoundGeneral err then Code.NotFound else Code.Internal := by
  unfold entityError
  split_ifs <;> rfl

/-- C22: on the reference entity store, for each entity service, after a
successful create that returns key k, the get of k succeeds and returns the
created record: its key is k and its fields are those handed to the create;
and for every collection handle the record a create or a get returns takes
its id, key and revision from the store's metadata. -/
theorem C22_entity_create_get_round_trip {φ : Type} (kind : EntityKind) (merge : φ → φ → φ)
    (s : EntityStore φ) (entity r : Entity φ)
    (hok : (CreateEntity kind (entityClient merge) s (some entity)).result = .ok r) :
    (GetEntity kind (entityClient merge)
      (CreateEntity kind (entityClient merge) s (some entity)).store r.Key).result = .ok r ∧
    r.fields = entity.fields ∧
    r.Key = toString (s.clock + 1) ∧
    (∀ {σ : Type} (c : EntityCollection σ φ) (t t₁ : σ) (doc : Option (Entity φ))
        (meta : DocumentMeta) (d : Entity φ),
      c.CreateDocument t doc = (t₁, .ok (meta, d)) →
      (CreateEntity kind c t doc).result =
        .ok { d with Id := meta.ID, Key := meta.Key, Rev := meta.Rev }) ∧
    (∀ {σ : Type} (c : EntityCollection σ φ) (t t₁ : σ) (key : String)
        (meta : DocumentMeta) (d : Entity φ),
      c.ReadDocument t key = (t₁, .ok (meta, d)) →
      (GetEntity kind c t key).result =
        .ok { d with Id := meta.ID, Key := meta.Key, Rev := meta.Rev }) := by
  have hcreate : CreateEntity kind (entityClient merge) s (some entity) =
      ⟨.ok ⟨s.name ++ "/" ++ toString (s.clock + 1), toString (s.clock + 1),
          "_r" ++ toString (s.clock + 1), entity.fields⟩,
        { s with
          documents := ⟨s.name ++ "/" ++ toString (s.clock + 1), toString (s.clock + 1),
            "_r" ++ toString (s.clock + 1), entity.fields⟩ :: s.documents
          clock := s.clock + 1 }⟩ :=
    CreateEntity_succeeds kind (entityClient merge) s _ (some entity) _ _ rfl
  rw [hcreate] at hok ⊢
  have hr : r = ⟨s.name ++ "/" ++ toString (s.clock + 1), toString (s.clock + 1),
      "_r" ++ toString (s.clock + 1), entity.fields⟩ := by
    cases hok
    rfl
  refine ⟨?_, ?_, ?_, ?_, ?_⟩
  · rw [hr]
    have hread : (entityClient merge).ReadDocument
        { s with
          documents := ⟨s.name ++ "/" ++ toString (s.clock + 1), toString (s.clock + 1),
            "_r" ++ toString (s.clock + 1), entity.fields⟩ :: s.documents
          clock := s.clock + 1 } (toString (s.clock + 1)) =
        ({ s with
          documents := ⟨s.name ++ "/" ++ toString (s.clock + 1), toString (s.clock + 1),
            "_r" ++ toString (s.clock + 1), entity.fields⟩ :: s.documents
          clock := s.clock + 1 },
          .ok (⟨toString (s.clock + 1), s.name ++ "/" ++ toString (s.clock + 1),
            "_r" ++ toString (s.clock + 1)⟩,
          ⟨s.name ++ "/" ++ toString (s.clock + 1), toString (s.clock + 1),
            "_r" ++ toString (s.clock + 1), entity.fields⟩)) := by
      show EntityStore.readDocument _ _ = _
      simp [EntityStore.readDocument, List.find?_cons]
    rw [GetEntity_succeeds kind (entityClient merge) _ _ _ _ _ hread]
  · rw [hr]
  · rw [hr]
  · intro σ c t t₁ doc meta d h
    rw [CreateEntity_succeeds kind c t t₁ doc meta d h]
  · intro σ c t t₁ key meta d h
    rw [GetEntity_succeeds kind c t t₁ key meta d h]

/-- C22, for the person and the website of the tests of the two services. -/
theorem C22_entity_create_get_round_trip_witness :
    (CreateEntity .persons (entityClient (fun _ new => new)) emptyPersons
      (some johnDoe)).result = .ok ⟨"persons/1", "1", "_r1", "John Doe"⟩ ∧
    (GetEntity .persons (entityClient (fun _ new => new))
      (CreateEntity .persons (entityClient (fun _ new => new)) emptyPersons
        (some johnDoe)).store "1").result = .ok ⟨"persons/1", "1", "_r1", "John Doe"⟩ ∧
    (CreateEntity .websites (entityClient (fun _ new => new)) emptyWebsites
      (some exampleWebsite)).result = .ok ⟨"websites/1", "1", "_r1", "https://example.com"⟩ ∧
    (GetEntity .websites (entityClient (fun _ new => new))
      (CreateEntity .websites (entityClient (fun _ new => new)) emptyWebsites
        (some exampleWebsite)).store "1").result =
      .ok ⟨"websites/1", "1", "_r1", "https://example.com"⟩ :=
  ⟨rfl,
    (C22_entity_create_get_round_trip .persons (fun _ new => new) emptyPersons johnDoe
      ⟨"persons/1", "1", "_r1", "John Doe"⟩ rfl).1,
    rfl,
    (C22_entity_create_get_round_trip .websites (fun _ new => new) emptyWebsites exampleWebsite
      ⟨"websites/1", "1", "_r1", "https://example.com"⟩ rfl).1⟩

/-- C23: on the reference entity store, for each entity service and every
key, after a successful delete of the key the get of the key fails with
`NotFound`; and for every collection handle, get, update and delete return
`NotFound` exactly when the store call fails with an error that
`driver.IsNotFoundGeneral` accepts, and `Internal` exactly when it fails with
any other error. -/
theorem C23_entity_not_found {φ : Type} (kind : EntityKind) (merge : φ → φ → φ)
    (s : EntityStore φ) (key : String)
    (hdeleted : (DeleteEntity kind (entityClient merge) s key).result = .ok ()) :
    (GetEntity kind (entityClient merge)
      (DeleteEntity kind (entityClient merge) s key).store key).result =
      .error ⟨Code.NotFound, kind.notFound⟩ ∧
    (∀ {σ : Type} (c : EntityCollection σ φ) (t : σ) (k : String),
      (resultCode (GetEntity kind c t k).result = Code.NotFound ↔
        ∃ e, (c.ReadDocument t k).2 = .error e ∧ IsNotFoundGeneral e = true) ∧
      (resultCode (GetEntity kind c t k).result = Code.Internal ↔
        ∃ e, (c.ReadDocument t k).2 = .error e ∧ IsNotFoundGeneral e = false)) ∧
    (∀ {σ : Type} (c : EntityCollection σ φ) (t : σ) (entity : Option (Entity φ)),
      (resultCode (UpdateEntity kind c t entity).result = Code.NotFound ↔
        ∃ e, (c.UpdateDocument t (requestKey entity) entity).2 = .error e ∧
          IsNotFoundGeneral e = true) ∧
      (resultCode (UpdateEntity kind c t entity).result = Code.Internal ↔
        ∃ e, (c.UpdateDocument t (requestKey entity) entity).2 = .error e ∧
          IsNotFoundGeneral e = false)) ∧
    (∀ {σ : Type} (c : EntityCollection σ φ) (t : σ) (k : String),
      (resultCode (DeleteEntity kind c t k).result = Code.NotFound ↔
        ∃ e, (c.RemoveDocument t k).2 = .error e ∧ IsNotFoundGeneral e = true) ∧
      (resultCode (DeleteEntity kind c t k).result = Code.Internal ↔
        ∃ e, (c.RemoveDocument t k).2 = .error e ∧ IsNotFoundGeneral e = false)) := by
  have hcode : ∀ err : DriverError,
      (resultCode (Except.error (entityError kind err) : Except Status (Entity φ)) =
          Code.NotFound ↔ IsNotFoundGeneral err = true) ∧
      (resultCode (Except.error (entityError kind err) : Except Status (Entity φ)) =
          Code.Internal ↔ IsNotFoundGeneral err = false) := by
    intro err
    simp only [resultCode, entityError_code]
    cases IsNotFoundGeneral err <;> simp
  have hcodeUnit : ∀ err : DriverError,
      (resultCode (Except.error (entityError kind err) : Except Status Unit) =
          Code.NotFound ↔ IsNotFoundGeneral err = true) ∧
      (resultCode (Except.error (entityError kind err) : Except Status Unit) =
          Code.Internal ↔ IsNotFoundGeneral err = false) := by
    intro err
    simp only [resultCode, entityError_code]
    cases IsNotFoundGeneral err <;> simp
  refine ⟨?_, ?_, ?_, ?_⟩
  · rcases hfind : s.documents.find? (fun e => e.Key = key) with _ | e
    · have hrem : (entityClient merge).RemoveDocument s key =
          (s, .error (.arango 404 "document not found")) := by
        show EntityStore.removeDocument s key = _
        simp only [EntityStore.removeDocument, hfind]
      rw [DeleteEntity_fails kind (entityClient merge) s s key _ hrem] at hdeleted
      cases hdeleted
    · have hrem : (entityClient merge).RemoveDocument s key =
          ({ s with documents := s.documents.filter (fun d => ¬ d.Key = key) },
            .ok ⟨e.Key, e.Id, e.Rev⟩) := by
        show EntityStore.removeDocument s key = _
        simp only [EntityStore.removeDocument, hfind]
      rw [DeleteEntity_succeeds kind (entityClient merge) s _ key _ hrem]
      have hgone : (s.documents.filter (fun d => ¬ d.Key = key)).find?
          (fun e => e.Key = key) = none := by
        rw [List.find?_eq_none]
        intro d hd
        simp only [List.mem_filter, decide_eq_true_eq] at hd
        simpa using hd.2
      have hread : (entityClient merge).ReadDocument
          { s with documents := s.documents.filter (fun d => ¬ d.Key = key) } key =
          ({ s with documents := s.documents.filter (fun d => ¬ d.Key = key) },
            .error (.arango 404 "document not found")) := by
        show EntityStore.readDocument _ key = _
        simp only [EntityStore.readDocument, hgone]
      rw [GetEntity_read_fails kind (entityClient merge) _ _ key _ hread]
      rfl
  · intro σ c t k
    rcases h : c.ReadDocument t k with ⟨t₁, err | ⟨meta, d⟩⟩
    · rw [GetEntity_read_fails kind c t t₁ k err h]
      simp only [Except.error.injEq, exists_eq_left']
      exact hcode err
    · rw [GetEntity_succeeds kind c t t₁ k meta d h]
      simp [resultCode]
  · intro σ c t entity
    rcases h : c.UpdateDocument t (requestKey entity) entity with ⟨t₁, err | ⟨meta, d⟩⟩
    · rw [UpdateEntity_fails kind c t t₁ entity err h]
      simp only [Except.error.injEq, exists_eq_left']
      exact hcode err
    · rw [UpdateEntity_succeeds kind c t t₁ entity meta d h]
      simp [resultCode]
  · intro σ c t k
    rcases h : c.RemoveDocument t k with ⟨t₁, err | meta⟩
    · rw [DeleteEntity_fails kind c t t₁ k err h]
      simp only [Except.error.injEq, exists_eq_left']
      exact hcodeUnit err
    · rw [DeleteEntity_succeeds kind c t t₁ k meta h]
      simp [resultCode]

/-- C23, for the website of the test of the website service: created,
deleted, and then read. -/
theorem C23_entity_not_found_witness :
    (DeleteEntity .websites (entityClient (fun _ new => new))
      (CreateEntity .websites (entityClient (fun _ new => new)) emptyWebsites
        (some exampleWebsite)).store "1").result = .ok () ∧
    (GetEntity .websites (entityClient (fun _ new => new))
      (DeleteEntity .websites (entityClient (fun _ new => new))
        (CreateEntity .websites (entityClient (fun _ new => new)) emptyWebsites
          (some exampleWebsite)).store "1").store "1").result =
      .error ⟨Code.NotFound, "Website not found"⟩ ∧
    (GetEntity .persons (readFailsWith (.other "connection refused")) emptyPersons "1").result =
      .error ⟨Code.Internal, "Internal service error. Please try again later."⟩ :=
  ⟨rfl,
    (C23_entity_not_found .websites (fun _ new => new)
      (CreateEntity .websites (entityClient (fun _ new => new)) emptyWebsites
        (some exampleWebsite)).store "1" rfl).1,
    rfl⟩

/-! ## The identity a created record comes back with -/

/-- On the reference store the request of the spec's example with the name
`"a/b"` derives the partition name `"events_a/b_organizations"`, which the
store refuses: the run ends in `Internal` and nothing is stored. -/
theorem CreateRelationship_mem_separator_name_refused :
    CreateRelationship asciiCaseTable memClient MemStore.empty slashNameRequest =
      ⟨.error internalError, slashNameRequest.Relationship, MemStore.empty,
        [.GetCreateEdgeCollection "events_a/b_organizations" ⟨["events"], ["organizations"]⟩]⟩ :=
  rfl

/-- C7: for every successful `CreateRelationship`, on every client, the
returned record's id, key and revision are those the store assigned to the
inserted document, and with a store that hands back the requested partition
and forms ids as `"<partition>/<key>"` the returned id is the derived partition
name, `"/"`, the returned key.  On the reference store, which takes partition
names of the partition-name alphabet only and draws non-empty keys, every
successful run returns the record it stored, at the head of the documents and
in the derived partition; the record is found there under the returned key;
parsing the returned id gives back (derived partition, returned key); and a
later update or delete by that id queries that partition and key. -/
theorem C7_returned_id_parses_back (caseTable : Char → Char) :
    (∀ {σ : Type} (db : ArangoDBClient σ) (s : σ) (req : CreateRelationshipRequest)
        (r : Relation),
      (CreateRelationship caseTable db s req).result = .ok r →
      ∃ rel F k₁ T k₂ s₁ collection s₃ meta created,
        req.Relationship = some rel ∧
        db.ParseDocID rel.From = .ok (F, k₁) ∧ db.ParseDocID rel.To = .ok (T, k₂) ∧
        db.GetCreateEdgeCollection s
          (collectionName F (normalizedName caseTable rel.Name) T) ⟨[F], [T]⟩ =
          (s₁, .ok collection) ∧
        db.CreateDocument (db.CreateVertexCollectionWithOptions s₁ collection.Name).1
          collection (cleared rel) = (s₃, .ok (meta, created)) ∧
        r.Id = meta.ID ∧ r.Key = meta.Key ∧ r.Rev = meta.Rev ∧
        (collection.Name = collectionName F (normalizedName caseTable rel.Name) T →
          meta.ID = collection.Name ++ "/" ++ meta.Key →
          r.Id = collectionName F (normalizedName caseTable rel.Name) T ++ "/" ++ r.Key)) ∧
    (∀ (s : MemStore) (req : CreateRelationshipRequest) (r : Relation),
      (CreateRelationship caseTable memClient s req).result = .ok r →
      ∃ rel F k₁ T k₂,
        req.Relationship = some rel ∧
        parseDocID rel.From = .ok (F, k₁) ∧ parseDocID rel.To = .ok (T, k₂) ∧
        (CreateRelationship caseTable memClient s req).store.documents =
          (collectionName F (normalizedName caseTable rel.Name) T, r) :: s.documents ∧
        (CreateRelationship caseTable memClient s req).store.lookup
          (collectionName F (normalizedName caseTable rel.Name) T) r.Key = some r ∧
        r.Id = collectionName F (normalizedName caseTable rel.Name) T ++ "/" ++ r.Key ∧
        parseDocID r.Id = .ok (collectionName F (normalizedName caseTable rel.Name) T, r.Key) ∧
        ∀ (s' : MemStore) (patch : Option Relation),
          (UpdateRelationship memClient s' ⟨r.Id, patch⟩).calls =
            [.Query updateQuery
              ⟨r.Key, some patch, collectionName F (normalizedName caseTable rel.Name) T⟩] ∧
          (DeleteRelationship memClient s' ⟨r.Id⟩).calls =
            [.Query deleteQuery
              ⟨r.Key, none, collectionName F (normalizedName caseTable rel.Name) T⟩]) := by
  constructor
  · intro σ db s req r hok
    obtain ⟨rel, F, k₁, T, k₂, s₁, collection, s₃, meta, created, hreq, hfrom, hto, _, h₁, h₃,
      hr, _⟩ := CreateRelationship_ok_inv caseTable db s req r hok
    refine ⟨rel, F, k₁, T, k₂, s₁, collection, s₃, meta, created, hreq, hfrom, hto, h₁, h₃,
      ?_, ?_, ?_, ?_⟩
    · rw [hr]
    · rw [hr]
    · rw [hr]
    · intro hhandle hid
      rw [hr]
      show meta.ID = _ ++ "/" ++ meta.Key
      rw [hid, hhandle]
  · intro s req r hok
    obtain ⟨rel, F, k₁, T, k₂, s₁, collection, s₃, meta, created, hreq, hfrom, hto, hname, h₁,
      _, _, _⟩ := CreateRelationship_ok_inv caseTable memClient s req r hok
    have hfrom' : parseDocID rel.From = .ok (F, k₁) := hfrom
    have hto' : parseDocID rel.To = .ok (T, k₂) := hto
    by_cases hvalid :
        validPartitionName (collectionName F (normalizedName caseTable rel.Name) T) = true
    · obtain ⟨hres, hdocs⟩ := CreateRelationship_mem_validated caseTable s req rel F k₁ T k₂
        hreq hfrom' hto' hname hvalid
      rw [hres] at hok
      have hr : r = ⟨collectionName F (normalizedName caseTable rel.Name) T ++ "/" ++
          toString (s.clock + 1), toString (s.clock + 1), "_r" ++ toString (s.clock + 1),
          rel.From, rel.To, rel.Name⟩ := (Except.ok.inj hok).symm
      have hparse : parseDocID r.Id =
          .ok (collectionName F (normalizedName caseTable rel.Name) T, r.Key) := by
        rw [hr]
        exact parseDocID_format _ _ (validPartitionName_no_separator _ hvalid)
          (collectionName_ne_empty _ _ _) (natToString_ne_empty _)
      refine ⟨rel, F, k₁, T, k₂, hreq, hfrom', hto', ?_, ?_, ?_, hparse, ?_⟩
      · rw [hdocs, hr]
      · unfold MemStore.lookup
        rw [hdocs, hr]
        simp
      · rw [hr]
      · intro s' patch
        exact ⟨UpdateRelationship_calls memClient s' ⟨r.Id, patch⟩ _ _ hparse,
          DeleteRelationship_calls memClient s' ⟨r.Id⟩ _ _ hparse⟩
    · rw [CreateRelationship_mem_illegal_name caseTable s req rel F k₁ T k₂ hreq hfrom' hto'
        hname hvalid] at hok
      cases hok

/-- C7, at the request of the spec's example on the empty reference store: the
run succeeds, the returned id `"events_hosted_by_organizations/1"` parses back
to the partition and the key, and an update or delete by it queries them. -/
theorem C7_returned_id_parses_back_witness :
    (CreateRelationship asciiCaseTable memClient MemStore.empty hostedByRequest).result =
      .ok ⟨"events_hosted_by_organizations/1", "1", "_r1", "events/e1", "organizations/o1",
        "hosted by"⟩ ∧
    parseDocID "events_hosted_by_organizations/1" =
      .ok ("events_hosted_by_organizations", "1") ∧
    ∀ (s' : MemStore) (patch : Option Relation),
      (UpdateRelationship memClient s' ⟨"events_hosted_by_organizations/1", patch⟩).calls =
        [.Query updateQuery ⟨"1", some patch, "events_hosted_by_organizations"⟩] ∧
      (DeleteRelationship memClient s' ⟨"events_hosted_by_organizations/1"⟩).calls =
        [.Query deleteQuery ⟨"1", none, "events_hosted_by_organizations"⟩] := by
  obtain ⟨rel, F, k₁, T, k₂, _, _, _, hdocs, _, _, hparse, hcalls⟩ :=
    (C7_returned_id_parses_back asciiCaseTable).2 MemStore.empty hostedByRequest
      ⟨"events_hosted_by_organizations/1", "1", "_r1", "events/e1", "organizations/o1",
        "hosted by"⟩ rfl
  have hlist : [("events_hosted_by_organizations",
        (⟨"events_hosted_by_organizations/1", "1", "_r1", "events/e1", "organizations/o1",
          "hosted by"⟩ : Relation))] =
      [(collectionName F (normalizedName asciiCaseTable rel.Name) T,
        (⟨"events_hosted_by_organizations/1", "1", "_r1", "events/e1", "organizations/o1",
          "hosted by"⟩ : Relation))] := hdocs
  have hcoll : collectionName F (normalizedName asciiCaseTable rel.Name) T =
      "events_hosted_by_organizations" :=
    (congrArg Prod.fst (List.head_eq_of_cons_eq hlist)).symm
  rw [hcoll] at hparse hcalls
  exact ⟨rfl, hparse, hcalls⟩

end Omnibasement
